import Mathlib

/-!
# SolidDB row store: a shallow embedding of `core/Table.{h,cpp}` and `core/Database.{h,cpp}`

The definitions below follow `src/include/core/Table.h`, `src/src/core/Table.cpp`,
`src/src/core/Database.cpp`, `src/src/util/StringUtils.cpp` and the column-definition
part of `src/src/parser/CommandParser.cpp` function by function.

Modelling conventions:

* `std::string` is `String`, one `Char` per `char`; `empty()` is comparison with `""`.
  The source only compares whole strings and looks for the ASCII characters `,`, `=`,
  `"`, newline, whitespace, signs and digits, so the character set is immaterial.
* `std::vector<T>` is `List T`; `v[i]` is `List.getD` (every index used by the
  source is in range after `validateRow`, so the default is never observed).
* the `int` constraint bitmask is an `Int`; `&` and `|` are `Int.land` and
  `Int.lor` (two's complement on unbounded integers, which agrees with the
  32-bit operations for the masks 1, 2, 4: no bit above bit 2 is touched).
* `int` results that are an index or `-1` are `Option Nat`.
* `size_t` arithmetic that can wrap (`value.size() - 2`) is taken modulo `2 ^ 64`.
* `operator<<` for `size_t` and `int` is `toString` on `Nat` and `Int` (decimal, `-` for
  negative values); `std::endl` is a newline.
* `std::unordered_map<std::string, size_t>` is an association list with unique
  keys; `std::unordered_set<std::string>` is a duplicate-free list.  The source
  never iterates over either container, so their internal order is unobservable.
* text written to `std::cout` is returned as a list of lines.
-/

namespace SolidDB

/-! ## `ColumnConstraint` and `ColumnDef` (Table.h 15-37) -/

/-- Enumerator `ColumnConstraint::PRIMARY_KEY = 1`. -/
def PRIMARY_KEY : Int := 1

/-- Enumerator `ColumnConstraint::UNIQUE = 2`. -/
def UNIQUE : Int := 2

/-- Enumerator `ColumnConstraint::NOT_NULL = 4`. -/
def NOT_NULL : Int := 4

/-- Column definition: name, type label and constraint bitmask. -/
structure ColumnDef where
  name : String
  type : String
  constraints : Int := 0
deriving DecidableEq, Repr

namespace ColumnDef

/-- Source: `(constraints & PRIMARY_KEY) != 0`. -/
def isPrimaryKey (c : ColumnDef) : Bool := Int.land c.constraints PRIMARY_KEY != 0

/-- Source: `(constraints & UNIQUE) != 0`. -/
def isUnique (c : ColumnDef) : Bool := Int.land c.constraints UNIQUE != 0

/-- Source: `(constraints & NOT_NULL) != 0`. -/
def isNotNull (c : ColumnDef) : Bool := Int.land c.constraints NOT_NULL != 0

/-- Source: `isPrimaryKey() || isUnique()`. -/
def requiresUniqueValue (c : ColumnDef) : Bool := c.isPrimaryKey || c.isUnique

/-- Source: `constraints |= NOT_NULL` (Table.cpp 18). -/
def addNotNull (c : ColumnDef) : ColumnDef :=
  { c with constraints := Int.lor c.constraints NOT_NULL }

end ColumnDef

instance : Inhabited ColumnDef := ⟨⟨"", "", 0⟩⟩

/-! ## Containers -/

/-- Model of `std::unordered_map<std::string, size_t>`. -/
abbrev PkMap := List (String × Nat)

/-- Model of `std::unordered_set<std::string>`. -/
abbrev StrSet := List String

/-- Source: `m.find(k) != m.end()`. -/
def PkMap.contains (m : PkMap) (k : String) : Bool := m.any (fun p => p.1 == k)

/-- Source: `m[k] = v` (insert the key or overwrite its value). -/
def PkMap.assign (m : PkMap) (k : String) (v : Nat) : PkMap :=
  (k, v) :: m.filter (fun p => p.1 != k)

/-- Source: `m.find(k)`, as the mapped value when the key is present. -/
def PkMap.find (m : PkMap) (k : String) : Option Nat := m.lookup k

/-- Source: `s.find(v) != s.end()`. -/
def StrSet.contains (s : StrSet) (v : String) : Bool := s.elem v

/-- Source: `s.insert(v)`. -/
def StrSet.insert (s : StrSet) (v : String) : StrSet := if s.elem v then s else v :: s

/-! ## `Table` (Table.h 42-114) -/

/-- The private data members of `class Table`. -/
structure Table where
  name : String
  columns : List ColumnDef
  rows : List (List String)
  primaryKeyIndex : PkMap
  uniqueIndexes : List StrSet
deriving DecidableEq, Repr

namespace Table

/-- Source: `columns_[i]`. -/
def col (t : Table) (i : Nat) : ColumnDef := t.columns.getD i default

/-- Table.cpp 211-218: index of the first column flagged PRIMARY_KEY, `none` for `-1`. -/
def getPrimaryKeyColumnIndex (t : Table) : Option Nat :=
  t.columns.findIdx? ColumnDef.isPrimaryKey

/-- Table.cpp 130-132. -/
def getRowCount (t : Table) : Nat := t.rows.length

/-- Table.cpp 9-21: constructor from column definitions. -/
def new (name : String) (columns : List ColumnDef) : Table :=
  let t : Table :=
    { name := name, columns := columns, rows := [], primaryKeyIndex := [],
      uniqueIndexes := List.replicate columns.length [] }
  match t.getPrimaryKeyColumnIndex with
  | some pkIndex =>
    if !(t.col pkIndex).isNotNull then
      { t with columns := t.columns.modify ColumnDef.addNotNull pkIndex }
    else t
  | none => t

/-- Table.cpp 23-34: constructor from (name, type) pairs, no constraints. -/
def ofPairs (name : String) (columns : List (String × String)) : Table :=
  { name := name,
    columns := columns.map (fun p => { name := p.1, type := p.2 }),
    rows := [], primaryKeyIndex := [],
    uniqueIndexes := List.replicate columns.length [] }

/-- Table.cpp 134-143: `none` when the row is accepted, otherwise the line printed. -/
def validateRowMsg (t : Table) (values : List String) : Option String :=
  if values.length ≠ t.columns.length then
    some ("Error: Expected " ++ toString t.columns.length ++ " values, got "
      ++ toString values.length)
  else none

/-- Table.cpp 134-143. -/
def validateRow (t : Table) (values : List String) : Bool :=
  (t.validateRowMsg values).isNone

/-- Table.cpp 146-152: the NOT NULL loop; the message of the first violation. -/
def notNullViolation (t : Table) (values : List String) : Option String :=
  (List.range t.columns.length).findSome? fun i =>
    if (t.col i).isNotNull && values.getD i "" == "" then
      some ("Error: Column '" ++ (t.col i).name ++ "' cannot be NULL")
    else none

/-- Table.cpp 154-162: the PRIMARY KEY check. -/
def primaryKeyViolation (t : Table) (values : List String) : Option String :=
  match t.getPrimaryKeyColumnIndex with
  | some pkIndex =>
    let pkValue := values.getD pkIndex ""
    if t.primaryKeyIndex.contains pkValue then
      some ("Error: Duplicate primary key value '" ++ pkValue ++ "'")
    else none
  | none => none

/-- Table.cpp 164-174: the UNIQUE loop; the message of the first violation. -/
def uniqueViolation (t : Table) (values : List String) : Option String :=
  (List.range t.columns.length).findSome? fun i =>
    if (t.col i).isUnique && !(t.col i).isPrimaryKey then
      let uniqueValue := values.getD i ""
      if uniqueValue != "" && (t.uniqueIndexes.getD i []).contains uniqueValue then
        some ("Error: Duplicate value '" ++ uniqueValue ++ "' in unique column '"
          ++ (t.col i).name ++ "'")
      else none
    else none

/-- Table.cpp 145-177: `none` when every constraint holds, otherwise the line printed by
the first failing check, in the order NOT NULL, PRIMARY KEY, UNIQUE. -/
def checkConstraintsMsg (t : Table) (values : List String) : Option String :=
  match t.notNullViolation values with
  | some m => some m
  | none =>
    match t.primaryKeyViolation values with
    | some m => some m
    | none => t.uniqueViolation values

/-- Table.cpp 145-177. -/
def checkConstraints (t : Table) (values : List String) : Bool :=
  (t.checkConstraintsMsg values).isNone

/-- Table.cpp 58-63: the loop that adds the new row's values to the unique sets. -/
def updateUniqueIndexes (t : Table) (values : List String) : List StrSet :=
  (List.range t.columns.length).foldl
    (fun idx i =>
      if (t.col i).requiresUniqueValue then
        idx.modify (fun s => s.insert (values.getD i "")) i
      else idx)
    t.uniqueIndexes

/-- Result of `insertRow`: the returned `bool`, the table afterwards, and the lines
written to `std::cout`. -/
structure InsertResult where
  ok : Bool
  table : Table
  out : List String
deriving DecidableEq, Repr

/-- Table.cpp 36-66. -/
def insertRow (t : Table) (values : List String) : InsertResult :=
  match t.validateRowMsg values with
  | some m => { ok := false, table := t, out := [m] }
  | none =>
    match t.checkConstraintsMsg values with
    | some m => { ok := false, table := t, out := [m] }
    | none =>
      let rows := t.rows ++ [values]
      let rowIndex := rows.length - 1
      let pk : PkMap :=
        match t.getPrimaryKeyColumnIndex with
        | some pkIndex => t.primaryKeyIndex.assign (values.getD pkIndex "") rowIndex
        | none => t.primaryKeyIndex
      { ok := true,
        table := { t with rows := rows, primaryKeyIndex := pk,
                          uniqueIndexes := t.updateUniqueIndexes values },
        out := [] }

end Table

/-! ## Input streams (`std::stringstream` as used by `Table::deserialize`)

Only the operations `deserialize` uses are modelled: `std::getline` with a delimiter,
`operator>>(int&)` and `ignore()`, together with the `eofbit` / `failbit` state they
read and write (classic locale, default `skipws | dec` format flags). -/

/-- An input string stream: the unread characters and the two state bits. -/
structure IStream where
  buf : List Char
  eofbit : Bool := false
  failbit : Bool := false
deriving DecidableEq, Repr

namespace IStream

/-- Source: `std::stringstream ss(data)`. -/
def ofString (data : String) : IStream := { buf := data.data }

/-- Source: `good()`: no state bit is set. -/
def good (s : IStream) : Bool := !s.eofbit && !s.failbit

/-- Source: `std::getline(s, str, delim)`.  A stream that is not good only gets `failbit` and
leaves `str` alone.  Otherwise characters are moved to `str` up to the delimiter, which is
consumed and dropped; at end of input `eofbit` is set, and also `failbit` when nothing at
all was extracted. -/
def getline (s : IStream) (str : String) (delim : Char) : IStream × String :=
  if !s.good then ({ s with failbit := true }, str)
  else
    match s.buf.span (fun c => c != delim) with
    | (line, []) => ({ buf := [], eofbit := true, failbit := line.isEmpty }, String.mk line)
    | (line, _ :: rest) => ({ s with buf := rest }, String.mk line)

/-- Source: `ignore()`, that is `ignore(1, EOF)`: drops one character, sets `eofbit` when
there is none. -/
def ignore (s : IStream) : IStream :=
  if !s.good then { s with failbit := true }
  else
    match s.buf with
    | [] => { s with eofbit := true }
    | _ :: rest => { s with buf := rest }

end IStream

/-- Source: `std::isspace` in the "C" locale. -/
def isSpace (c : Char) : Bool :=
  c == ' ' || c == '\t' || c == '\n' || c == '\x0b' || c == '\x0c' || c == '\r'

/-- Value of a run of decimal digits. -/
def digitsValue (ds : List Char) : Nat :=
  ds.foldl (fun acc d => acc * 10 + (d.toNat - '0'.toNat)) 0

/-- Source: `INT_MAX` for the 32-bit `int`. -/
def INT_MAX : Int := 2147483647

/-- Source: `INT_MIN` for the 32-bit `int`. -/
def INT_MIN : Int := -2147483648

/-- Source: `s >> n` for `int n`; `old` is the value `n` held before.  When the stream is not
good, or only whitespace is left, `n` keeps `old`.  Otherwise an optional sign and the
following digits are consumed: no digit gives `0` with `failbit`, a value outside `int`
gives the nearest bound with `failbit`. -/
def IStream.extractInt (s : IStream) (old : Int) : IStream × Int :=
  if !s.good then ({ s with failbit := true }, old)
  else
    match s.buf.dropWhile isSpace with
    | [] => ({ buf := [], eofbit := true, failbit := true }, old)
    | c :: r =>
      let afterSign := if c == '-' || c == '+' then r else c :: r
      let ds := afterSign.takeWhile Char.isDigit
      let rest := afterSign.dropWhile Char.isDigit
      if ds.isEmpty then ({ buf := rest, eofbit := rest.isEmpty, failbit := true }, 0)
      else
        let v : Int := if c == '-' then -(digitsValue ds : Int) else (digitsValue ds : Int)
        if v > INT_MAX then ({ buf := rest, eofbit := rest.isEmpty, failbit := true }, INT_MAX)
        else if v < INT_MIN then
          ({ buf := rest, eofbit := rest.isEmpty, failbit := true }, INT_MIN)
        else ({ buf := rest, eofbit := rest.isEmpty, failbit := false }, v)

/-- Source: `std::stoi(str)`; `none` stands for a thrown `std::invalid_argument` (no digits)
or `std::out_of_range`.  Leading whitespace is skipped, trailing text is ignored. -/
def stoi (str : String) : Option Int :=
  match str.data.dropWhile isSpace with
  | [] => none
  | c :: r =>
    let afterSign := if c == '-' || c == '+' then r else c :: r
    let ds := afterSign.takeWhile Char.isDigit
    if ds.isEmpty then none
    else
      let v : Int := if c == '-' then -(digitsValue ds : Int) else (digitsValue ds : Int)
      if v > INT_MAX || v < INT_MIN then none else some v

/-! ## `Table::deserialize` (Table.cpp 244-301) -/

/-- Table.cpp 260-276: one column line `name,type[,constraints]`. -/
def parseColumnDef (columnDef : String) : ColumnDef :=
  let colStream := IStream.ofString columnDef
  let (colStream, colName) := colStream.getline "" ','
  let (colStream, colType) := colStream.getline "" ','
  let (colStream, constraintsStr) := colStream.getline "" ','
  let constraints : Int :=
    if !colStream.failbit then
      match stoi constraintsStr with
      | some c => c
      | none => 0
    else 0
  { name := colName, type := colType, constraints := constraints }

/-- Table.cpp 256-277: the loop `for (int i = 0; i < columnCount; i++)`, `n` iterations
left. -/
def readColumns : Nat → IStream → List ColumnDef → IStream × List ColumnDef
  | 0, ss, columns => (ss, columns)
  | n + 1, ss, columns =>
    let (ss, columnDef) := ss.getline "" '\n'
    readColumns n ss (columns ++ [parseColumnDef columnDef])

/-- Table.cpp 293-295: the loop `while (std::getline(rowStream, value, ','))`.  Every pass
that continues consumes a character, so `fuel` above the length of the line is never
exhausted. -/
def readValues : Nat → IStream → List String → List String
  | 0, _, values => values
  | fuel + 1, rowStream, values =>
    let (rowStream, value) := rowStream.getline "" ','
    if rowStream.failbit then values else readValues fuel rowStream (values ++ [value])

/-- Table.cpp 289-295: the cells of one row line. -/
def parseRow (rowData : String) : List String :=
  readValues (rowData.length + 1) (IStream.ofString rowData) []

/-- Result of `deserialize`: the table and the lines written to `std::cout` meanwhile. -/
structure DeserializeResult where
  table : Table
  out : List String
deriving DecidableEq, Repr

/-- Table.cpp 285-298: the loop `for (int i = 0; i < rowCount; i++)`, `n` iterations left;
the result of `insertRow` is discarded. -/
def replayRows : Nat → IStream → Table → List String → DeserializeResult
  | 0, _, table, out => { table := table, out := out }
  | n + 1, ss, table, out =>
    let (ss, rowData) := ss.getline "" '\n'
    let r := table.insertRow (parseRow rowData)
    replayRows n ss r.table (out ++ r.out)

/-- Table.cpp 244-301.  `columnCount` and `rowCount` are uninitialised locals that `>>`
leaves untouched when the stream is already not good; `columnCountInit` and
`rowCountInit` stand for whatever they hold then. -/
def Table.deserialize (data : String) (columnCountInit rowCountInit : Int) :
    DeserializeResult :=
  let ss := IStream.ofString data
  let (ss, tableName) := ss.getline "" '\n'
  let (ss, columnCount) := ss.extractInt columnCountInit
  let ss := ss.ignore
  let (ss, columns) := readColumns columnCount.toNat ss []
  let table := Table.new tableName columns
  let (ss, rowCount) := ss.extractInt rowCountInit
  let ss := ss.ignore
  replayRows rowCount.toNat ss table []

/-! ## `Table::selectRows` and its helpers (Table.cpp 68-109, 179-209) -/

/-- Source: the modulus of `size_t` arithmetic (64-bit). -/
def SIZE_MODULUS : Nat := 2 ^ 64

/-- Source: `str.substr(pos, count)` for `pos <= str.size()`: at most `count` characters
from position `pos` on. -/
def substr (str : List Char) (pos count : Nat) : List Char := (str.drop pos).take count

/-- Table.cpp 199-201: a non-empty literal whose first and last characters are both `"`
becomes `value.substr(1, value.size() - 2)`, the count computed in `size_t`. -/
def stripQuotes (value : List Char) : List Char :=
  if !value.isEmpty && value.head? == some '"' && value.getLast? == some '"' then
    substr value 1 ((value.length + SIZE_MODULUS - 2) % SIZE_MODULUS)
  else value

namespace Table

/-- Table.cpp 179-186: index of the first column with that name, `none` for `-1`. -/
def getColumnIndex (t : Table) (columnName : String) : Option Nat :=
  t.columns.findIdx? (fun c => c.name == columnName)

/-- Table.cpp 188-209. -/
def evaluateCondition (t : Table) (row : List String) (condition : String) : Bool :=
  match condition.data.findIdx? (fun c => c == '=') with
  | none => true
  | some pos =>
    let columnName := String.mk (condition.data.take pos)
    let value := String.mk (stripQuotes (condition.data.drop (pos + 1)))
    match t.getColumnIndex columnName with
    | none => false
    | some colIndex =>
      if colIndex ≥ row.length then false else row.getD colIndex "" == value

/-- Table.cpp 80-85: one pass of the loop over the requested names; a name that resolves
appends its index, any other name is skipped. -/
def pushColumnIndex (t : Table) (indices : List Nat) (col : String) : List Nat :=
  match t.getColumnIndex col with
  | some idx => indices ++ [idx]
  | none => indices

/-- Table.cpp 77-91: the definition indexes to return, from the requested names or, for an
empty request, every column. -/
def columnIndices (t : Table) (columns : List String) : List Nat :=
  if !columns.isEmpty then columns.foldl t.pushColumnIndex []
  else (List.range t.columns.length).foldl (fun indices i => indices ++ [i]) []

/-- Table.cpp 68-109. -/
def selectRows (t : Table) (columns : List String) (whereCondition : String) :
    List (List String) :=
  let columnIndices := t.columnIndices columns
  t.rows.foldl
    (fun result row =>
      if whereCondition != "" && !t.evaluateCondition row whereCondition then result
      else
        result ++ [columnIndices.foldl (fun resultRow idx => resultRow ++ [row.getD idx ""]) []])
    []

/-! ## `Table::serialize` (Table.cpp 220-242) -/

/-- Table.cpp 232-237: the cells of one row appended to the stream, a comma after every
cell but the last. -/
def serializeCells (ss : String) (row : List String) : String :=
  (List.range row.length).foldl
    (fun ss i =>
      let ss := ss ++ row.getD i ""
      if i < row.length - 1 then ss ++ "," else ss)
    ss

/-- Table.cpp 220-242; `std::endl` writes a newline. -/
def serialize (t : Table) : String :=
  let ss := ""
  let ss := ss ++ t.name ++ "\n"
  let ss := ss ++ toString t.columns.length ++ "\n"
  let ss := t.columns.foldl
    (fun ss col => ss ++ col.name ++ "," ++ col.type ++ "," ++ toString col.constraints ++ "\n")
    ss
  let ss := ss ++ toString t.rows.length ++ "\n"
  t.rows.foldl (fun ss row => serializeCells ss row ++ "\n") ss

end Table

/-! ## `Table::evaluateCondition` with its accesses checked

The string and vector accesses of `evaluateCondition` have preconditions: `substr(pos, n)`
and `substr(pos)` throw `std::out_of_range` when `pos > size()`, `front()` and `back()`
are undefined on an empty string, and `row[i]` is undefined for `i >= row.size()`.  The
definitions below follow the same source lines and return `none` where a precondition is
broken. -/

/-- Source: `str.substr(pos, count)`; `none` when `pos > str.size()`. -/
def substrChecked (str : List Char) (pos count : Nat) : Option (List Char) :=
  if pos > str.length then none else some (substr str pos count)

/-- Source: `str.substr(pos)`, the rest of the string; `none` when `pos > str.size()`. -/
def substrFromChecked (str : List Char) (pos : Nat) : Option (List Char) :=
  if pos > str.length then none else some (str.drop pos)

/-- Table.cpp 199-201, evaluated left to right with the short circuit of `&&`: `front()` is
read only when the literal is non-empty, `back()` only when `front()` is a double quote,
and `substr` is called only when both are. -/
def stripQuotesChecked (value : List Char) : Option (List Char) :=
  if value.isEmpty then some value
  else
    match value.head? with
    | none => none
    | some front =>
      if front != '"' then some value
      else
        match value.getLast? with
        | none => none
        | some back =>
          if back != '"' then some value
          else substrChecked value 1 ((value.length + SIZE_MODULUS - 2) % SIZE_MODULUS)

/-- Table.cpp 188-209 with every access checked. -/
def Table.evaluateConditionChecked (t : Table) (row : List String) (condition : String) :
    Option Bool :=
  match condition.data.findIdx? (fun c => c == '=') with
  | none => some true
  | some pos =>
    match substrChecked condition.data 0 pos with
    | none => none
    | some columnName =>
      match substrFromChecked condition.data (pos + 1) with
      | none => none
      | some value =>
        match stripQuotesChecked value with
        | none => none
        | some value =>
          match t.getColumnIndex (String.mk columnName) with
          | none => some false
          | some colIndex =>
            if colIndex ≥ row.length then some false
            else
              match row[colIndex]? with
              | none => none
              | some cell => some (cell == String.mk value)

/-! ## `Database` (Database.h 15-48, Database.cpp 16-38, 77-79) -/

/-- Model of `std::unordered_map<std::string, std::unique_ptr<Table>>`: the bindings as a
list.  The source leaves the iteration order of the map unspecified, so the order of the
list stands for no order of the source; only lookups, membership and counts carry over. -/
abbrev TableMap := List (String × Table)

/-- Source: `m.find(k) != m.end()`. -/
def TableMap.contains (m : TableMap) (k : String) : Bool := m.any (fun p => p.1 == k)

/-- Source: `m.find(k)`, as the owned table when the key is present. -/
def TableMap.find (m : TableMap) (k : String) : Option Table := m.lookup k

/-- Source: `m[k] = v` (insert the key or replace its table). -/
def TableMap.assign (m : TableMap) (k : String) (v : Table) : TableMap :=
  (k, v) :: m.filter (fun p => p.1 != k)

/-- The private data members of `class Database` that the source uses. -/
structure Database where
  name : String
  tables : TableMap
  wal : List String
  operationsSinceCheckpoint : Int
deriving DecidableEq, Repr

/-- Result of `createTable`: the returned `bool`, the database afterwards, and the lines
written to `std::cout`. -/
structure CreateResult where
  ok : Bool
  db : Database
  out : List String
deriving DecidableEq, Repr

namespace Database

/-- Database.cpp 77-79. -/
def tableExists (db : Database) (tableName : String) : Bool := db.tables.contains tableName

/-- Database.cpp 16-26: `createTable` with column definitions. -/
def createTable (db : Database) (tableName : String) (columns : List ColumnDef) :
    CreateResult :=
  if db.tables.contains tableName then
    { ok := false, db := db, out := ["Error: Table '" ++ tableName ++ "' already exists."] }
  else
    { ok := true,
      db := { db with tables := db.tables.assign tableName (Table.new tableName columns) },
      out := ["Table '" ++ tableName ++ "' created with constraints."] }

/-- Database.cpp 28-38: `createTable` with (name, type) pairs. -/
def createTablePairs (db : Database) (tableName : String) (columns : List (String × String)) :
    CreateResult :=
  if db.tables.contains tableName then
    { ok := false, db := db, out := ["Error: Table '" ++ tableName ++ "' already exists."] }
  else
    { ok := true,
      db := { db with tables := db.tables.assign tableName (Table.ofPairs tableName columns) },
      out := ["Table '" ++ tableName ++ "' created."] }

end Database

/-! ## The file store (`std::filesystem`, `std::ofstream`, `std::ifstream`)

The store is a map from path to text, together with the set of existing directories and
the set of paths that cannot be opened for writing.  Paths are plain strings.  Opening a
file for writing is the only operation that can fail: `create_directories`, `rename` and
`remove` do not throw, a write to an open stream succeeds, and a file that exists can be
opened for reading. -/

/-- The state of the file store. -/
structure FileSystem where
  files : String → Option String
  dirs : String → Bool
  unwritable : String → Bool

namespace FileSystem

/-- Source: `fs::exists(path)`. -/
def pathExists (fs : FileSystem) (path : String) : Bool :=
  fs.dirs path || (fs.files path).isSome

/-- Source: `fs::create_directories(path)`; nothing changes when the path exists. -/
def createDirectories (fs : FileSystem) (path : String) : FileSystem :=
  if fs.pathExists path then fs else { fs with dirs := fun p => p == path || fs.dirs p }

/-- Source: `std::ofstream file(path)` followed by the test `!file`. -/
def canOpenForWriting (fs : FileSystem) (path : String) : Bool := !fs.unwritable path

/-- Source: `std::ofstream file(path); file << text; file.close();`, the open having
succeeded: the file is created or truncated and holds `text`. -/
def writeFile (fs : FileSystem) (path text : String) : FileSystem :=
  { fs with files := fun p => if p = path then some text else fs.files p }

/-- Source: `std::ofstream file(path, std::ios::app); file << text;`, the open having
succeeded: `text` is added at the end of the file, which is created when absent. -/
def appendFile (fs : FileSystem) (path text : String) : FileSystem :=
  fs.writeFile path ((fs.files path).getD "" ++ text)

/-- Source: `fs::remove(path)`. -/
def remove (fs : FileSystem) (path : String) : FileSystem :=
  { fs with files := fun p => if p = path then none else fs.files p,
            dirs := fun p => if p = path then false else fs.dirs p }

/-- Source: `fs::rename(oldPath, newPath)` for an existing file `oldPath`. -/
def rename (fs : FileSystem) (oldPath newPath : String) : FileSystem :=
  match fs.files oldPath with
  | some text => (fs.remove oldPath).writeFile newPath text
  | none => fs

end FileSystem

/-! ## `Database`: delegation, persistence and the operation log (Database.cpp 40-243) -/

/-- Source: `it->second->insertRow(values)` seen from the map: the table owned under the
key is the one changed, the map itself keeps its keys. -/
def TableMap.update : TableMap → String → Table → TableMap
  | [], _, _ => []
  | (k, v) :: rest, key, table =>
    if k == key then (k, table) :: rest else (k, v) :: TableMap.update rest key table

/-- Result of `Database::insert`: the returned `bool`, the database afterwards, and the
lines written to `std::cout`. -/
structure DbInsertResult where
  ok : Bool
  db : Database
  out : List String
deriving DecidableEq, Repr

/-- Result of `saveToFile`: the returned `bool`, the file store afterwards, and the lines
written to `std::cerr`. -/
structure SaveResult where
  ok : Bool
  fs : FileSystem
  out : List String

/-- Result of `checkpoint`: the returned `bool`, the database and the file store
afterwards, and the lines written to `std::cout` and `std::cerr`. -/
structure CheckpointResult where
  ok : Bool
  db : Database
  fs : FileSystem
  out : List String

/-- Result of `logOperation`: the database and the file store afterwards, and the lines
written to `std::cout` and `std::cerr`. -/
structure LogResult where
  db : Database
  fs : FileSystem
  out : List String

/-- Result of `loadFromFile`: the database, `none` for `nullptr`, and the lines written to
`std::cout` and `std::cerr`. -/
structure LoadResult where
  db : Option Database
  out : List String
deriving DecidableEq, Repr

namespace Database

/-- Database.cpp 66-75: the keys of the map.  The source returns them in the unspecified
iteration order of `std::unordered_map`; the list here holds the same names, each as often,
in the order of the association list, which is not the order of the source. -/
def getTableNames (db : Database) : List String := db.tables.map (fun p => p.1)

/-- Database.cpp 40-47. -/
def insert (db : Database) (tableName : String) (values : List String) : DbInsertResult :=
  match db.tables.find tableName with
  | none => { ok := false, db := db, out := [] }
  | some table =>
    let r := table.insertRow values
    { ok := r.ok, db := { db with tables := db.tables.update tableName r.table }, out := r.out }

/-- Database.cpp 49-60. -/
def select (db : Database) (tableName : String) (columns : List String)
    (whereCondition : String) : List (List String) :=
  match db.tables.find tableName with
  | none => []
  | some table => table.selectRows columns whereCondition

/-- Database.cpp 86: `name_ + "/metadata.db.tmp"`. -/
def tempMetaFile (db : Database) : String := db.name ++ "/metadata.db.tmp"

/-- Database.cpp 114: `name_ + "/metadata.db"`. -/
def metadataFile (db : Database) : String := db.name ++ "/metadata.db"

/-- Database.cpp 102: `name_ + "/" + tableName + ".tbl.tmp"`. -/
def tempTableFile (db : Database) (tableName : String) : String :=
  db.name ++ "/" ++ tableName ++ ".tbl.tmp"

/-- Database.cpp 118: `name_ + "/" + tableName + ".tbl"`. -/
def finalTableFile (db : Database) (tableName : String) : String :=
  db.name ++ "/" ++ tableName ++ ".tbl"

/-- Database.cpp 94-97: the text written to the temporary metadata file. -/
def metadataText (db : Database) : String :=
  db.tables.foldl (fun text p => text ++ p.1 ++ "\n") (toString db.tables.length ++ "\n")

/-- Database.cpp 100-111: the loop writing the temporary table files, over the entries
still to visit; it stops at the first file that cannot be opened and returns the name of
its table (`allTablesSuccess` is false exactly then). -/
def writeTempTables (db : Database) : TableMap → FileSystem → FileSystem × Option String
  | [], fs => (fs, none)
  | (tableName, table) :: rest, fs =>
    if !fs.canOpenForWriting (db.tempTableFile tableName) then (fs, some tableName)
    else writeTempTables db rest (fs.writeFile (db.tempTableFile tableName) table.serialize)

/-- Database.cpp 116-120: one pass of the loop renaming the temporary table files. -/
def renameTableFile (db : Database) (fs : FileSystem) (entry : String × Table) : FileSystem :=
  fs.rename (db.tempTableFile entry.1) (db.finalTableFile entry.1)

/-- Database.cpp 127-132: one pass of the loop removing the temporary table files. -/
def removeTempTableFile (db : Database) (fs : FileSystem) (entry : String × Table) :
    FileSystem :=
  if fs.pathExists (db.tempTableFile entry.1) then fs.remove (db.tempTableFile entry.1) else fs

/-- Database.cpp 81-139. -/
def saveToFile (db : Database) (fs : FileSystem) : SaveResult :=
  let fs := fs.createDirectories db.name
  if !fs.canOpenForWriting db.tempMetaFile then
    { ok := false, fs := fs, out := ["Error: Failed to open metadata file for writing"] }
  else
    let fs := fs.writeFile db.tempMetaFile db.metadataText
    match db.writeTempTables db.tables fs with
    | (fs, none) =>
      let fs := fs.rename db.tempMetaFile db.metadataFile
      let fs := db.tables.foldl db.renameTableFile fs
      { ok := true, fs := fs, out := [] }
    | (fs, some tableName) =>
      let fs := if fs.pathExists db.tempMetaFile then fs.remove db.tempMetaFile else fs
      let fs := db.tables.foldl db.removeTempTableFile fs
      { ok := false, fs := fs,
        out := ["Error: Failed to open table file " ++ tableName ++ " for writing"] }

/-- Database.cpp 224-243. -/
def checkpoint (db : Database) (fs : FileSystem) : CheckpointResult :=
  let saved := db.saveToFile fs
  if saved.ok then
    { ok := true, db := { db with operationsSinceCheckpoint := 0, wal := [] }, fs := saved.fs,
      out := ["Performing checkpoint..."] ++ saved.out ++ ["Checkpoint completed successfully"] }
  else
    { ok := false, db := db, fs := saved.fs,
      out := ["Performing checkpoint..."] ++ saved.out ++ ["Checkpoint failed"] }

/-- Database.cpp 201-222. -/
def logOperation (db : Database) (fs : FileSystem) (operation : String) : LogResult :=
  let db : Database :=
    { db with wal := db.wal ++ [operation],
              operationsSinceCheckpoint := db.operationsSinceCheckpoint + 1 }
  let logFilePath := db.name ++ "/transactions.log"
  let logged : FileSystem × List String :=
    if fs.canOpenForWriting logFilePath then (fs.appendFile logFilePath (operation ++ "\n"), [])
    else (fs, ["Warning: Failed to write to transaction log file"])
  if db.operationsSinceCheckpoint ≥ 5 then
    let r := db.checkpoint logged.1
    { db := r.db, fs := r.fs, out := logged.2 ++ r.out }
  else { db := db, fs := logged.1, out := logged.2 }

/-- Database.cpp 166-192: the loop over the listed tables, `n` iterations left, `i` the
loop counter.  `inits i` stands for the values the uninitialised counters of the `i`-th
`deserialize` call hold.  `Table::deserialize` returns `std::make_unique<Table>(...)`,
never a null pointer, so the `else` branch of `if (table)` is never taken. -/
def loadTables (fs : FileSystem) (name : String) (inits : Nat → Int × Int) :
    Nat → Nat → IStream → TableMap → List String → TableMap × List String
  | 0, _, _, tables, out => (tables, out)
  | n + 1, i, metaFile, tables, out =>
    let (metaFile, tableName) := metaFile.getline "" '\n'
    let tableFilePath := name ++ "/" ++ tableName ++ ".tbl"
    if !fs.pathExists tableFilePath then
      loadTables fs name inits n (i + 1) metaFile tables
        (out ++ ["Warning: Table file not found: " ++ tableFilePath])
    else
      match fs.files tableFilePath with
      | none =>
        loadTables fs name inits n (i + 1) metaFile tables
          (out ++ ["Warning: Failed to open table file: " ++ tableFilePath])
      | some text =>
        let r := Table.deserialize text (inits i).1 (inits i).2
        loadTables fs name inits n (i + 1) metaFile (tables.assign tableName r.table)
          (out ++ r.out ++ ["Loaded table: " ++ tableName])

/-- Database.cpp 141-199.  `tableCountInit` stands for what the uninitialised `tableCount`
holds when `>>` leaves it untouched.  The constructor's `create_directories(name)` finds
the directory present. -/
def loadFromFile (fs : FileSystem) (name : String) (tableCountInit : Int)
    (inits : Nat → Int × Int) : LoadResult :=
  if !fs.pathExists name then
    { db := none, out := ["Error: Database directory does not exist: " ++ name] }
  else
    let metadataPath := name ++ "/metadata.db"
    if !fs.pathExists metadataPath then
      { db := none, out := ["Error: Metadata file not found: " ++ metadataPath] }
    else
      match fs.files metadataPath with
      | none => { db := none, out := ["Error: Failed to open metadata file: " ++ metadataPath] }
      | some text =>
        let metaFile := IStream.ofString text
        let (metaFile, tableCount) := metaFile.extractInt tableCountInit
        let metaFile := metaFile.ignore
        let loaded := loadTables fs name inits tableCount.toNat 0 metaFile [] []
        { db := some { name := name, tables := loaded.1, wal := [],
                       operationsSinceCheckpoint := 0 },
          out := loaded.2 }

end Database

/-- Source: `Database::Database(name)` on a store: an empty database, its directory
created. -/
def Database.create (name : String) (fs : FileSystem) : Database × FileSystem :=
  ({ name := name, tables := [], wal := [], operationsSinceCheckpoint := 0 },
    fs.createDirectories name)

/-- The empty store: no file, no directory, every path writable. -/
def FileSystem.empty : FileSystem :=
  { files := fun _ => none, dirs := fun _ => false, unwritable := fun _ => false }

/-! ## `StringUtils` (StringUtils.cpp 7-40) and
`CommandParser::parseColumnDefsWithConstraints` (CommandParser.cpp 384-422) -/

/-- Source: membership in the character set `" \t\n\r\f\v"` of `trim`. -/
def isTrimChar (c : Char) : Bool :=
  c == ' ' || c == '\t' || c == '\n' || c == '\r' || c == '\x0c' || c == '\x0b'

/-- Source: membership in the character set `" \t"` of `parseColumnDefsWithConstraints`. -/
def isBlankChar (c : Char) : Bool := c == ' ' || c == '\t'

/-- Source: `str.find_first_not_of(set)`; `none` for `npos`. -/
def findFirstNotOf (str : List Char) (inSet : Char → Bool) : Option Nat :=
  str.findIdx? (fun c => !inSet c)

/-- Source: `str.find_last_not_of(set)`; `none` for `npos`. -/
def findLastNotOf (str : List Char) (inSet : Char → Bool) : Option Nat :=
  match str.reverse.findIdx? (fun c => !inSet c) with
  | some fromEnd => some (str.length - 1 - fromEnd)
  | none => none

namespace StringUtils

/-- StringUtils.cpp 22-34.  `last` is not before `first`, both positions of the string, so
`last - first + 1` does not wrap; `find_last_not_of` finds a character whenever
`find_first_not_of` does. -/
def trim (str : String) : String :=
  if str.data.isEmpty then str
  else
    match findFirstNotOf str.data isTrimChar with
    | none => ""
    | some first =>
      match findLastNotOf str.data isTrimChar with
      | some last => String.mk (substr str.data first (last - first + 1))
      | none => String.mk (str.data.drop first)

/-- StringUtils.cpp 36-40: `::toupper` on every character, classic locale. -/
def toUpper (str : String) : String := String.mk (str.data.map Char.toUpper)

/-- StringUtils.cpp 12-17: the loop `while (std::getline(ss, token, delimiter))`.  Every
pass that continues consumes a character, so `fuel` above the length of the input is never
exhausted. -/
def tokenizeLoop (delimiter : Char) : Nat → IStream → String → List String → List String
  | 0, _, _, tokens => tokens
  | fuel + 1, ss, token, tokens =>
    let (ss, token) := ss.getline token delimiter
    if ss.failbit then tokens
    else
      let token := trim token
      if !token.data.isEmpty then tokenizeLoop delimiter fuel ss token (tokens ++ [token])
      else tokenizeLoop delimiter fuel ss token tokens

/-- StringUtils.cpp 7-20. -/
def tokenize (input : String) (delimiter : Char) : List String :=
  tokenizeLoop delimiter (input.length + 1) (IStream.ofString input) "" []

end StringUtils

/-- CommandParser.cpp 389-390: `part.erase(0, part.find_first_not_of(" \t"))` followed by
`part.erase(part.find_last_not_of(" \t") + 1)`; with `npos` the first call erases
everything and the second, `erase(0)`, as well. -/
def eraseBlanks (part : List Char) : List Char :=
  let part :=
    match findFirstNotOf part isBlankChar with
    | some first => part.drop first
    | none => []
  match findLastNotOf part isBlankChar with
  | some last => part.take (last + 1)
  | none => []

/-- CommandParser.cpp 398-414: the loop `for (size_t i = 2; i < colTokens.size(); i++)`,
whose body advances `i` once more after a keyword pair.  Every pass advances `i`, so `fuel`
not below the number of tokens is never exhausted. -/
def parseConstraints (colTokens : List String) : Nat → Nat → Int → Int
  | 0, _, constraints => constraints
  | fuel + 1, i, constraints =>
    if i < colTokens.length then
      let constraint := StringUtils.toUpper (colTokens.getD i "")
      if constraint == "PRIMARY" && decide (i + 1 < colTokens.length)
          && StringUtils.toUpper (colTokens.getD (i + 1) "") == "KEY" then
        parseConstraints colTokens fuel (i + 1 + 1) (Int.lor constraints PRIMARY_KEY)
      else if constraint == "UNIQUE" then
        parseConstraints colTokens fuel (i + 1) (Int.lor constraints UNIQUE)
      else if constraint == "NOT" && decide (i + 1 < colTokens.length)
          && StringUtils.toUpper (colTokens.getD (i + 1) "") == "NULL" then
        parseConstraints colTokens fuel (i + 1 + 1) (Int.lor constraints NOT_NULL)
      else parseConstraints colTokens fuel (i + 1) constraints
    else constraints

/-- CommandParser.cpp 388-419: one pass of the loop over the comma-separated parts. -/
def parseColumnPart (columns : List ColumnDef) (part : String) : List ColumnDef :=
  let part := String.mk (eraseBlanks part.data)
  let colTokens := StringUtils.tokenize part ' '
  if colTokens.length ≥ 2 then
    columns ++ [{ name := colTokens.getD 0 "", type := colTokens.getD 1 "",
                  constraints := parseConstraints colTokens colTokens.length 2 0 }]
  else columns

/-- CommandParser.cpp 384-422. -/
def parseColumnDefsWithConstraints (columnDefs : String) : List ColumnDef :=
  (StringUtils.tokenize columnDefs ',').foldl parseColumnPart []

/-! ## Reachable tables -/

/-- The table after a sequence of `insertRow` calls, whatever each call returns. -/
def Table.insertAll (t : Table) (ops : List (List String)) : Table :=
  ops.foldl (fun acc values => (acc.insertRow values).table) t

/-- The states a `Table` object can be in: built by one of the two constructors and then
changed only by `insertRow`, the only mutating member function. -/
inductive Reachable : Table → Prop
  | new (name : String) (columns : List ColumnDef) : Reachable (Table.new name columns)
  | ofPairs (name : String) (columns : List (String × String)) :
      Reachable (Table.ofPairs name columns)
  | insertRow (t : Table) (values : List String) :
      Reachable t → Reachable (t.insertRow values).table

/-- The representation invariant of a table: one unique set per column, every row as wide
as the column list, and both indexes holding exactly the values stored in their column. -/
structure WellFormed (t : Table) : Prop where
  idxLen : t.uniqueIndexes.length = t.columns.length
  rowLen : ∀ row ∈ t.rows, row.length = t.columns.length
  pkKeys : ∀ k, t.primaryKeyIndex.contains k = true ↔
    ∃ pk, t.getPrimaryKeyColumnIndex = some pk ∧ ∃ row ∈ t.rows, row.getD pk "" = k
  uniq : ∀ i, i < t.columns.length → (t.col i).requiresUniqueValue = true →
    ∀ v, (t.uniqueIndexes.getD i []).contains v = true ↔ ∃ row ∈ t.rows, row.getD i "" = v

/-- The columns the constructor stores: the declared ones, with NOT_NULL added to the
column `getPrimaryKeyColumnIndex` finds. -/
def newColumns (cols : List ColumnDef) : List ColumnDef :=
  match cols.findIdx? ColumnDef.isPrimaryKey with
  | some pkIndex =>
    if !(cols.getD pkIndex default).isNotNull then cols.modify ColumnDef.addNotNull pkIndex
    else cols
  | none => cols

/-! ## Properties stated by the specification -/

/-- Index state is exactly the set of values stored in the corresponding column: the keys of
the primary-key index are the cells of the primary-key column, and the set of every
PRIMARY_KEY or UNIQUE column holds the cells of that column. -/
def IndexesExact (t : Table) : Prop :=
  (∀ k, k ∈ t.primaryKeyIndex.map Prod.fst ↔
    ∃ pk, t.getPrimaryKeyColumnIndex = some pk ∧ ∃ row ∈ t.rows, row[pk]? = some k) ∧
  (∀ i, i < t.columns.length → (t.col i).requiresUniqueValue = true →
    ∀ v, v ∈ t.uniqueIndexes.getD i [] ↔ ∃ row ∈ t.rows, row[i]? = some v)

/-- Every stored row has as many cells as the table has columns. -/
def RowsFitColumns (t : Table) : Prop :=
  ∀ row ∈ t.rows, row.length = t.columns.length

/-- The value list `vs` violates no constraint of `t` other than, possibly, one on column
`i`: it has the right length, every other NOT_NULL column gets a non-empty value, the
primary-key check of the source passes, and every other UNIQUE non-key column gets an
empty or new value. -/
def OtherConstraintsHold (t : Table) (i : Nat) (vs : List String) : Prop :=
  vs.length = t.columns.length ∧
  (∀ j, j < t.columns.length → j ≠ i → (t.col j).isNotNull = true → vs.getD j "" ≠ "") ∧
  t.primaryKeyViolation vs = none ∧
  (∀ j, j < t.columns.length → j ≠ i → (t.col j).isUnique = true →
    (t.col j).isPrimaryKey = false → vs.getD j "" ≠ "" →
    (t.uniqueIndexes.getD j []).contains (vs.getD j "") = false)

/-- The definition index a requested column name resolves to: the position of the first
column whose name equals it exactly, if there is one. -/
def definitionIndex (t : Table) (requested : String) : Option Nat :=
  if requested ∈ t.columns.map ColumnDef.name then
    some ((t.columns.map ColumnDef.name).indexOf requested)
  else none

/-- The projection of a row on the requested names: for each name in the order requested,
the cell at its definition index; a name that resolves to no column contributes nothing. -/
def projectRequested (t : Table) (requested : List String) (row : List String) :
    List String :=
  requested.flatMap fun name =>
    match definitionIndex t name with
    | some idx => [row.getD idx ""]
    | none => []

/-- The projection `selectRows` applies to a row: the requested columns, or every cell in
definition order when nothing is requested. -/
def projectRow (t : Table) (requested : List String) (row : List String) : List String :=
  if requested = [] then (List.range t.columns.length).map (fun idx => row.getD idx "")
  else projectRequested t requested row

/-- A literal with its enclosing pair of double quotes removed when it is wrapped in such a
pair (two quote characters, so at least two characters long), and the literal itself
otherwise. -/
def unquotePair (v : List Char) : List Char :=
  if 2 ≤ v.length ∧ v.head? = some '"' ∧ v.getLast? = some '"' then (v.drop 1).dropLast
  else v

/-- A literal with its first and last character removed when it is non-empty and both are
a double quote, which turns the one-character literal `"` into the empty string; the
literal itself otherwise. -/
def unquote (v : List Char) : List Char :=
  if v ≠ [] ∧ v.head? = some '"' ∧ v.getLast? = some '"' then (v.drop 1).dropLast
  else v

/-- The text the specification prescribes for a table: the name and a newline; the decimal
column count and a newline; per column, in definition order, the line `name,type,bitmask`
and a newline; the decimal row count and a newline; per row, in insertion order, its cells
joined by single commas, unescaped, and a newline. -/
def serializeSpec (t : Table) : String :=
  t.name ++ "\n" ++ toString t.columns.length ++ "\n"
    ++ String.join (t.columns.map fun col =>
        col.name ++ "," ++ col.type ++ "," ++ toString col.constraints ++ "\n")
    ++ toString t.rows.length ++ "\n"
    ++ String.join (t.rows.map fun row => ",".intercalate row ++ "\n")

/-- The bitmask of a constraint set: the OR of PRIMARY_KEY = 1, UNIQUE = 2 and NOT_NULL = 4
over the flags the column has. -/
def flagsBitmask (col : ColumnDef) : Int :=
  Int.lor (Int.lor (if col.isPrimaryKey then PRIMARY_KEY else 0)
    (if col.isUnique then UNIQUE else 0)) (if col.isNotNull then NOT_NULL else 0)

/-! ## Character-level view of the serialized text -/

/-- The characters of a row line without its newline: the cells, a comma between
neighbours. -/
def joinCells : List String → List Char
  | [] => []
  | cell :: cells => cell.data ++ cells.flatMap (fun c => ',' :: c.data)

/-- The characters of one serialized column line, newline included. -/
def columnLine (col : ColumnDef) : List Char :=
  col.name.data ++ ',' :: (col.type.data ++ ',' :: ((toString col.constraints).data ++ ['\n']))

/-- The characters of the whole serialized table. -/
def serializeChars (t : Table) : List Char :=
  t.name.data ++ '\n' :: ((toString t.columns.length).data ++ '\n' ::
    (t.columns.flatMap columnLine ++ ((toString t.rows.length).data ++ '\n' ::
      t.rows.flatMap (fun row => joinCells row ++ ['\n']))))

/-- The tables whose text `deserialize` can read back: no newline in the name, no comma or
newline in a column name, column type or cell, no row ending in an empty cell, and bitmasks
and counts that are values of a 32-bit `int`. -/
structure Serializable (t : Table) : Prop where
  tableName : '\n' ∉ t.name.data
  columnNames : ∀ col ∈ t.columns, ',' ∉ col.name.data ∧ '\n' ∉ col.name.data
  columnTypes : ∀ col ∈ t.columns, ',' ∉ col.type.data ∧ '\n' ∉ col.type.data
  bitmasks : ∀ col ∈ t.columns, INT_MIN ≤ col.constraints ∧ col.constraints ≤ INT_MAX
  cells : ∀ row ∈ t.rows, ∀ cell ∈ row, ',' ∉ cell.data ∧ '\n' ∉ cell.data
  lastCells : ∀ row ∈ t.rows, row.getLast? ≠ some ""
  columnCount : (t.columns.length : Int) ≤ INT_MAX
  rowCount : (t.rows.length : Int) ≤ INT_MAX

/-- The comma-separated fields of a line: the text between consecutive commas, so a line
with `k` commas has `k + 1` fields, some possibly empty. -/
def commaFields : List Char → List (List Char)
  | [] => [[]]
  | c :: cs =>
    if c = ',' then [] :: commaFields cs
    else
      match commaFields cs with
      | field :: fields => (c :: field) :: fields
      | [] => [[c]]

/-- The third comma-separated field of a column line, if the line has one. -/
def thirdField (line : String) : Option String :=
  ((commaFields line.data)[2]?).map String.mk

/-- A numeric field: one or more decimal digits and nothing else. -/
def isNumeric (field : String) : Bool :=
  !field.data.isEmpty && field.data.all Char.isDigit

/-- The database and the store after a sequence of `logOperation` calls. -/
def Database.logAll (db : Database) (fs : FileSystem) (operations : List String) :
    Database × FileSystem :=
  operations.foldl (fun state op => ((state.1.logOperation state.2 op).db,
    (state.1.logOperation state.2 op).fs)) (db, fs)

/-- Two stores that differ at most in the content or presence of the file
`<name>/transactions.log`. -/
def AgreeOffLog (name : String) (fs₁ fs₂ : FileSystem) : Prop :=
  ∀ p, p ≠ name ++ "/transactions.log" → fs₁.files p = fs₂.files p ∧ fs₁.dirs p = fs₂.dirs p

/-! ## Column definitions as the help text describes them -/

/-- The fields of a text: the pieces between consecutive occurrences of the delimiter, so a
text with `k` delimiters has `k + 1` fields, some possibly empty. -/
def fieldsAt (d : Char) : List Char → List (List Char)
  | [] => [[]]
  | c :: cs =>
    if c = d then [] :: fieldsAt d cs
    else
      match fieldsAt d cs with
      | field :: fields => (c :: field) :: fields
      | [] => [[c]]

/-- A text without the white space at its two ends. -/
def trimmed (l : List Char) : List Char :=
  ((l.dropWhile isTrimChar).reverse.dropWhile isTrimChar).reverse

/-- The words of a text separated by the delimiter: its fields, each without the white
space at its ends, the empty ones left out. -/
def wordsAt (d : Char) (input : String) : List String :=
  ((fieldsAt d input.data).map (fun field => String.mk (trimmed field))).filter
    (fun word => word != "")

/-- Whether the word `first` is directly followed by the word `second`. -/
def hasKeywordPair (first second : String) : List String → Bool
  | [] => false
  | word :: rest =>
    (word == first && rest.head? == some second) || hasKeywordPair first second rest

/-- The bitmask with PRIMARY_KEY = 1, UNIQUE = 2 and NOT_NULL = 4 for the flags given. -/
def bitmaskOf (primaryKey unique notNull : Bool) : Int :=
  Int.lor (Int.lor (if primaryKey then PRIMARY_KEY else 0) (if unique then UNIQUE else 0))
    (if notNull then NOT_NULL else 0)

/-- The bitmask the constraint words of a column definition stand for: PRIMARY_KEY for the
keyword pair PRIMARY KEY, UNIQUE for UNIQUE, NOT_NULL for the keyword pair NOT NULL, the
words compared without regard to case. -/
def keywordBitmask (keywords : List String) : Int :=
  bitmaskOf (hasKeywordPair "PRIMARY" "KEY" (keywords.map StringUtils.toUpper))
    ((keywords.map StringUtils.toUpper).contains "UNIQUE")
    (hasKeywordPair "NOT" "NULL" (keywords.map StringUtils.toUpper))

/-- The column a definition `name type [constraints]` stands for, given as its words; a
definition of fewer than two words stands for none. -/
def columnOfWords : List String → Option ColumnDef
  | name :: type :: keywords =>
    some { name := name, type := type, constraints := keywordBitmask keywords }
  | _ => none

/-! ## Example tables -/

/-- The table of the specification's scenario: `id INT PRIMARY KEY NOT NULL, name STRING`. -/
def scenarioTable : Table :=
  Table.new "t" [{ name := "id", type := "INT", constraints := 5 },
                 { name := "name", type := "STRING", constraints := 0 }]

/-- A table declaring `id INT PRIMARY KEY` and `email STRING UNIQUE`. -/
def usersTable : Table :=
  Table.new "users" [{ name := "id", type := "INT", constraints := 1 },
                     { name := "email", type := "STRING", constraints := 2 }]

/-- A one-column table without constraints holding the cells `"` and the empty string. -/
def quoteTable : Table :=
  (Table.ofPairs "t" [("c", "TEXT")]).insertAll [["\""], [""]]

/-- A one-column table holding a cell with an embedded comma. -/
def commaTable : Table :=
  (Table.ofPairs "t" [("c", "TEXT")]).insertAll [["x,y"]]

/-- A database holding the scenario table with one row. -/
def scenarioDatabase : Database :=
  { name := "db", tables := [("t", (scenarioTable.insertRow ["1", "a"]).table)], wal := [],
    operationsSinceCheckpoint := 0 }

/-- A database without tables. -/
def emptyDatabase : Database :=
  { name := "db", tables := [], wal := [], operationsSinceCheckpoint := 0 }

/-- A store whose metadata file lists three tables: `good` with a well-formed file, `bad`
whose file has the word `xyz` where the row count belongs, and `gone` without a file. -/
def corruptStore : FileSystem :=
  { files := fun p =>
      if p = "db/metadata.db" then some "3\ngood\nbad\ngone\n"
      else if p = "db/good.tbl" then some "good\n1\nid,INT,5\n1\n7\n"
      else if p = "db/bad.tbl" then some "bad\n1\nid,INT,5\nxyz\n7\n"
      else none,
    dirs := fun p => p == "db",
    unwritable := fun _ => false }

/-- The scenario database with one logged operation pending. -/
def pendingDatabase : Database :=
  { scenarioDatabase with wal := ["INSERT INTO t VALUES (1, a)"], operationsSinceCheckpoint := 1 }

/-- A store in which no file can be opened for writing. -/
def readOnlyStore : FileSystem :=
  { files := fun _ => none, dirs := fun _ => false, unwritable := fun _ => true }

/-- The store left by a save of the scenario database, in which afterwards the temporary
file of table `t` cannot be opened for writing. -/
def lockedStore : FileSystem :=
  { files := (scenarioDatabase.saveToFile FileSystem.empty).fs.files,
    dirs := (scenarioDatabase.saveToFile FileSystem.empty).fs.dirs,
    unwritable := fun p => p == "db/t.tbl.tmp" }

/-- The scenario database after a second row went into its table `t`. -/
def grownDatabase : Database := (scenarioDatabase.insert "t" ["2", "b"]).db

/-- A database with two tables and three rows in all. -/
def twoTableDatabase : Database :=
  { name := "db",
    tables := [("t", scenarioTable.insertAll [["1", "a"], ["2", "b"]]),
               ("users", usersTable.insertAll [["1", "x@y"]])],
    wal := [], operationsSinceCheckpoint := 0 }

/-- The store left by a save of the scenario database on the empty store. -/
def savedStore : FileSystem := (scenarioDatabase.saveToFile FileSystem.empty).fs

/-- A table with a primary key, a UNIQUE column and a NOT_NULL column, holding one row. -/
def accountsTable : Table :=
  (Table.new "accounts" [{ name := "id", type := "INT", constraints := 5 },
                         { name := "email", type := "STRING", constraints := 2 },
                         { name := "name", type := "STRING", constraints := 4 }]).insertAll
    [["1", "a@b", "x"]]

/-- A one-column table, its column named `a`, holding a cell with an embedded `=` and
cells with and without a leading space. -/
def equalsTable : Table :=
  (Table.ofPairs "t" [("a", "TEXT")]).insertAll [["b=c"], ["b"], [" b"]]

/-- A table whose declaration flags two columns PRIMARY_KEY, as
`CREATE TABLE t (a INT PRIMARY KEY, b INT PRIMARY KEY)` produces. -/
def twoKeyTable : Table :=
  Table.new "t" [{ name := "a", type := "INT", constraints := 1 },
                 { name := "b", type := "INT", constraints := 1 }]

/-! ## Basic facts about the checks -/

section Lemmas

open Table

theorem validateRowMsg_eq_none_iff (t : Table) (vs : List String) :
    t.validateRowMsg vs = none ↔ vs.length = t.columns.length := by
  unfold Table.validateRowMsg
  split <;> simp_all

theorem notNullViolation_eq_none_iff (t : Table) (vs : List String) :
    t.notNullViolation vs = none ↔
      ∀ i, i < t.columns.length → (t.col i).isNotNull = true → vs.getD i "" ≠ "" := by
  unfold Table.notNullViolation
  rw [List.findSome?_eq_none_iff]
  constructor
  · intro h i hi hn he
    have := h i (List.mem_range.mpr hi)
    simp [-List.getD_eq_getElem?_getD, hn, he] at this
  · intro h i hi
    have hi' := List.mem_range.mp hi
    by_cases hn : (t.col i).isNotNull = true
    · have := h i hi' hn
      simp [-List.getD_eq_getElem?_getD, hn, this]
    · simp [-List.getD_eq_getElem?_getD, hn]

theorem primaryKeyViolation_eq_none_iff (t : Table) (vs : List String) :
    t.primaryKeyViolation vs = none ↔
      ∀ pk, t.getPrimaryKeyColumnIndex = some pk →
        t.primaryKeyIndex.contains (vs.getD pk "") = false := by
  unfold Table.primaryKeyViolation
  cases h : t.getPrimaryKeyColumnIndex with
  | none => simp
  | some pk =>
    by_cases hc : t.primaryKeyIndex.contains (vs.getD pk "") = true
    · simp [hc]
    · simp [hc]

theorem uniqueViolation_eq_none_iff (t : Table) (vs : List String) :
    t.uniqueViolation vs = none ↔
      ∀ i, i < t.columns.length → (t.col i).isUnique = true →
        (t.col i).isPrimaryKey = false → vs.getD i "" ≠ "" →
        (t.uniqueIndexes.getD i []).contains (vs.getD i "") = false := by
  unfold Table.uniqueViolation
  rw [List.findSome?_eq_none_iff]
  constructor
  · intro h i hi hu hp hne
    have := h i (List.mem_range.mpr hi)
    simpa [-List.getD_eq_getElem?_getD, hu, hp, hne] using this
  · intro h i hi
    have hi' := List.mem_range.mp hi
    by_cases hu : (t.col i).isUnique = true
    · by_cases hp : (t.col i).isPrimaryKey = true
      · simp [-List.getD_eq_getElem?_getD, hp]
      · by_cases hne : vs.getD i "" = ""
        · simp [-List.getD_eq_getElem?_getD, hne]
        · have := h i hi' hu (by simpa using hp) hne
          simp [-List.getD_eq_getElem?_getD, hu, hp, this]
    · simp [-List.getD_eq_getElem?_getD, hu]

theorem checkConstraintsMsg_eq_none_iff (t : Table) (vs : List String) :
    t.checkConstraintsMsg vs = none ↔
      t.notNullViolation vs = none ∧ t.primaryKeyViolation vs = none ∧
        t.uniqueViolation vs = none := by
  unfold Table.checkConstraintsMsg
  cases t.notNullViolation vs <;> cases t.primaryKeyViolation vs <;> simp

theorem insertRow_ok_iff (t : Table) (vs : List String) :
    (t.insertRow vs).ok = true ↔
      t.validateRowMsg vs = none ∧ t.checkConstraintsMsg vs = none := by
  unfold Table.insertRow
  cases t.validateRowMsg vs <;> cases t.checkConstraintsMsg vs <;> simp

theorem insertRow_table_of_not_ok (t : Table) (vs : List String)
    (h : (t.insertRow vs).ok = false) : (t.insertRow vs).table = t := by
  unfold Table.insertRow at h ⊢
  cases hv : t.validateRowMsg vs <;> cases hc : t.checkConstraintsMsg vs <;>
    simp_all

theorem insertRow_columns (t : Table) (vs : List String) :
    (t.insertRow vs).table.columns = t.columns := by
  unfold Table.insertRow
  cases t.validateRowMsg vs <;> cases t.checkConstraintsMsg vs <;> simp

/-! ### The constraint bitmask -/

theorem testBit_one (k : Nat) : Nat.testBit 1 k = decide (0 = k) := by
  have h : (1 : Nat) = 2 ^ 0 := by norm_num
  rw [h, Nat.testBit_two_pow]

theorem testBit_two (k : Nat) : Nat.testBit 2 k = decide (1 = k) := by
  have h : (2 : Nat) = 2 ^ 1 := by norm_num
  rw [h, Nat.testBit_two_pow]

theorem testBit_four (k : Nat) : Nat.testBit 4 k = decide (2 = k) := by
  have h : (4 : Nat) = 2 ^ 2 := by norm_num
  rw [h, Nat.testBit_two_pow]

theorem land_lor_four_four (x : Int) : Int.land (Int.lor x 4) 4 = 4 := by
  cases x with
  | ofNat n =>
    show ((((n ||| 4) &&& 4 : Nat)) : Int) = 4
    have h : (n ||| 4) &&& 4 = 4 := by
      apply Nat.eq_of_testBit_eq
      intro i
      simp only [Nat.testBit_land, Nat.testBit_lor, testBit_four]
      cases Nat.testBit n i <;> simp
    rw [h]; rfl
  | negSucc n =>
    show ((Nat.ldiff 4 (Nat.ldiff n 4) : Nat) : Int) = 4
    have h : Nat.ldiff 4 (Nat.ldiff n 4) = 4 := by
      apply Nat.eq_of_testBit_eq
      intro i
      simp only [Nat.testBit_ldiff, testBit_four]
      cases Nat.testBit n i <;> simp
    rw [h]; rfl

theorem land_lor_four_one (x : Int) : Int.land (Int.lor x 4) 1 = Int.land x 1 := by
  cases x with
  | ofNat n =>
    show ((((n ||| 4) &&& 1 : Nat)) : Int) = ((n &&& 1 : Nat) : Int)
    have h : (n ||| 4) &&& 1 = n &&& 1 := by
      apply Nat.eq_of_testBit_eq
      intro i
      simp only [Nat.testBit_land, Nat.testBit_lor, testBit_four, testBit_one]
      cases Nat.testBit n i <;> by_cases h0 : 0 = i <;> by_cases h2 : 2 = i <;>
        simp [h0, h2]
      all_goals omega
    rw [h]
  | negSucc n =>
    show ((Nat.ldiff 1 (Nat.ldiff n 4) : Nat) : Int) = ((Nat.ldiff 1 n : Nat) : Int)
    have h : Nat.ldiff 1 (Nat.ldiff n 4) = Nat.ldiff 1 n := by
      apply Nat.eq_of_testBit_eq
      intro i
      simp only [Nat.testBit_ldiff, testBit_four, testBit_one]
      cases Nat.testBit n i <;> by_cases h0 : 0 = i <;> by_cases h2 : 2 = i <;>
        simp [h0, h2]
      all_goals omega
    rw [h]

theorem land_lor_four_two (x : Int) : Int.land (Int.lor x 4) 2 = Int.land x 2 := by
  cases x with
  | ofNat n =>
    show ((((n ||| 4) &&& 2 : Nat)) : Int) = ((n &&& 2 : Nat) : Int)
    have h : (n ||| 4) &&& 2 = n &&& 2 := by
      apply Nat.eq_of_testBit_eq
      intro i
      simp only [Nat.testBit_land, Nat.testBit_lor, testBit_four, testBit_two]
      cases Nat.testBit n i <;> by_cases h1 : 1 = i <;> by_cases h2 : 2 = i <;>
        simp [h1, h2]
      all_goals omega
    rw [h]
  | negSucc n =>
    show ((Nat.ldiff 2 (Nat.ldiff n 4) : Nat) : Int) = ((Nat.ldiff 2 n : Nat) : Int)
    have h : Nat.ldiff 2 (Nat.ldiff n 4) = Nat.ldiff 2 n := by
      apply Nat.eq_of_testBit_eq
      intro i
      simp only [Nat.testBit_ldiff, testBit_four, testBit_two]
      cases Nat.testBit n i <;> by_cases h1 : 1 = i <;> by_cases h2 : 2 = i <;>
        simp [h1, h2]
      all_goals omega
    rw [h]

theorem isNotNull_addNotNull (c : ColumnDef) : c.addNotNull.isNotNull = true := by
  simp [ColumnDef.isNotNull, ColumnDef.addNotNull, NOT_NULL, land_lor_four_four]

theorem isPrimaryKey_addNotNull (c : ColumnDef) :
    c.addNotNull.isPrimaryKey = c.isPrimaryKey := by
  simp [ColumnDef.isPrimaryKey, ColumnDef.addNotNull, NOT_NULL, PRIMARY_KEY, land_lor_four_one]

theorem isUnique_addNotNull (c : ColumnDef) : c.addNotNull.isUnique = c.isUnique := by
  simp [ColumnDef.isUnique, ColumnDef.addNotNull, NOT_NULL, UNIQUE, land_lor_four_two]

/-! ### The index containers -/

theorem pkMap_contains_iff (m : PkMap) (k : String) :
    m.contains k = true ↔ k ∈ m.map Prod.fst := by
  simp [PkMap.contains]

theorem pkMap_contains_assign (m : PkMap) (k : String) (v : Nat) (k' : String) :
    (m.assign k v).contains k' = true ↔ k' = k ∨ m.contains k' = true := by
  simp only [PkMap.contains, PkMap.assign, List.any_cons, Bool.or_eq_true, beq_iff_eq,
    List.any_eq_true, List.mem_filter, bne_iff_ne, ne_eq]
  constructor
  · rintro (h | ⟨p, ⟨hp, _⟩, hk⟩)
    · exact Or.inl h.symm
    · exact Or.inr ⟨p, hp, hk⟩
  · rintro (h | ⟨p, hp, hk⟩)
    · exact Or.inl h.symm
    · by_cases hkk : k' = k
      · exact Or.inl hkk.symm
      · exact Or.inr ⟨p, ⟨hp, by rw [hk]; exact hkk⟩, hk⟩

theorem pkMap_find_assign_self (m : PkMap) (k : String) (v : Nat) :
    (m.assign k v).find k = some v := by
  simp [PkMap.find, PkMap.assign, List.lookup]

theorem strSet_contains_iff (s : StrSet) (v : String) : s.contains v = true ↔ v ∈ s := by
  simp [StrSet.contains]

theorem strSet_contains_insert (s : StrSet) (v w : String) :
    (s.insert v).contains w = true ↔ w = v ∨ s.contains w = true := by
  unfold StrSet.insert
  by_cases h : s.elem v = true
  · simp only [h, if_true, StrSet.contains]
    constructor
    · exact Or.inr
    · rintro (rfl | h')
      · exact h
      · exact h'
  · have h' : v ∉ s := by simpa using h
    simp [h', StrSet.contains]

/-! ### The unique-index update loop -/

theorem foldl_range_modify (f : Nat → Bool) (g : Nat → StrSet → StrSet) (l : List StrSet)
    (n : Nat) :
    ((List.range n).foldl (fun idx i => if f i then idx.modify (g i) i else idx) l).length
        = l.length ∧
      ∀ j, ((List.range n).foldl (fun idx i => if f i then idx.modify (g i) i else idx) l)[j]?
        = if j < n ∧ f j = true then (l[j]?).map (g j) else l[j]? := by
  induction n with
  | zero => simp
  | succ n ih =>
    rw [List.range_succ, List.foldl_append]
    obtain ⟨ihl, ihg⟩ := ih
    simp only [List.foldl_cons, List.foldl_nil]
    by_cases hf : f n = true
    · simp only [hf, if_true, List.length_modify]
      refine ⟨ihl, fun j => ?_⟩
      rw [List.getElem?_modify, ihg]
      by_cases hj : n = j
      · subst hj
        simp [hf]
      · have h1 : (j < n + 1 ∧ f j = true) ↔ (j < n ∧ f j = true) := by
          constructor
          · rintro ⟨a, b⟩; exact ⟨by omega, b⟩
          · rintro ⟨a, b⟩; exact ⟨by omega, b⟩
        simp only [hj, if_false, h1]
        cases h : (if j < n ∧ f j = true then Option.map (g j) l[j]? else l[j]?) <;> simp
    · simp only [hf, Bool.false_eq_true, if_false]
      refine ⟨ihl, fun j => ?_⟩
      rw [ihg]
      have h1 : (j < n + 1 ∧ f j = true) ↔ (j < n ∧ f j = true) := by
        constructor
        · rintro ⟨a, b⟩
          refine ⟨?_, b⟩
          rcases Nat.lt_succ_iff_lt_or_eq.mp a with h | h
          · exact h
          · subst h; exact absurd b hf
        · rintro ⟨a, b⟩; exact ⟨by omega, b⟩
      simp only [h1]

theorem updateUniqueIndexes_length (t : Table) (vs : List String) :
    (t.updateUniqueIndexes vs).length = t.uniqueIndexes.length :=
  (foldl_range_modify (fun i => (t.col i).requiresUniqueValue)
    (fun i s => s.insert (vs.getD i "")) t.uniqueIndexes t.columns.length).1

theorem updateUniqueIndexes_getD (t : Table) (vs : List String) (j : Nat)
    (hlen : t.uniqueIndexes.length = t.columns.length) (hj : j < t.columns.length) :
    (t.updateUniqueIndexes vs).getD j [] =
      if (t.col j).requiresUniqueValue then (t.uniqueIndexes.getD j []).insert (vs.getD j "")
      else t.uniqueIndexes.getD j [] := by
  have h := (foldl_range_modify (fun i => (t.col i).requiresUniqueValue)
    (fun i s => s.insert (vs.getD i "")) t.uniqueIndexes t.columns.length).2 j
  have hj' : j < t.uniqueIndexes.length := by omega
  unfold Table.updateUniqueIndexes
  rw [List.getD_eq_getElem?_getD, h, List.getD_eq_getElem?_getD (l := t.uniqueIndexes)]
  by_cases hr : (t.col j).requiresUniqueValue = true
  · simp [-List.getD_eq_getElem?_getD, hr, hj, List.getElem?_eq_getElem hj']
  · simp [-List.getD_eq_getElem?_getD, hr]

/-! ### The representation invariant -/

theorem new_eq (name : String) (cols : List ColumnDef) :
    Table.new name cols =
      { name := name, columns := newColumns cols, rows := [], primaryKeyIndex := [],
        uniqueIndexes := List.replicate cols.length [] } := by
  unfold Table.new Table.getPrimaryKeyColumnIndex Table.col newColumns
  dsimp only
  cases hpk : List.findIdx? ColumnDef.isPrimaryKey cols with
  | none => rfl
  | some pk =>
    dsimp only
    split <;> rfl

theorem newColumns_length (cols : List ColumnDef) : (newColumns cols).length = cols.length := by
  unfold newColumns
  split <;> [split; skip] <;> simp

theorem new_rows (name : String) (cols : List ColumnDef) : (Table.new name cols).rows = [] := by
  rw [new_eq]

theorem new_primaryKeyIndex (name : String) (cols : List ColumnDef) :
    (Table.new name cols).primaryKeyIndex = [] := by
  rw [new_eq]

theorem new_uniqueIndexes (name : String) (cols : List ColumnDef) :
    (Table.new name cols).uniqueIndexes = List.replicate cols.length [] := by
  rw [new_eq]

theorem new_columns_length (name : String) (cols : List ColumnDef) :
    (Table.new name cols).columns.length = cols.length := by
  rw [new_eq]; exact newColumns_length cols

theorem wellFormed_of_empty (t : Table) (hr : t.rows = []) (hp : t.primaryKeyIndex = [])
    (hu : t.uniqueIndexes = List.replicate t.columns.length []) : WellFormed t where
  idxLen := by rw [hu]; simp
  rowLen := by simp [hr]
  pkKeys := by simp [hr, hp, PkMap.contains]
  uniq := by
    intro i hi _ v
    rw [hu]
    simp [hr, StrSet.contains, hi]

theorem wellFormed_new (name : String) (cols : List ColumnDef) :
    WellFormed (Table.new name cols) :=
  wellFormed_of_empty _ (new_rows name cols) (new_primaryKeyIndex name cols)
    (by rw [new_uniqueIndexes, new_columns_length])

theorem wellFormed_ofPairs (name : String) (cols : List (String × String)) :
    WellFormed (Table.ofPairs name cols) :=
  wellFormed_of_empty _ rfl rfl (by simp [Table.ofPairs])

theorem insertRow_table_of_ok (t : Table) (vs : List String)
    (h : (t.insertRow vs).ok = true) :
    (t.insertRow vs).table =
      { t with
        rows := t.rows ++ [vs],
        primaryKeyIndex :=
          (match t.getPrimaryKeyColumnIndex with
           | some pkIndex => t.primaryKeyIndex.assign (vs.getD pkIndex "") t.rows.length
           | none => t.primaryKeyIndex),
        uniqueIndexes := t.updateUniqueIndexes vs } := by
  unfold Table.insertRow at h ⊢
  cases hv : t.validateRowMsg vs <;> cases hc : t.checkConstraintsMsg vs <;>
    simp_all

theorem getPrimaryKeyColumnIndex_insertRow (t : Table) (vs : List String) :
    (t.insertRow vs).table.getPrimaryKeyColumnIndex = t.getPrimaryKeyColumnIndex := by
  unfold Table.getPrimaryKeyColumnIndex
  rw [insertRow_columns]

theorem col_insertRow (t : Table) (vs : List String) (i : Nat) :
    (t.insertRow vs).table.col i = t.col i := by
  unfold Table.col
  rw [insertRow_columns]

theorem wellFormed_insertRow (t : Table) (vs : List String) (h : WellFormed t) :
    WellFormed (t.insertRow vs).table := by
  cases hok : (t.insertRow vs).ok with
  | false => rw [insertRow_table_of_not_ok t vs hok]; exact h
  | true =>
    have hlen : vs.length = t.columns.length :=
      (validateRowMsg_eq_none_iff t vs).mp ((insertRow_ok_iff t vs).mp hok).1
    have hcol := insertRow_columns t vs
    have hpkc := getPrimaryKeyColumnIndex_insertRow t vs
    have htab := insertRow_table_of_ok t vs hok
    have hrows : (t.insertRow vs).table.rows = t.rows ++ [vs] := by rw [htab]
    have hidx : (t.insertRow vs).table.uniqueIndexes = t.updateUniqueIndexes vs := by rw [htab]
    refine ⟨?_, ?_, ?_, ?_⟩
    · rw [hidx, hcol, updateUniqueIndexes_length]; exact h.idxLen
    · intro row hrow
      rw [hrows, List.mem_append, List.mem_singleton] at hrow
      rw [hcol]
      rcases hrow with hrow | rfl
      · exact h.rowLen row hrow
      · exact hlen
    · intro k
      rw [hpkc, hrows]
      cases hpk : t.getPrimaryKeyColumnIndex with
      | none =>
        have hm : (t.insertRow vs).table.primaryKeyIndex = t.primaryKeyIndex := by
          rw [htab]; simp only [hpk]
        rw [hm, h.pkKeys k, hpk]
        simp
      | some pk =>
        have hm : (t.insertRow vs).table.primaryKeyIndex =
            t.primaryKeyIndex.assign (vs.getD pk "") t.rows.length := by
          rw [htab]; simp only [hpk]
        rw [hm, pkMap_contains_assign, h.pkKeys k, hpk]
        constructor
        · rintro (rfl | ⟨pk', hpk', row, hrow, hk⟩)
          · exact ⟨pk, rfl, vs, by simp, rfl⟩
          · exact ⟨pk', hpk', row, by simp [hrow], hk⟩
        · rintro ⟨pk', hpk', row, hrow, hk⟩
          rw [List.mem_append, List.mem_singleton] at hrow
          rcases hrow with hrow | rfl
          · exact Or.inr ⟨pk', hpk', row, hrow, hk⟩
          · left
            cases hpk'
            exact hk.symm
    · intro i hi hreq v
      rw [hcol] at hi
      rw [col_insertRow] at hreq
      rw [hidx, hrows, updateUniqueIndexes_getD t vs i h.idxLen hi, if_pos hreq,
        strSet_contains_insert, h.uniq i hi hreq v]
      constructor
      · rintro (rfl | ⟨row, hrow, hk⟩)
        · exact ⟨vs, by simp, rfl⟩
        · exact ⟨row, by simp [hrow], hk⟩
      · rintro ⟨row, hrow, hk⟩
        rw [List.mem_append, List.mem_singleton] at hrow
        rcases hrow with hrow | rfl
        · exact Or.inr ⟨row, hrow, hk⟩
        · exact Or.inl hk.symm

theorem reachable_wellFormed {t : Table} (h : Reachable t) : WellFormed t := by
  induction h with
  | new name cols => exact wellFormed_new name cols
  | ofPairs name cols => exact wellFormed_ofPairs name cols
  | insertRow t vs _ ih => exact wellFormed_insertRow t vs ih

theorem reachable_insertAll {t : Table} (h : Reachable t) (ops : List (List String)) :
    Reachable (t.insertAll ops) := by
  unfold Table.insertAll
  induction ops generalizing t with
  | nil => exact h
  | cons vs ops ih => exact ih (Reachable.insertRow t vs h)

theorem reachable_replayRows (n : Nat) (ss : IStream) (t : Table) (out : List String)
    (h : Reachable t) : Reachable (replayRows n ss t out).table := by
  induction n generalizing ss t out with
  | zero => exact h
  | succ n ih =>
    unfold replayRows
    exact ih _ _ _ (Reachable.insertRow t _ h)

theorem reachable_deserialize (data : String) (c r : Int) :
    Reachable (Table.deserialize data c r).table := by
  unfold Table.deserialize
  exact reachable_replayRows _ _ _ _ (Reachable.new _ _)

/-! ### Consequences used by the claims -/

theorem getD_eq_iff_getElem? (row : List String) (i : Nat) (v : String) (hi : i < row.length) :
    row.getD i "" = v ↔ row[i]? = some v := by
  rw [List.getD_eq_getElem?_getD, List.getElem?_eq_getElem hi]
  simp

theorem getD_of_getElem? {row : List String} {i : Nat} {v : String} (h : row[i]? = some v) :
    row.getD i "" = v := by
  rw [List.getD_eq_getElem?_getD, h]
  rfl

theorem getPrimaryKeyColumnIndex_lt {t : Table} {pk : Nat}
    (h : t.getPrimaryKeyColumnIndex = some pk) : pk < t.columns.length := by
  unfold Table.getPrimaryKeyColumnIndex at h
  obtain ⟨hlt, _⟩ := List.findIdx?_eq_some_iff_getElem.mp h
  exact hlt

theorem primaryKeyIndex_contains_insertRow (t : Table) (vs : List String) (k : String)
    (h : t.primaryKeyIndex.contains k = true) :
    (t.insertRow vs).table.primaryKeyIndex.contains k = true := by
  cases hok : (t.insertRow vs).ok with
  | false => rw [insertRow_table_of_not_ok t vs hok]; exact h
  | true =>
    rw [insertRow_table_of_ok t vs hok]
    cases hpk : t.getPrimaryKeyColumnIndex with
    | none => exact h
    | some pk => exact (pkMap_contains_assign _ _ _ _).mpr (Or.inr h)

theorem insertAll_columns (t : Table) (ops : List (List String)) :
    (t.insertAll ops).columns = t.columns := by
  unfold Table.insertAll
  induction ops generalizing t with
  | nil => rfl
  | cons vs ops ih => rw [List.foldl_cons, ih, insertRow_columns]

theorem primaryKeyIndex_contains_insertAll (t : Table) (ops : List (List String)) (k : String)
    (h : t.primaryKeyIndex.contains k = true) :
    (t.insertAll ops).primaryKeyIndex.contains k = true := by
  unfold Table.insertAll
  induction ops generalizing t with
  | nil => exact h
  | cons vs ops ih =>
    rw [List.foldl_cons]
    exact ih _ (primaryKeyIndex_contains_insertRow t vs k h)

theorem insertRow_not_ok_of_contains (t : Table) (ws : List String) (pk : Nat)
    (hpk : t.getPrimaryKeyColumnIndex = some pk)
    (h : t.primaryKeyIndex.contains (ws.getD pk "") = true) : (t.insertRow ws).ok = false := by
  cases hok : (t.insertRow ws).ok with
  | false => rfl
  | true =>
    have hc := ((checkConstraintsMsg_eq_none_iff t ws).mp ((insertRow_ok_iff t ws).mp hok).2).2.1
    have := (primaryKeyViolation_eq_none_iff t ws).mp hc pk hpk
    rw [h] at this
    exact absurd this (by decide)

theorem getPrimaryKeyColumnIndex_new (name : String) (cols : List ColumnDef) :
    (Table.new name cols).getPrimaryKeyColumnIndex = cols.findIdx? ColumnDef.isPrimaryKey := by
  rw [new_eq]
  unfold Table.getPrimaryKeyColumnIndex newColumns
  dsimp only
  cases hpk : List.findIdx? ColumnDef.isPrimaryKey cols with
  | none => exact hpk
  | some pk =>
    dsimp only
    split
    · have hmap : (cols.modify ColumnDef.addNotNull pk).map ColumnDef.isPrimaryKey
          = cols.map ColumnDef.isPrimaryKey := by
        apply List.ext_getElem?
        intro j
        simp only [List.getElem?_map, List.getElem?_modify]
        cases cols[j]? with
        | none => rfl
        | some c =>
          by_cases hj : pk = j
          · simp [hj, isPrimaryKey_addNotNull]
          · simp [hj]
      have h1 : ∀ l : List ColumnDef, l.findIdx? ColumnDef.isPrimaryKey
          = (l.map ColumnDef.isPrimaryKey).findIdx? id := by
        intro l
        rw [List.findIdx?_map]
        rfl
      rw [h1, hmap, ← h1, hpk]
    · exact hpk

theorem new_col_isNotNull (name : String) (cols : List ColumnDef) (pk : Nat)
    (hpk : cols.findIdx? ColumnDef.isPrimaryKey = some pk) :
    ((Table.new name cols).col pk).isNotNull = true := by
  have hlt : pk < cols.length := (List.findIdx?_eq_some_iff_getElem.mp hpk).1
  rw [new_eq]
  unfold Table.col newColumns
  dsimp only
  rw [hpk]
  dsimp only
  split
  · rw [List.getD_eq_getElem?_getD, List.getElem?_modify_eq, List.getElem?_eq_getElem hlt]
    exact isNotNull_addNotNull _
  · rename_i h
    simpa using h

theorem insertRow_ok_of_otherConstraintsHold (t : Table) (i : Nat) (vs : List String)
    (hnn : (t.col i).isNotNull = false) (hv : vs.getD i "" = "")
    (h : OtherConstraintsHold t i vs) : (t.insertRow vs).ok = true := by
  obtain ⟨hlen, hnotnull, hpk, huniq⟩ := h
  rw [insertRow_ok_iff, validateRowMsg_eq_none_iff, checkConstraintsMsg_eq_none_iff,
    notNullViolation_eq_none_iff, uniqueViolation_eq_none_iff]
  refine ⟨hlen, ?_, hpk, ?_⟩
  · intro j hj hjn
    by_cases hji : j = i
    · subst hji
      rw [hnn] at hjn
      exact absurd hjn (by decide)
    · exact hnotnull j hj hji hjn
  · intro j hj hju hjp hjne
    by_cases hji : j = i
    · subst hji
      exact absurd hv hjne
    · exact huniq j hj hji hju hjp hjne

theorem indexesExact_of_wellFormed {t : Table} (h : WellFormed t) : IndexesExact t := by
  constructor
  · intro k
    rw [← pkMap_contains_iff, h.pkKeys k]
    constructor
    · rintro ⟨pk, hpk, row, hrow, hk⟩
      have hlt : pk < row.length := by
        rw [h.rowLen row hrow]; exact getPrimaryKeyColumnIndex_lt hpk
      exact ⟨pk, hpk, row, hrow, (getD_eq_iff_getElem? row pk k hlt).mp hk⟩
    · rintro ⟨pk, hpk, row, hrow, hk⟩
      exact ⟨pk, hpk, row, hrow, getD_of_getElem? hk⟩
  · intro i hi hreq v
    rw [← strSet_contains_iff, h.uniq i hi hreq v]
    constructor
    · rintro ⟨row, hrow, hk⟩
      have hlt : i < row.length := by rw [h.rowLen row hrow]; exact hi
      exact ⟨row, hrow, (getD_eq_iff_getElem? row i v hlt).mp hk⟩
    · rintro ⟨row, hrow, hk⟩
      exact ⟨row, hrow, getD_of_getElem? hk⟩

/-! ### The cell loop never runs out of fuel -/

theorem getline_buf_length_lt (s : IStream) (str : String) (delim : Char)
    (h : (s.getline str delim).1.failbit = false) :
    (s.getline str delim).1.buf.length < s.buf.length := by
  unfold IStream.getline at h ⊢
  by_cases hg : s.good = true
  · simp only [hg, Bool.not_true, Bool.false_eq_true, if_false] at h ⊢
    have happ : (s.buf.span (fun c => c != delim)).1 ++ (s.buf.span (fun c => c != delim)).2
        = s.buf := by
      rw [List.span_eq_take_drop]
      exact List.takeWhile_append_dropWhile _ _
    have hlen := congrArg List.length happ
    rw [List.length_append] at hlen
    revert h hlen
    cases hsp : s.buf.span (fun c => c != delim) with
    | mk line rest =>
      cases rest with
      | nil =>
        intro h hlen
        simp only at h hlen ⊢
        cases line with
        | nil => simp at h
        | cons c cs => simp at hlen ⊢; omega
      | cons c rest =>
        intro h hlen
        simp only [List.length_cons] at hlen ⊢
        omega
  · simp [hg] at h

theorem readValues_fuel (n : Nat) :
    ∀ (s : IStream) (acc : List String) (f1 f2 : Nat), s.buf.length < n →
      s.buf.length + 1 ≤ f1 → s.buf.length + 1 ≤ f2 →
      readValues f1 s acc = readValues f2 s acc := by
  induction n with
  | zero => intro s acc f1 f2 h; omega
  | succ n ih =>
    intro s acc f1 f2 hn h1 h2
    obtain ⟨k1, rfl⟩ : ∃ k, f1 = k + 1 := ⟨f1 - 1, by omega⟩
    obtain ⟨k2, rfl⟩ : ∃ k, f2 = k + 1 := ⟨f2 - 1, by omega⟩
    unfold readValues
    by_cases hf : (s.getline "" ',').1.failbit = true
    · simp [hf]
    · have hf' : (s.getline "" ',').1.failbit = false := by simpa using hf
      have hlt := getline_buf_length_lt s "" ',' hf'
      simp only [hf', Bool.false_eq_true, if_false]
      exact ih _ _ _ _ (by omega) (by omega) (by omega)

theorem ofString_buf_length (data : String) : (IStream.ofString data).buf.length = data.length :=
  rfl

/-- More fuel than `parseRow` supplies never changes the cells read from a row line. -/
theorem parseRow_fuel (rowData : String) (fuel : Nat) (h : rowData.length + 1 ≤ fuel) :
    readValues fuel (IStream.ofString rowData) [] = parseRow rowData := by
  unfold parseRow
  have e := ofString_buf_length rowData
  exact readValues_fuel (rowData.length + 1) _ _ _ _ (by omega) (by omega) (by omega)

/-! ### `selectRows` as filter and projection -/

theorem foldl_push_map {α β : Type} (f : α → β) (l : List α) (init : List β) :
    l.foldl (fun acc x => acc ++ [f x]) init = init ++ l.map f := by
  induction l generalizing init with
  | nil => simp
  | cons x xs ih => simp [ih]

theorem foldl_push_filter_map {α β : Type} (skip : α → Bool) (f : α → β) (l : List α)
    (init : List β) :
    l.foldl (fun acc x => if skip x then acc else acc ++ [f x]) init
      = init ++ (l.filter (fun x => !skip x)).map f := by
  induction l generalizing init with
  | nil => simp
  | cons x xs ih =>
    rw [List.foldl_cons, ih]
    cases h : skip x <;> simp [List.filter_cons, h]

theorem columnIndices_eq (t : Table) (cols : List String) :
    t.columnIndices cols =
      if cols = [] then List.range t.columns.length else cols.filterMap t.getColumnIndex := by
  unfold Table.columnIndices
  cases cols with
  | nil =>
    simp only [List.isEmpty_nil, Bool.not_true, Bool.false_eq_true, if_false, if_true]
    have h := foldl_push_map (fun i : Nat => i) (List.range t.columns.length) []
    simpa using h
  | cons c cs =>
    simp only [List.isEmpty_cons, Bool.not_false, if_true, reduceCtorEq, if_false]
    have aux : ∀ (l : List String) (init : List Nat),
        l.foldl t.pushColumnIndex init = init ++ l.filterMap t.getColumnIndex := by
      intro l
      induction l with
      | nil => simp
      | cons x xs ih =>
        intro init
        rw [List.foldl_cons, ih]
        unfold Table.pushColumnIndex
        cases h : t.getColumnIndex x <;> simp [List.filterMap_cons, h]
    exact (aux (c :: cs) []).trans (List.nil_append _)

/-- Whether `selectRows` keeps a row: the condition is empty or `evaluateCondition` holds. -/
theorem selectRows_eq (t : Table) (cols : List String) (cond : String) :
    t.selectRows cols cond =
      (t.rows.filter (fun row => cond == "" || t.evaluateCondition row cond)).map
        (fun row => (t.columnIndices cols).map (fun idx => row.getD idx "")) := by
  unfold Table.selectRows
  have h := foldl_push_filter_map
    (fun row => cond != "" && !t.evaluateCondition row cond)
    (fun row : List String =>
      (t.columnIndices cols).foldl (fun resultRow idx => resultRow ++ [row.getD idx ""]) [])
    t.rows []
  have hf : (fun row : List String =>
      (t.columnIndices cols).foldl (fun resultRow idx => resultRow ++ [row.getD idx ""]) [])
      = (fun row => (t.columnIndices cols).map (fun idx => row.getD idx "")) :=
    funext fun row =>
      (foldl_push_map (fun idx => row.getD idx "") (t.columnIndices cols) []).trans
        (List.nil_append _)
  have hp : (fun row => !(cond != "" && !t.evaluateCondition row cond))
      = (fun row => cond == "" || t.evaluateCondition row cond) :=
    funext fun row => by
      by_cases hc : cond = "" <;> cases t.evaluateCondition row cond <;> simp [hc, bne]
  rw [hf, hp, List.nil_append] at h
  exact h

theorem getColumnIndex_eq_definitionIndex (t : Table) (name : String) :
    t.getColumnIndex name = definitionIndex t name := by
  unfold Table.getColumnIndex definitionIndex
  have hmap : t.columns.findIdx? (fun c => c.name == name)
      = (t.columns.map ColumnDef.name).findIdx? (fun n => n == name) := by
    rw [List.findIdx?_map]
    rfl
  rw [hmap]
  generalize t.columns.map ColumnDef.name = names
  induction names with
  | nil => simp
  | cons n ns ih =>
    by_cases h : n = name
    · subst h
      simp [List.findIdx?_cons, List.indexOf_cons]
    · have h' : (n == name) = false := by simpa using h
      have h'' : ¬ name = n := fun e => h e.symm
      rw [List.findIdx?_cons, h']
      simp only [Bool.false_eq_true, if_false, List.findIdx?_succ, List.mem_cons, h'', false_or]
      rw [ih]
      by_cases hm : name ∈ ns
      · simp [hm, List.indexOf_cons, h]
      · simp [hm]

theorem columnIndices_map_eq_projectRow (t : Table) (cols : List String) (row : List String) :
    (t.columnIndices cols).map (fun idx => row.getD idx "") = projectRow t cols row := by
  rw [columnIndices_eq]
  unfold projectRow projectRequested
  by_cases h : cols = []
  · simp [h]
  · simp only [h, if_false]
    clear h
    induction cols with
    | nil => rfl
    | cons c cs ih =>
      rw [List.filterMap_cons, List.flatMap_cons, ← ih, ← getColumnIndex_eq_definitionIndex]
      cases t.getColumnIndex c <;> simp

theorem range_map_getD (row : List String) :
    (List.range row.length).map (fun idx => row.getD idx "") = row := by
  apply List.ext_getElem?
  intro i
  by_cases hi : i < row.length
  · simp [hi, List.getElem?_eq_getElem hi]
  · have h1 : row[i]? = none := List.getElem?_eq_none (by omega)
    simp only [List.getElem?_map, h1]
    rw [List.getElem?_eq_none (by simpa using hi)]
    rfl

/-! ### `evaluateCondition` -/

theorem findIdx?_eq_none_of_not_mem (a : List Char) (h : '=' ∉ a) :
    a.findIdx? (fun c => c == '=') = none := by
  rw [List.findIdx?_eq_none_iff]
  intro x hx
  have : x ≠ '=' := fun e => h (e ▸ hx)
  simpa using this

theorem findIdx?_eq_sign (a b : List Char) (h : '=' ∉ a) :
    (a ++ '=' :: b).findIdx? (fun c => c == '=') = some a.length := by
  rw [List.findIdx?_append, findIdx?_eq_none_of_not_mem a h]
  simp [List.findIdx?_cons]

theorem evaluateCondition_of_no_eq (t : Table) (row : List String) (cond : String)
    (h : '=' ∉ cond.data) : t.evaluateCondition row cond = true := by
  unfold Table.evaluateCondition
  rw [findIdx?_eq_none_of_not_mem _ h]

theorem evaluateCondition_split (t : Table) (row : List String) (cond : String)
    (a b : List Char) (hcond : cond.data = a ++ '=' :: b) (h : '=' ∉ a) :
    t.evaluateCondition row cond =
      match t.getColumnIndex (String.mk a) with
      | none => false
      | some idx => decide (row[idx]? = some (String.mk (stripQuotes b))) := by
  unfold Table.evaluateCondition
  rw [hcond, findIdx?_eq_sign a b h]
  simp only [List.take_left', List.drop_succ_cons, List.drop_left']
  cases hidx : t.getColumnIndex (String.mk a) with
  | none => rfl
  | some idx =>
    simp only
    by_cases hlt : idx < row.length
    · have hge : ¬ idx ≥ row.length := by omega
      rw [if_neg hge, List.getD_eq_getElem?_getD, List.getElem?_eq_getElem hlt]
      simp [beq_eq_decide]
    · have hge : idx ≥ row.length := by omega
      rw [if_pos hge, List.getElem?_eq_none hge]
      simp

theorem data_append_eq (c v : String) : (c ++ "=" ++ v).data = c.data ++ '=' :: v.data := by
  simp [String.data_append]

theorem stripQuotes_eq_unquote (v : List Char) (hv : v.length < SIZE_MODULUS) :
    stripQuotes v = unquote v := by
  unfold stripQuotes unquote substr
  by_cases hq : v ≠ [] ∧ v.head? = some '"' ∧ v.getLast? = some '"'
  · have hne : v ≠ [] := hq.1
    have hpos : 0 < v.length := List.length_pos.mpr hne
    have hc : (!v.isEmpty && v.head? == some '"' && v.getLast? == some '"') = true := by
      simp [hq.2.1, hq.2.2, hne]
    rw [if_pos hc, if_pos hq, List.dropLast_eq_take, List.length_drop]
    by_cases h1 : v.length = 1
    · have hd : v.drop 1 = [] := List.drop_eq_nil_of_le (by omega)
      rw [hd]
      simp
    · have hmod : (v.length + SIZE_MODULUS - 2) % SIZE_MODULUS = v.length - 1 - 1 := by
        have e : v.length + SIZE_MODULUS - 2 = (v.length - 2) + SIZE_MODULUS := by omega
        rw [e, Nat.add_mod_right, Nat.mod_eq_of_lt (by omega)]
        omega
      rw [hmod]
  · have hc : ¬ ((!v.isEmpty && v.head? == some '"' && v.getLast? == some '"') = true) := by
      intro hc
      apply hq
      simp only [Bool.and_eq_true, Bool.not_eq_true', beq_iff_eq] at hc
      refine ⟨?_, hc.1.2, hc.2⟩
      intro e
      rw [e] at hc
      simp at hc
    rw [if_neg hc, if_neg hq]

/-! ### `serialize`, character by character -/

theorem foldl_append_data {α : Type} (f : α → String) (l : List α) (init : String) :
    (l.foldl (fun ss x => ss ++ f x) init).data = init.data ++ l.flatMap (fun x => (f x).data) := by
  induction l generalizing init with
  | nil => simp
  | cons x xs ih => rw [List.foldl_cons, ih, String.data_append, List.flatMap_cons,
      List.append_assoc]

theorem join_data (l : List String) : (String.join l).data = l.flatMap String.data := by
  unfold String.join
  have h := foldl_append_data (fun s : String => s) l ""
  simpa using h

theorem intercalate_go_data (acc sep : String) (l : List String) :
    (String.intercalate.go acc sep l).data
      = acc.data ++ l.flatMap (fun c => sep.data ++ c.data) := by
  induction l generalizing acc with
  | nil => simp [String.intercalate.go]
  | cons x xs ih =>
    rw [String.intercalate.go, ih]
    simp [String.data_append]

theorem intercalate_data (row : List String) : (",".intercalate row).data = joinCells row := by
  cases row with
  | nil => rfl
  | cons c cs =>
    rw [String.intercalate, intercalate_go_data]
    rfl

theorem joinCells_append_singleton (l : List String) (x : String) (h : l ≠ []) :
    joinCells (l ++ [x]) = joinCells l ++ ',' :: x.data := by
  cases l with
  | nil => exact absurd rfl h
  | cons c cs => simp [joinCells, List.flatMap_append]

theorem serializeCells_upto (ss : String) (row : List String) (k : Nat) (hk : k ≤ row.length) :
    ((List.range k).foldl
        (fun ss i =>
          let ss := ss ++ row.getD i ""
          if i < row.length - 1 then ss ++ "," else ss) ss).data
      = ss.data ++ joinCells (row.take k)
          ++ (if 0 < k ∧ k < row.length then [','] else []) := by
  induction k with
  | zero => simp [joinCells]
  | succ k ih =>
    have hlt : k < row.length := by omega
    rw [List.range_succ, List.foldl_append, List.foldl_cons, List.foldl_nil]
    have htake : row.take (k + 1) = row.take k ++ [row.getD k ""] := by
      rw [List.take_succ, List.getD_eq_getElem?_getD, List.getElem?_eq_getElem hlt]
      rfl
    have hcomma : (if k < row.length - 1 then [','] else ([] : List Char))
        = (if 0 < k + 1 ∧ k + 1 < row.length then [','] else []) := by
      by_cases h1 : k < row.length - 1
      · rw [if_pos h1, if_pos ⟨by omega, by omega⟩]
      · rw [if_neg h1, if_neg (by omega)]
    have hbody : ∀ prev : String,
        (if k < row.length - 1 then (prev ++ row.getD k "") ++ "," else prev ++ row.getD k "").data
          = prev.data ++ (row.getD k "").data
              ++ (if k < row.length - 1 then [','] else ([] : List Char)) := by
      intro prev
      by_cases h1 : k < row.length - 1
      · rw [if_pos h1, if_pos h1, String.data_append, String.data_append]
      · rw [if_neg h1, if_neg h1, String.data_append, List.append_nil]
    simp only []
    rw [hbody, ih (by omega), hcomma, htake]
    by_cases h0 : k = 0
    · subst h0
      simp [joinCells]
    · have hne : row.take k ≠ [] := by
        intro e
        have := congrArg List.length e
        rw [List.length_take, List.length_nil] at this
        omega
      rw [joinCells_append_singleton _ _ hne, if_pos ⟨by omega, hlt⟩]
      simp

theorem serializeCells_data (ss : String) (row : List String) :
    (Table.serializeCells ss row).data = ss.data ++ joinCells row := by
  unfold Table.serializeCells
  rw [serializeCells_upto ss row row.length (Nat.le_refl _), List.take_length,
    if_neg (by omega), List.append_nil]

theorem serialize_data (t : Table) : t.serialize.data = serializeChars t := by
  unfold Table.serialize serializeChars
  simp only []
  have hrows : ∀ (rows : List (List String)) (init : String),
      (rows.foldl (fun ss row => Table.serializeCells ss row ++ "\n") init).data
        = init.data ++ rows.flatMap (fun row => joinCells row ++ ['\n']) := by
    intro rows
    induction rows with
    | nil => simp
    | cons r rs ih =>
      intro init
      rw [List.foldl_cons, ih, String.data_append, serializeCells_data, List.flatMap_cons]
      simp
  rw [hrows, String.data_append, String.data_append]
  have hcols := foldl_append_data
    (fun col : ColumnDef =>
      col.name ++ "," ++ col.type ++ "," ++ toString col.constraints ++ "\n") t.columns
    ("" ++ t.name ++ "\n" ++ toString t.columns.length ++ "\n")
  have hfun : (fun ss (col : ColumnDef) =>
      ss ++ col.name ++ "," ++ col.type ++ "," ++ toString col.constraints ++ "\n")
      = (fun ss col =>
        ss ++ (col.name ++ "," ++ col.type ++ "," ++ toString col.constraints ++ "\n")) := by
    funext ss col
    simp [String.append_assoc]
  rw [hfun, hcols]
  have hline : (fun col : ColumnDef =>
      (col.name ++ "," ++ col.type ++ "," ++ toString col.constraints ++ "\n").data)
      = columnLine := by
    funext col
    simp [columnLine, String.data_append]
  rw [hline]
  simp [String.data_append]

theorem serializeSpec_data (t : Table) : (serializeSpec t).data = serializeChars t := by
  unfold serializeSpec serializeChars
  simp only [String.data_append, join_data, List.flatMap_map]
  have hline : ∀ a : ColumnDef,
      a.name.data ++ ",".data ++ a.type.data ++ ",".data ++ (toString a.constraints).data
        ++ "\n".data = columnLine a := by
    intro a
    simp [columnLine]
  simp only [hline, intercalate_data]
  simp

/-! ### Decimal numerals -/

theorem digitChar_isDigit (k : Nat) (h : k < 10) : (Nat.digitChar k).isDigit = true := by
  interval_cases k <;> rfl

theorem digitChar_value (k : Nat) (h : k < 10) : (Nat.digitChar k).toNat - '0'.toNat = k := by
  interval_cases k <;> rfl

theorem toDigitsCore_spec (fuel : Nat) :
    ∀ (n : Nat) (ds : List Char), n < fuel →
      ∃ pre : List Char, Nat.toDigitsCore 10 fuel n ds = pre ++ ds ∧ pre ≠ [] ∧
        (∀ c ∈ pre, c.isDigit = true) ∧
        ∀ a : Nat, pre.foldl (fun acc d => acc * 10 + (d.toNat - '0'.toNat)) a
          = a * 10 ^ pre.length + n := by
  induction fuel with
  | zero => intro n ds h; omega
  | succ fuel ih =>
    intro n ds hn
    rw [Nat.toDigitsCore]
    by_cases h0 : n / 10 = 0
    · rw [if_pos h0]
      have hlt : n < 10 := by omega
      refine ⟨[Nat.digitChar (n % 10)], rfl, by simp, ?_, ?_⟩
      · intro c hc
        rw [List.mem_singleton] at hc
        rw [hc]
        exact digitChar_isDigit _ (Nat.mod_lt _ (by decide))
      · intro a
        simp only [List.foldl_cons, List.foldl_nil, List.length_singleton, pow_one]
        rw [digitChar_value _ (Nat.mod_lt _ (by decide)), Nat.mod_eq_of_lt hlt]
    · rw [if_neg h0]
      obtain ⟨pre, hpre, _, hdig, hval⟩ := ih (n / 10) (Nat.digitChar (n % 10) :: ds) (by omega)
      refine ⟨pre ++ [Nat.digitChar (n % 10)], ?_, by simp, ?_, ?_⟩
      · rw [hpre]; simp
      · intro c hc
        rw [List.mem_append, List.mem_singleton] at hc
        rcases hc with hc | hc
        · exact hdig c hc
        · rw [hc]
          exact digitChar_isDigit _ (Nat.mod_lt _ (by decide))
      · intro a
        rw [List.foldl_append, hval]
        simp only [List.foldl_cons, List.foldl_nil, List.length_append, List.length_singleton]
        rw [digitChar_value _ (Nat.mod_lt _ (by decide)), pow_succ]
        have := Nat.div_add_mod n 10
        nlinarith [this]

theorem repr_data_spec (n : Nat) :
    (Nat.repr n).data ≠ [] ∧ (∀ c ∈ (Nat.repr n).data, c.isDigit = true) ∧
      digitsValue (Nat.repr n).data = n := by
  obtain ⟨pre, hpre, hne, hdig, hval⟩ := toDigitsCore_spec (n + 1) n [] (by omega)
  have hdata : (Nat.repr n).data = pre := by
    show (Nat.toDigits 10 n).asString.data = pre
    unfold Nat.toDigits
    rw [hpre, List.append_nil]
    rfl
  rw [hdata]
  refine ⟨hne, hdig, ?_⟩
  unfold digitsValue
  rw [hval 0]
  simp

theorem isDigit_not_special {c : Char} (h : c.isDigit = true) :
    isSpace c = false ∧ c ≠ '-' ∧ c ≠ '+' ∧ c ≠ ',' ∧ c ≠ '\n' := by
  have hv : c.val ≥ 48 ∧ c.val ≤ 57 := by
    simpa [Char.isDigit] using h
  have h48 : 48 ≤ c.toNat := hv.1
  have key : ∀ d : Char, d.toNat < 48 → c ≠ d := by
    intro d hd e
    rw [e] at h48
    omega
  refine ⟨?_, key _ (by decide), key _ (by decide), key _ (by decide), key _ (by decide)⟩
  unfold isSpace
  have h1 := key ' ' (by decide)
  have h2 := key '\t' (by decide)
  have h3 := key '\n' (by decide)
  have h4 := key '\x0b' (by decide)
  have h5 := key '\x0c' (by decide)
  have h6 := key '\r' (by decide)
  simp [h1, h2, h3, h4, h5, h6]

/-! ### Reading back what `serialize` wrote -/

theorem takeWhile_append_stop (p : Char → Bool) (a b : List Char) (x : Char)
    (ha : ∀ c ∈ a, p c = true) (hx : p x = false) :
    (a ++ x :: b).takeWhile p = a ∧ (a ++ x :: b).dropWhile p = x :: b := by
  induction a with
  | nil => simp [List.takeWhile_cons, List.dropWhile_cons, hx]
  | cons y ys ih =>
    have hy : p y = true := ha y (List.mem_cons_self _ _)
    obtain ⟨h1, h2⟩ := ih (fun c hc => ha c (List.mem_cons_of_mem _ hc))
    simp [List.takeWhile_cons, List.dropWhile_cons, hy, h1, h2]

theorem takeWhile_all (p : Char → Bool) (a : List Char) (ha : ∀ c ∈ a, p c = true) :
    a.takeWhile p = a ∧ a.dropWhile p = [] := by
  induction a with
  | nil => simp
  | cons y ys ih =>
    have hy : p y = true := ha y (List.mem_cons_self _ _)
    obtain ⟨h1, h2⟩ := ih (fun c hc => ha c (List.mem_cons_of_mem _ hc))
    simp [List.takeWhile_cons, List.dropWhile_cons, hy, h1, h2]

theorem ne_of_not_mem {d : Char} {line : List Char} (h : d ∉ line) :
    ∀ c ∈ line, (c != d) = true := by
  intro c hc
  have : c ≠ d := fun e => h (e ▸ hc)
  simpa using this

theorem getline_line (line rest : List Char) (str : String) (d : Char) (h : d ∉ line) :
    IStream.getline { buf := line ++ d :: rest, eofbit := false, failbit := false } str d
      = ({ buf := rest, eofbit := false, failbit := false }, String.mk line) := by
  obtain ⟨h1, h2⟩ := takeWhile_append_stop (fun c => c != d) line rest d (ne_of_not_mem h)
    (by simp)
  unfold IStream.getline
  simp only [IStream.good, Bool.not_false, Bool.and_self, Bool.not_true, Bool.false_eq_true,
    if_false, List.span_eq_take_drop, h1, h2]

theorem getline_last (line : List Char) (str : String) (d : Char) (h : d ∉ line) :
    IStream.getline { buf := line, eofbit := false, failbit := false } str d
      = ({ buf := [], eofbit := true, failbit := line.isEmpty }, String.mk line) := by
  obtain ⟨h1, h2⟩ := takeWhile_all (fun c => c != d) line (ne_of_not_mem h)
  unfold IStream.getline
  simp only [IStream.good, Bool.not_false, Bool.and_self, Bool.not_true, Bool.false_eq_true,
    if_false, List.span_eq_take_drop, h1, h2]

theorem extractInt_decimal (n : Nat) (rest : List Char) (old : Int) (hn : (n : Int) ≤ INT_MAX) :
    IStream.extractInt
        { buf := (toString n).data ++ '\n' :: rest, eofbit := false, failbit := false } old
      = ({ buf := '\n' :: rest, eofbit := false, failbit := false }, (n : Int)) := by
  obtain ⟨hne, hdig, hval⟩ := repr_data_spec n
  show IStream.extractInt
    { buf := (Nat.repr n).data ++ '\n' :: rest, eofbit := false, failbit := false } old = _
  obtain ⟨h1, h2⟩ := takeWhile_append_stop Char.isDigit (Nat.repr n).data rest '\n' hdig
    (by decide)
  revert hne hdig hval h1 h2
  generalize (Nat.repr n).data = digits
  intro hne hdig hval h1 h2
  cases digits with
  | nil => exact absurd rfl hne
  | cons c ds =>
    obtain ⟨hsp, hminus, hplus, _, _⟩ := isDigit_not_special (hdig c (List.mem_cons_self _ _))
    have hsign : (c == '-' || c == '+') = false := by simp [hminus, hplus]
    have hm : (c == '-') = false := by simp [hminus]
    have hp : (c == '+') = false := by simp [hplus]
    rw [List.cons_append] at h1 h2
    unfold IStream.extractInt
    simp only [IStream.good, Bool.not_false, Bool.and_self, Bool.not_true, Bool.false_eq_true,
      if_false, List.cons_append, List.dropWhile_cons, hsp, hm, hp, Bool.or_self, h1, h2,
      List.isEmpty_cons, hval]
    have hlow : ¬ ((n : Int) < INT_MIN) := by
      unfold INT_MIN
      omega
    have hhigh : ¬ ((n : Int) > INT_MAX) := by omega
    rw [if_neg hhigh, if_neg hlow]

theorem ignore_newline (rest : List Char) :
    IStream.ignore { buf := '\n' :: rest, eofbit := false, failbit := false }
      = { buf := rest, eofbit := false, failbit := false } := rfl

theorem toString_int_data (c : Int) :
    (∀ x ∈ (toString c).data, x ≠ ',' ∧ x ≠ '\n') ∧ (toString c).data ≠ [] := by
  cases c with
  | ofNat m =>
    obtain ⟨hne, hdig, _⟩ := repr_data_spec m
    refine ⟨fun x hx => ?_, hne⟩
    obtain ⟨_, _, _, h1, h2⟩ := isDigit_not_special (hdig x hx)
    exact ⟨h1, h2⟩
  | negSucc m =>
    obtain ⟨_, hdig, _⟩ := repr_data_spec (m + 1)
    have hdata : (toString (Int.negSucc m)).data = '-' :: (Nat.repr (m + 1)).data := rfl
    rw [hdata]
    refine ⟨fun x hx => ?_, by simp⟩
    rw [List.mem_cons] at hx
    rcases hx with hx | hx
    · rw [hx]
      exact ⟨by decide, by decide⟩
    · obtain ⟨_, _, _, h1, h2⟩ := isDigit_not_special (hdig x hx)
      exact ⟨h1, h2⟩

theorem stoi_toString (c : Int) (hlow : INT_MIN ≤ c) (hhigh : c ≤ INT_MAX) :
    stoi (toString c) = some c := by
  cases c with
  | ofNat m =>
    obtain ⟨hne, hdig, hval⟩ := repr_data_spec m
    obtain ⟨h1, _⟩ := takeWhile_all Char.isDigit (Nat.repr m).data hdig
    show stoi (Nat.repr m) = some (Int.ofNat m)
    unfold stoi
    revert hne hdig hval h1
    generalize (Nat.repr m).data = digits
    intro hne hdig hval h1
    cases digits with
    | nil => exact absurd rfl hne
    | cons d ds =>
      obtain ⟨hsp, hminus, hplus, _, _⟩ := isDigit_not_special (hdig d (List.mem_cons_self _ _))
      have hm : (d == '-') = false := by simp [hminus]
      have hp : (d == '+') = false := by simp [hplus]
      simp only [List.dropWhile_cons, hsp, Bool.false_eq_true, if_false, hm, hp, Bool.or_self,
        h1, List.isEmpty_cons, hval]
      have h3 : ¬ ((m : Int) > INT_MAX) := by
        have : Int.ofNat m = (m : Int) := rfl
        omega
      have h4 : ¬ ((m : Int) < INT_MIN) := by
        unfold INT_MIN
        omega
      simp [h3, h4]
  | negSucc m =>
    obtain ⟨hne, hdig, hval⟩ := repr_data_spec (m + 1)
    obtain ⟨h1, _⟩ := takeWhile_all Char.isDigit (Nat.repr (m + 1)).data hdig
    have hdata : (toString (Int.negSucc m)).data = '-' :: (Nat.repr (m + 1)).data := rfl
    unfold stoi
    rw [hdata]
    have hsp : isSpace '-' = false := by decide
    simp only [List.dropWhile_cons, hsp, Bool.false_eq_true, if_false, beq_self_eq_true,
      Bool.true_or, if_true, h1, hval]
    have hne' : (Nat.repr (m + 1)).data.isEmpty = false := by
      cases h : (Nat.repr (m + 1)).data with
      | nil => exact absurd h hne
      | cons _ _ => rfl
    rw [hne']
    have hv : -((m + 1 : Nat) : Int) = Int.negSucc m := by
      rw [Int.negSucc_eq]
      push_cast
      ring
    rw [hv]
    have h3 : ¬ (Int.negSucc m > INT_MAX) := by omega
    have h4 : ¬ (Int.negSucc m < INT_MIN) := by omega
    simp [h3, h4]

theorem ofString_mk (l : List Char) :
    IStream.ofString (String.mk l) = { buf := l, eofbit := false, failbit := false } := rfl

theorem parseColumnDef_line (col : ColumnDef)
    (hname : ',' ∉ col.name.data) (htype : ',' ∉ col.type.data)
    (hlow : INT_MIN ≤ col.constraints) (hhigh : col.constraints ≤ INT_MAX) :
    parseColumnDef
        (String.mk (col.name.data ++ ',' :: (col.type.data ++ ',' :: (toString col.constraints).data)))
      = col := by
  obtain ⟨hchars, hne⟩ := toString_int_data col.constraints
  have hdec : ',' ∉ (toString col.constraints).data := fun hm => (hchars _ hm).1 rfl
  have hemp : (toString col.constraints).data.isEmpty = false := by
    cases h : (toString col.constraints).data with
    | nil => exact absurd h hne
    | cons _ _ => rfl
  unfold parseColumnDef
  simp only [ofString_mk]
  rw [getline_line _ _ _ _ hname]
  simp only []
  rw [getline_line _ _ _ _ htype]
  simp only []
  rw [getline_last _ _ _ hdec]
  simp only [hemp, Bool.not_false, if_true]
  have hs : stoi (String.mk (toString col.constraints).data) = some col.constraints :=
    stoi_toString col.constraints hlow hhigh
  rw [hs]

theorem readColumns_lines (cols : List ColumnDef) (rest : List Char) (acc : List ColumnDef)
    (hnames : ∀ col ∈ cols, ',' ∉ col.name.data ∧ '\n' ∉ col.name.data)
    (htypes : ∀ col ∈ cols, ',' ∉ col.type.data ∧ '\n' ∉ col.type.data)
    (hbits : ∀ col ∈ cols, INT_MIN ≤ col.constraints ∧ col.constraints ≤ INT_MAX) :
    readColumns cols.length
        { buf := cols.flatMap columnLine ++ rest, eofbit := false, failbit := false } acc
      = ({ buf := rest, eofbit := false, failbit := false }, acc ++ cols) := by
  induction cols generalizing acc with
  | nil => simp [readColumns]
  | cons col cols ih =>
    have hn := hnames col (List.mem_cons_self _ _)
    have ht := htypes col (List.mem_cons_self _ _)
    have hb := hbits col (List.mem_cons_self _ _)
    have hline : '\n' ∉ col.name.data ++ ',' :: (col.type.data ++ ',' ::
        (toString col.constraints).data) := by
      intro hm
      rw [List.mem_append, List.mem_cons, List.mem_append, List.mem_cons] at hm
      rcases hm with hm | hm | hm | hm | hm
      · exact hn.2 hm
      · exact absurd hm (by decide)
      · exact ht.2 hm
      · exact absurd hm (by decide)
      · exact ((toString_int_data col.constraints).1 _ hm).2 rfl
    have hbuf : (col :: cols).flatMap columnLine ++ rest
        = (col.name.data ++ ',' :: (col.type.data ++ ',' :: (toString col.constraints).data))
            ++ '\n' :: (cols.flatMap columnLine ++ rest) := by
      simp [List.flatMap_cons, columnLine]
    rw [List.length_cons, readColumns, hbuf, getline_line _ _ _ _ hline]
    simp only []
    rw [parseColumnDef_line col hn.1 ht.1 hb.1 hb.2,
      ih (acc ++ [col]) (fun c hc => hnames c (List.mem_cons_of_mem _ hc))
        (fun c hc => htypes c (List.mem_cons_of_mem _ hc))
        (fun c hc => hbits c (List.mem_cons_of_mem _ hc))]
    simp

theorem joinCells_cons_cons (c d : String) (ds : List String) :
    joinCells (c :: d :: ds) = c.data ++ ',' :: joinCells (d :: ds) := by
  simp [joinCells, List.flatMap_cons]

theorem readValues_joinCells (row : List String) :
    ∀ (acc : List String) (fuel : Nat), (∀ cell ∈ row, ',' ∉ cell.data) →
      row.getLast? ≠ some "" → (joinCells row).length + 1 ≤ fuel →
      readValues fuel { buf := joinCells row, eofbit := false, failbit := false } acc
        = acc ++ row := by
  induction row with
  | nil =>
    intro acc fuel _ _ hfuel
    obtain ⟨f, rfl⟩ : ∃ f, fuel = f + 1 := ⟨fuel - 1, by omega⟩
    rw [readValues]
    have h := getline_last [] "" ',' (by simp)
    simp only [joinCells]
    rw [h]
    simp
  | cons c cs ih =>
    intro acc fuel hcells hlast hfuel
    obtain ⟨f, rfl⟩ : ∃ f, fuel = f + 1 := ⟨fuel - 1, by omega⟩
    have hc : ',' ∉ c.data := hcells c (List.mem_cons_self _ _)
    cases cs with
    | nil =>
      have hcne : c.data ≠ [] := by
        intro e
        apply hlast
        have : c = "" := String.ext e
        simp [this]
      have hjoin : joinCells [c] = c.data := by simp [joinCells]
      have hemp : c.data.isEmpty = false := by
        cases h : c.data with
        | nil => exact absurd h hcne
        | cons _ _ => rfl
      have hlen : 0 < c.data.length := List.length_pos.mpr hcne
      rw [hjoin] at hfuel ⊢
      obtain ⟨g, rfl⟩ : ∃ g, f = g + 1 := ⟨f - 1, by omega⟩
      rw [readValues, getline_last _ _ _ hc]
      simp only [hemp, Bool.false_eq_true, if_false]
      rw [readValues]
      simp [IStream.getline, IStream.good]
    | cons d ds =>
      rw [joinCells_cons_cons] at hfuel ⊢
      rw [readValues, getline_line _ _ _ _ hc]
      simp only [Bool.false_eq_true, if_false]
      have hlast' : (d :: ds).getLast? ≠ some "" := by
        rw [List.getLast?_cons_cons] at hlast
        exact hlast
      rw [ih (acc ++ [String.mk c.data]) f (fun cell hm => hcells cell (List.mem_cons_of_mem _ hm))
        hlast' (by simp only [List.length_append, List.length_cons] at hfuel; omega)]
      simp

theorem parseRow_joinCells (row : List String) (hcells : ∀ cell ∈ row, ',' ∉ cell.data)
    (hlast : row.getLast? ≠ some "") : parseRow (String.mk (joinCells row)) = row := by
  unfold parseRow
  rw [ofString_mk]
  have h := readValues_joinCells row [] ((String.mk (joinCells row)).length + 1) hcells hlast
    (Nat.le_refl _)
  simpa using h

theorem mem_joinCells {x : Char} {row : List String} (h : x ∈ joinCells row) :
    x = ',' ∨ ∃ cell ∈ row, x ∈ cell.data := by
  cases row with
  | nil => simp [joinCells] at h
  | cons c cs =>
    simp only [joinCells, List.mem_append, List.mem_flatMap, List.mem_cons] at h
    rcases h with h | ⟨cell, hcell, h | h⟩
    · exact Or.inr ⟨c, List.mem_cons_self _ _, h⟩
    · exact Or.inl h
    · exact Or.inr ⟨cell, List.mem_cons_of_mem _ hcell, h⟩

theorem replayRows_lines (rows : List (List String)) (rest : List Char) (t : Table)
    (out : List String)
    (hcells : ∀ row ∈ rows, ∀ cell ∈ row, ',' ∉ cell.data ∧ '\n' ∉ cell.data)
    (hlast : ∀ row ∈ rows, row.getLast? ≠ some "") :
    (replayRows rows.length
        { buf := rows.flatMap (fun row => joinCells row ++ ['\n']) ++ rest,
          eofbit := false, failbit := false } t out).table = t.insertAll rows := by
  induction rows generalizing t out with
  | nil => rfl
  | cons row rows ih =>
    have hrow := hcells row (List.mem_cons_self _ _)
    have hline : '\n' ∉ joinCells row := by
      intro hm
      rcases mem_joinCells hm with h | ⟨cell, hcell, h⟩
      · exact absurd h (by decide)
      · exact (hrow cell hcell).2 h
    have hbuf : (row :: rows).flatMap (fun row => joinCells row ++ ['\n']) ++ rest
        = joinCells row ++ '\n' :: (rows.flatMap (fun row => joinCells row ++ ['\n']) ++ rest) := by
      simp [List.flatMap_cons]
    rw [List.length_cons, replayRows, hbuf, getline_line _ _ _ _ hline]
    simp only []
    rw [parseRow_joinCells row (fun cell hm => (hrow cell hm).1) (hlast row (List.mem_cons_self _ _)),
      ih _ _ (fun r hr => hcells r (List.mem_cons_of_mem _ hr))
        (fun r hr => hlast r (List.mem_cons_of_mem _ hr))]
    rfl

/-! ### A reachable table is the replay of its rows -/

theorem findIdx?_newColumns (cols : List ColumnDef) :
    (newColumns cols).findIdx? ColumnDef.isPrimaryKey = cols.findIdx? ColumnDef.isPrimaryKey := by
  have h := getPrimaryKeyColumnIndex_new "" cols
  rw [new_eq] at h
  exact h

theorem newColumns_idem (cols : List ColumnDef) : newColumns (newColumns cols) = newColumns cols := by
  cases hpk : cols.findIdx? ColumnDef.isPrimaryKey with
  | none =>
    have h : newColumns cols = cols := by
      unfold newColumns
      rw [hpk]
    rw [h, h]
  | some pk =>
    have hnn := new_col_isNotNull "" cols pk hpk
    rw [new_eq] at hnn
    have hnn' : ((newColumns cols).getD pk default).isNotNull = true := hnn
    have hfind := findIdx?_newColumns cols
    rw [hpk] at hfind
    generalize newColumns cols = cols' at hnn' hfind ⊢
    unfold newColumns
    rw [hfind]
    simp only [hnn', Bool.not_true, Bool.false_eq_true, if_false]

theorem newColumns_ofPairs (pairs : List (String × String)) :
    newColumns (pairs.map (fun p => ({ name := p.1, type := p.2 } : ColumnDef)))
      = pairs.map (fun p => ({ name := p.1, type := p.2 } : ColumnDef)) := by
  have h : (pairs.map (fun p => ({ name := p.1, type := p.2 } : ColumnDef))).findIdx?
      ColumnDef.isPrimaryKey = none := by
    rw [List.findIdx?_eq_none_iff]
    intro c hc
    rw [List.mem_map] at hc
    obtain ⟨p, _, rfl⟩ := hc
    rfl
  unfold newColumns
  rw [h]

theorem insertRow_name (t : Table) (vs : List String) : (t.insertRow vs).table.name = t.name := by
  unfold Table.insertRow
  cases t.validateRowMsg vs <;> cases t.checkConstraintsMsg vs <;> simp

theorem reachable_newColumns {t : Table} (h : Reachable t) : newColumns t.columns = t.columns := by
  induction h with
  | new name cols => rw [new_eq]; exact newColumns_idem cols
  | ofPairs name pairs => exact newColumns_ofPairs pairs
  | insertRow t vs _ ih => rw [insertRow_columns]; exact ih

theorem insertAll_append (t : Table) (xs ys : List (List String)) :
    t.insertAll (xs ++ ys) = (t.insertAll xs).insertAll ys := by
  unfold Table.insertAll
  rw [List.foldl_append]

theorem insertAll_rows_eq {t : Table} (h : Reachable t) :
    (Table.new t.name t.columns).insertAll t.rows = t := by
  induction h with
  | new name cols =>
    rw [new_rows]
    show Table.new (Table.new name cols).name (Table.new name cols).columns = Table.new name cols
    rw [new_eq name cols]
    simp only
    rw [new_eq, newColumns_idem, newColumns_length]
  | ofPairs name pairs =>
    show Table.new name (pairs.map (fun p => ({ name := p.1, type := p.2 } : ColumnDef)))
      = Table.ofPairs name pairs
    rw [new_eq, newColumns_ofPairs]
    simp [Table.ofPairs]
  | insertRow t vs _ ih =>
    rw [insertRow_name, insertRow_columns]
    cases hok : (t.insertRow vs).ok with
    | false =>
      rw [insertRow_table_of_not_ok t vs hok]
      exact ih
    | true =>
      have hrows : (t.insertRow vs).table.rows = t.rows ++ [vs] := by
        rw [insertRow_table_of_ok t vs hok]
      rw [hrows, insertAll_append, ih]
      rfl

/-- Reading back the text of a reachable, serializable table gives the table itself,
whatever the uninitialised counters hold. -/
theorem deserialize_serialize (t : Table) (hreach : Reachable t) (hser : Serializable t)
    (columnCountInit rowCountInit : Int) :
    (Table.deserialize t.serialize columnCountInit rowCountInit).table = t := by
  have hstream : IStream.ofString t.serialize
      = { buf := serializeChars t, eofbit := false, failbit := false } := by
    unfold IStream.ofString
    rw [serialize_data]
  unfold Table.deserialize
  simp only []
  rw [hstream]
  unfold serializeChars
  rw [getline_line _ _ _ _ hser.tableName]
  simp only []
  rw [extractInt_decimal _ _ _ hser.columnCount]
  simp only [ignore_newline, Int.toNat_ofNat]
  rw [readColumns_lines t.columns _ [] hser.columnNames hser.columnTypes hser.bitmasks]
  simp only [List.nil_append]
  rw [extractInt_decimal _ _ _ hser.rowCount]
  simp only [ignore_newline, Int.toNat_ofNat]
  have hrows := replayRows_lines t.rows [] (Table.new (String.mk t.name.data) t.columns) []
    hser.cells hser.lastCells
  rw [List.append_nil] at hrows
  rw [hrows]
  exact insertAll_rows_eq hreach

/-! ### Column lines field by field -/

theorem commaFields_no_comma (l : List Char) (h : ',' ∉ l) : commaFields l = [l] := by
  induction l with
  | nil => rfl
  | cons c cs ih =>
    have hc : c ≠ ',' := fun e => h (e ▸ List.mem_cons_self _ _)
    rw [commaFields, if_neg hc, ih (fun hm => h (List.mem_cons_of_mem _ hm))]

theorem commaFields_split (a b : List Char) (h : ',' ∉ a) :
    commaFields (a ++ ',' :: b) = a :: commaFields b := by
  induction a with
  | nil => simp [commaFields]
  | cons c cs ih =>
    have hc : c ≠ ',' := fun e => h (e ▸ List.mem_cons_self _ _)
    rw [List.cons_append, commaFields, if_neg hc, ih (fun hm => h (List.mem_cons_of_mem _ hm))]

theorem first_comma (l : List Char) :
    ',' ∉ l ∨ ∃ a b, l = a ++ ',' :: b ∧ ',' ∉ a := by
  induction l with
  | nil => exact Or.inl (by simp)
  | cons c cs ih =>
    by_cases hc : c = ','
    · exact Or.inr ⟨[], cs, by simp [hc], by simp⟩
    · rcases ih with h | ⟨a, b, hab, ha⟩
      · left
        intro hm
        rw [List.mem_cons] at hm
        rcases hm with hm | hm
        · exact hc hm.symm
        · exact h hm
      · right
        refine ⟨c :: a, b, by rw [hab]; rfl, ?_⟩
        intro hm
        rw [List.mem_cons] at hm
        rcases hm with hm | hm
        · exact hc hm.symm
        · exact ha hm

theorem getline_not_good (s : IStream) (str : String) (d : Char) (h : s.good = false) :
    s.getline str d = ({ s with failbit := true }, str) := by
  unfold IStream.getline
  simp [h]

theorem parseColumnDef_constraints (line : String) :
    (parseColumnDef line).constraints =
      match thirdField line with
      | none => 0
      | some field => (stoi field).getD 0 := by
  have hline : line = String.mk line.data := rfl
  unfold thirdField
  rw [hline]
  generalize line.data = l
  unfold parseColumnDef
  simp only [ofString_mk]
  rcases first_comma l with h1 | ⟨a, l1, rfl, ha⟩
  · rw [getline_last _ _ _ h1, commaFields_no_comma _ h1]
    simp [IStream.getline, IStream.good]
  · rw [getline_line _ _ _ _ ha, commaFields_split _ _ ha]
    simp only []
    rcases first_comma l1 with h2 | ⟨b, l2, rfl, hb⟩
    · rw [getline_last _ _ _ h2, commaFields_no_comma _ h2]
      simp [IStream.getline, IStream.good]
    · rw [getline_line _ _ _ _ hb, commaFields_split _ _ hb]
      simp only []
      rcases first_comma l2 with h3 | ⟨c, l3, rfl, hc⟩
      · rw [getline_last _ _ _ h3, commaFields_no_comma _ h3]
        cases l2 with
        | nil => simp [stoi]
        | cons x xs =>
          cases h : stoi (String.mk (x :: xs)) <;> simp [h]
      · rw [getline_line _ _ _ _ hc, commaFields_split _ _ hc]
        cases h : stoi (String.mk c) <;> simp [h]

theorem stoi_eq_none_of_head (c : Char) (r : List Char) (hsp : isSpace c = false)
    (hm : c ≠ '-') (hp : c ≠ '+') (hd : c.isDigit = false) : stoi (String.mk (c :: r)) = none := by
  unfold stoi
  have hm' : (c == '-') = false := by simp [hm]
  have hp' : (c == '+') = false := by simp [hp]
  simp [List.dropWhile_cons, hsp, hm', hp', List.takeWhile_cons, hd]

theorem newColumns_getElem?_of_not_primaryKey (cols : List ColumnDef) (j : Nat) (col : ColumnDef)
    (hj : cols[j]? = some col) (hpk : col.isPrimaryKey = false) :
    (newColumns cols)[j]? = some col := by
  unfold newColumns
  cases hfind : cols.findIdx? ColumnDef.isPrimaryKey with
  | none => exact hj
  | some pk =>
    simp only
    split
    · have hne : pk ≠ j := by
        intro e
        obtain ⟨hlt, hp, _⟩ := List.findIdx?_eq_some_iff_getElem.mp hfind
        subst e
        rw [List.getElem?_eq_getElem hlt] at hj
        cases hj
        rw [hp] at hpk
        exact absurd hpk (by decide)
      rw [List.getElem?_modify_ne _ _ hne]
      exact hj
    · exact hj

theorem insertRow_out_of_not_ok (t : Table) (vs : List String) (h : (t.insertRow vs).ok = false) :
    ∃ m, (t.insertRow vs).out = [m] ∧
      (t.validateRowMsg vs = some m ∨
        (t.validateRowMsg vs = none ∧ t.checkConstraintsMsg vs = some m)) := by
  unfold Table.insertRow at h ⊢
  cases hv : t.validateRowMsg vs with
  | some m => exact ⟨m, by simp, Or.inl rfl⟩
  | none =>
    cases hc : t.checkConstraintsMsg vs with
    | some m => exact ⟨m, by simp, Or.inr ⟨rfl, rfl⟩⟩
    | none => simp [hv, hc] at h

/-! ### The table map of a database -/

theorem tableMap_contains_iff (m : TableMap) (k : String) :
    m.contains k = (m.find k).isSome := by
  unfold TableMap.contains TableMap.find
  induction m with
  | nil => rfl
  | cons e es ih =>
    obtain ⟨k', v⟩ := e
    by_cases h : k = k'
    · subst h; simp [List.lookup]
    · have h1 : (k == k') = false := by simpa using h
      have h2 : (k' == k) = false := by simpa using fun e => h e.symm
      simp only [List.any_cons, h2, Bool.false_or, List.lookup, h1]
      exact ih

theorem tableMap_find_assign_self (m : TableMap) (k : String) (v : Table) :
    (m.assign k v).find k = some v := by
  simp [TableMap.find, TableMap.assign, List.lookup]

theorem tableMap_find_assign_ne (m : TableMap) (k k' : String) (v : Table) (h : k' ≠ k) :
    (m.assign k v).find k' = m.find k' := by
  unfold TableMap.find TableMap.assign
  have h1 : (k' == k) = false := by simpa using h
  have key : List.lookup k' (m.filter (fun p => p.1 != k)) = List.lookup k' m := by
    induction m with
    | nil => rfl
    | cons e es ih =>
      obtain ⟨k0, v0⟩ := e
      by_cases h0 : k0 = k
      · subst h0
        simp only [List.filter_cons, bne_self_eq_false, Bool.false_eq_true, if_false,
          List.lookup_cons, h1]
        exact ih
      · have h2 : (k0 != k) = true := by simpa using h0
        simp only [List.filter_cons, h2, if_true, List.lookup_cons]
        rw [ih]
  rw [List.lookup_cons, h1]
  exact key

theorem tableMap_find_update_self (m : TableMap) (k : String) (t v : Table)
    (h : m.find k = some t) : (m.update k v).find k = some v := by
  unfold TableMap.find at h ⊢
  induction m with
  | nil => simp at h
  | cons e es ih =>
    obtain ⟨k0, v0⟩ := e
    by_cases h0 : k0 = k
    · subst h0
      simp [TableMap.update, List.lookup]
    · have h1 : (k0 == k) = false := by simpa using h0
      have h2 : (k == k0) = false := by simpa using fun e => h0 e.symm
      rw [List.lookup_cons, h2] at h
      rw [TableMap.update, h1]
      simp only [Bool.false_eq_true, if_false, List.lookup_cons, h2]
      exact ih h

theorem tableMap_find_update_ne (m : TableMap) (k k' : String) (v : Table) (h : k' ≠ k) :
    (m.update k v).find k' = m.find k' := by
  unfold TableMap.find
  induction m with
  | nil => rfl
  | cons e es ih =>
    obtain ⟨k0, v0⟩ := e
    by_cases h0 : k0 = k
    · subst h0
      have h1 : (k' == k0) = false := by simpa using h
      simp [TableMap.update, List.lookup_cons, h1]
    · have h1 : (k0 == k) = false := by simpa using h0
      rw [TableMap.update, h1]
      simp only [Bool.false_eq_true, if_false, List.lookup_cons]
      rw [ih]

theorem tableMap_keys_update (m : TableMap) (k : String) (v : Table) :
    (m.update k v).map (fun p => p.1) = m.map (fun p => p.1) := by
  induction m with
  | nil => rfl
  | cons e es ih =>
    obtain ⟨k0, v0⟩ := e
    by_cases h0 : (k0 == k) = true
    · simp [TableMap.update, h0]
    · simp [TableMap.update, h0, ih]

theorem tableMap_filter_of_not_contains (m : TableMap) (k : String) (h : m.contains k = false) :
    m.filter (fun p => p.1 != k) = m := by
  rw [List.filter_eq_self]
  intro e he
  unfold TableMap.contains at h
  rw [List.any_eq_false] at h
  have := h e he
  simpa using this

theorem newColumns_names_types (cols : List ColumnDef) :
    (newColumns cols).map (fun c => (c.name, c.type)) = cols.map (fun c => (c.name, c.type)) := by
  unfold newColumns
  split
  · split
    · apply List.ext_getElem?
      intro i
      simp only [List.getElem?_map, List.getElem?_modify]
      split
      · cases cols[i]? <;> simp [ColumnDef.addNotNull]
      · simp
    · rfl
  · rfl

theorem newColumns_eq_self (cols : List ColumnDef)
    (h : ∀ c ∈ cols, c.isPrimaryKey = true → c.isNotNull = true) : newColumns cols = cols := by
  unfold newColumns
  cases hpk : cols.findIdx? ColumnDef.isPrimaryKey with
  | none => rfl
  | some pk =>
    obtain ⟨hlt, hp, _⟩ := List.findIdx?_eq_some_iff_getElem.mp hpk
    have hget : cols.getD pk default = cols[pk] := by
      simp [List.getD, List.getElem?_eq_getElem hlt]
    have hnn := h cols[pk] (List.getElem_mem _) hp
    simp only [hget, hnn, Bool.not_true, Bool.false_eq_true, if_false]

theorem tableMap_names_assign (m : TableMap) (k : String) (v : Table)
    (h : m.contains k = false) :
    (m.assign k v).map (fun p => p.1) = k :: m.map (fun p => p.1) := by
  unfold TableMap.assign
  rw [tableMap_filter_of_not_contains m k h]
  rfl

theorem tableMap_not_mem_names (m : TableMap) (k : String) (h : m.contains k = false) :
    k ∉ m.map (fun p => p.1) := by
  unfold TableMap.contains at h
  rw [List.any_eq_false] at h
  intro hmem
  obtain ⟨e, he, hk⟩ := List.mem_map.mp hmem
  have := h e he
  simp [hk] at this

/-! ### The file store -/

theorem createDirectories_files (fs : FileSystem) (p : String) :
    (fs.createDirectories p).files = fs.files := by
  unfold FileSystem.createDirectories
  split <;> rfl

theorem createDirectories_unwritable (fs : FileSystem) (p : String) :
    (fs.createDirectories p).unwritable = fs.unwritable := by
  unfold FileSystem.createDirectories
  split <;> rfl

theorem createDirectories_pathExists (fs : FileSystem) (p : String) :
    (fs.createDirectories p).pathExists p = true := by
  unfold FileSystem.createDirectories
  split
  · assumption
  · simp [FileSystem.pathExists]

theorem writeFile_files (fs : FileSystem) (p q text : String) :
    (fs.writeFile p text).files q = if q = p then some text else fs.files q := rfl

theorem writeFile_pathExists (fs : FileSystem) (p q text : String)
    (h : fs.pathExists q = true) : (fs.writeFile p text).pathExists q = true := by
  unfold FileSystem.pathExists at h ⊢
  rw [writeFile_files]
  by_cases hq : q = p
  · simp [hq]
  · simpa [hq, FileSystem.writeFile] using h

theorem pathExists_of_files (fs : FileSystem) (p text : String) (h : fs.files p = some text) :
    fs.pathExists p = true := by
  simp [FileSystem.pathExists, h]

theorem remove_files (fs : FileSystem) (p q : String) :
    (fs.remove p).files q = if q = p then none else fs.files q := rfl

theorem remove_pathExists (fs : FileSystem) (p q : String) (hq : q ≠ p) :
    (fs.remove p).pathExists q = fs.pathExists q := by
  simp [FileSystem.pathExists, FileSystem.remove, hq]

theorem rename_files (fs : FileSystem) (a b q text : String) (h : fs.files a = some text) :
    (fs.rename a b).files q
      = if q = b then some text else if q = a then none else fs.files q := by
  unfold FileSystem.rename
  rw [h]
  rfl

theorem rename_files_frame (fs : FileSystem) (a b q : String) (ha : q ≠ a) (hb : q ≠ b) :
    (fs.rename a b).files q = fs.files q := by
  unfold FileSystem.rename
  cases h : fs.files a with
  | none => rfl
  | some text => simp [writeFile_files, remove_files, ha, hb]

theorem rename_pathExists (fs : FileSystem) (a b q : String) (hq : q ≠ a)
    (h : fs.pathExists q = true) : (fs.rename a b).pathExists q = true := by
  unfold FileSystem.rename
  cases hf : fs.files a with
  | none => exact h
  | some text =>
    apply writeFile_pathExists
    rw [remove_pathExists _ _ _ hq]
    exact h

theorem rename_unwritable (fs : FileSystem) (a b : String) :
    (fs.rename a b).unwritable = fs.unwritable := by
  unfold FileSystem.rename
  cases fs.files a <;> rfl

/-! ### Paths of the database directory -/

theorem ne_of_getLast (a b : String) (h : a.data.getLast? ≠ b.data.getLast?) : a ≠ b :=
  fun e => h (e ▸ rfl)

theorem append_ne_self (a b : String) (hb : b.data ≠ []) : a ++ b ≠ a := by
  intro h
  have hlen := congrArg (fun s : String => s.data.length) h
  simp only [String.data_append, List.length_append] at hlen
  have : b.data.length = 0 := by omega
  exact hb (List.length_eq_zero.mp this)

theorem tempMetaFile_last (db : Database) : db.tempMetaFile.data.getLast? = some 'p' := by
  simp [Database.tempMetaFile, String.data_append, List.getLast?_append]

theorem metadataFile_last (db : Database) : db.metadataFile.data.getLast? = some 'b' := by
  simp [Database.metadataFile, String.data_append, List.getLast?_append]

theorem tempTableFile_last (db : Database) (k : String) :
    (db.tempTableFile k).data.getLast? = some 'p' := by
  simp only [Database.tempTableFile, String.data_append]
  rw [List.getLast?_append]
  rfl

theorem finalTableFile_last (db : Database) (k : String) :
    (db.finalTableFile k).data.getLast? = some 'l' := by
  simp only [Database.finalTableFile, String.data_append]
  rw [List.getLast?_append]
  rfl

theorem tempTableFile_injective (db : Database) (k k' : String)
    (h : db.tempTableFile k = db.tempTableFile k') : k = k' := by
  have hd := congrArg String.data h
  simp only [Database.tempTableFile, String.data_append, List.append_assoc] at hd
  have h1 := List.append_cancel_left (List.append_cancel_left hd)
  exact String.ext (List.append_cancel_right h1)

theorem finalTableFile_injective (db : Database) (k k' : String)
    (h : db.finalTableFile k = db.finalTableFile k') : k = k' := by
  have hd := congrArg String.data h
  simp only [Database.finalTableFile, String.data_append, List.append_assoc] at hd
  have h1 := List.append_cancel_left (List.append_cancel_left hd)
  exact String.ext (List.append_cancel_right h1)

theorem tempMetaFile_ne_tempTableFile (db : Database) (k : String) :
    db.tempMetaFile ≠ db.tempTableFile k := by
  intro h
  have hd := congrArg String.data h
  have hm : db.tempMetaFile.data = db.name.data ++ ("/".data ++ ("metadata.db".data ++ ".tmp".data)) := by
    simp [Database.tempMetaFile, String.data_append]
  have ht : (db.tempTableFile k).data
      = db.name.data ++ ("/".data ++ ((k.data ++ ".tbl".data) ++ ".tmp".data)) := by
    simp [Database.tempTableFile, String.data_append]
  rw [hm, ht] at hd
  have h1 := List.append_cancel_right (List.append_cancel_left (List.append_cancel_left hd))
  have h2 := congrArg List.getLast? h1
  simp [List.getLast?_append] at h2

theorem tempMetaFile_ne_metadataFile (db : Database) : db.tempMetaFile ≠ db.metadataFile :=
  ne_of_getLast _ _ (by rw [tempMetaFile_last, metadataFile_last]; decide)

theorem tempMetaFile_ne_finalTableFile (db : Database) (k : String) :
    db.tempMetaFile ≠ db.finalTableFile k :=
  ne_of_getLast _ _ (by rw [tempMetaFile_last, finalTableFile_last]; decide)

theorem tempTableFile_ne_metadataFile (db : Database) (k : String) :
    db.tempTableFile k ≠ db.metadataFile :=
  ne_of_getLast _ _ (by rw [tempTableFile_last, metadataFile_last]; decide)

theorem tempTableFile_ne_finalTableFile (db : Database) (k k' : String) :
    db.tempTableFile k ≠ db.finalTableFile k' :=
  ne_of_getLast _ _ (by rw [tempTableFile_last, finalTableFile_last]; decide)

theorem metadataFile_ne_finalTableFile (db : Database) (k : String) :
    db.metadataFile ≠ db.finalTableFile k :=
  ne_of_getLast _ _ (by rw [metadataFile_last, finalTableFile_last]; decide)

theorem name_ne_tempMetaFile (db : Database) : db.name ≠ db.tempMetaFile :=
  fun h => append_ne_self db.name "/metadata.db.tmp" (by decide) h.symm

theorem name_ne_tempTableFile (db : Database) (k : String) : db.name ≠ db.tempTableFile k := by
  intro h
  have h1 : db.tempTableFile k = db.name ++ ("/" ++ k ++ ".tbl.tmp") := by
    apply String.ext
    simp [Database.tempTableFile, String.data_append]
  rw [h1] at h
  exact append_ne_self db.name _ (by simp [String.data_append]) h.symm

/-! ### `saveToFile` -/

theorem writeTempTables_unwritable (db : Database) (tables : TableMap) (fs : FileSystem) :
    (db.writeTempTables tables fs).1.unwritable = fs.unwritable := by
  induction tables generalizing fs with
  | nil => rfl
  | cons e es ih =>
    obtain ⟨k, t⟩ := e
    unfold Database.writeTempTables
    split
    · rfl
    · rw [ih]; rfl

theorem writeTempTables_pathExists (db : Database) (tables : TableMap) (fs : FileSystem)
    (q : String) (h : fs.pathExists q = true) :
    (db.writeTempTables tables fs).1.pathExists q = true := by
  induction tables generalizing fs with
  | nil => exact h
  | cons e es ih =>
    obtain ⟨k, t⟩ := e
    unfold Database.writeTempTables
    split
    · exact h
    · exact ih _ (writeFile_pathExists _ _ _ _ h)

theorem writeTempTables_frame (db : Database) (tables : TableMap) (fs : FileSystem)
    (q : String) (hq : ∀ e ∈ tables, q ≠ db.tempTableFile e.1) :
    (db.writeTempTables tables fs).1.files q = fs.files q := by
  induction tables generalizing fs with
  | nil => rfl
  | cons e es ih =>
    obtain ⟨k, t⟩ := e
    unfold Database.writeTempTables
    split
    · rfl
    · rw [ih _ (fun e he => hq e (List.mem_cons_of_mem _ he)), writeFile_files,
        if_neg (hq (k, t) (List.mem_cons_self _ _))]

theorem writeTempTables_none_iff (db : Database) (tables : TableMap) (fs : FileSystem) :
    (db.writeTempTables tables fs).2 = none
      ↔ ∀ e ∈ tables, fs.unwritable (db.tempTableFile e.1) = false := by
  induction tables generalizing fs with
  | nil => simp [Database.writeTempTables]
  | cons e es ih =>
    obtain ⟨k, t⟩ := e
    unfold Database.writeTempTables
    by_cases hk : fs.unwritable (db.tempTableFile k) = true
    · simp [FileSystem.canOpenForWriting, hk]
    · have hk' : fs.unwritable (db.tempTableFile k) = false := by simpa using hk
      simp only [FileSystem.canOpenForWriting, hk', Bool.not_false, Bool.not_true,
        Bool.false_eq_true, if_false, List.mem_cons, forall_eq_or_imp, true_and]
      rw [ih]
      rfl

theorem writeTempTables_written (db : Database) (tables : TableMap) (fs : FileSystem)
    (hnodup : (tables.map (fun p => p.1)).Nodup)
    (hnone : (db.writeTempTables tables fs).2 = none) :
    ∀ e ∈ tables, (db.writeTempTables tables fs).1.files (db.tempTableFile e.1)
      = some e.2.serialize := by
  induction tables generalizing fs with
  | nil => intro e he; simp at he
  | cons e es ih =>
    obtain ⟨k, t⟩ := e
    have hall := (writeTempTables_none_iff db _ fs).mp hnone
    have hk : fs.unwritable (db.tempTableFile k) = false := hall (k, t) (List.mem_cons_self _ _)
    rw [List.map_cons, List.nodup_cons] at hnodup
    have hstep : db.writeTempTables ((k, t) :: es) fs
        = db.writeTempTables es (fs.writeFile (db.tempTableFile k) t.serialize) := by
      rw [Database.writeTempTables]
      simp [FileSystem.canOpenForWriting, hk]
    rw [hstep] at hnone ⊢
    intro e he
    rcases List.mem_cons.mp he with rfl | he
    · rw [writeTempTables_frame, writeFile_files, if_pos rfl]
      intro e' he' heq
      apply hnodup.1
      rw [tempTableFile_injective db _ _ heq]
      exact List.mem_map_of_mem _ he'
    · exact ih _ hnodup.2 hnone e he

theorem removeTempTableFile_files (db : Database) (fs : FileSystem) (e : String × Table)
    (q : String) :
    (db.removeTempTableFile fs e).files q
      = if q = db.tempTableFile e.1 then none else fs.files q := by
  unfold Database.removeTempTableFile
  split
  · rfl
  · rename_i h
    by_cases hq : q = db.tempTableFile e.1
    · rw [if_pos hq, hq]
      cases hf : fs.files (db.tempTableFile e.1) with
      | none => rfl
      | some text => exact absurd (pathExists_of_files _ _ _ hf) h
    · rw [if_neg hq]

theorem removeTempTables_none (db : Database) (tables : TableMap) (fs : FileSystem)
    (q : String) (h : fs.files q = none) :
    (tables.foldl db.removeTempTableFile fs).files q = none := by
  induction tables generalizing fs with
  | nil => exact h
  | cons e es ih =>
    rw [List.foldl_cons]
    apply ih
    rw [removeTempTableFile_files]
    split
    · rfl
    · exact h

theorem removeTempTables_frame (db : Database) (tables : TableMap) (fs : FileSystem)
    (q : String) (hq : ∀ e ∈ tables, q ≠ db.tempTableFile e.1) :
    (tables.foldl db.removeTempTableFile fs).files q = fs.files q := by
  induction tables generalizing fs with
  | nil => rfl
  | cons e es ih =>
    rw [List.foldl_cons, ih _ (fun e he => hq e (List.mem_cons_of_mem _ he)),
      removeTempTableFile_files, if_neg (hq e (List.mem_cons_self _ _))]

theorem removeTempTables_removed (db : Database) (tables : TableMap) (fs : FileSystem) :
    ∀ e ∈ tables, (tables.foldl db.removeTempTableFile fs).files (db.tempTableFile e.1)
      = none := by
  induction tables generalizing fs with
  | nil => intro e he; simp at he
  | cons e es ih =>
    intro e' he'
    rw [List.foldl_cons]
    rcases List.mem_cons.mp he' with rfl | he'
    · apply removeTempTables_none
      rw [removeTempTableFile_files, if_pos rfl]
    · exact ih _ e' he'

theorem saveToFile_of_meta_unwritable (db : Database) (fs : FileSystem)
    (h : fs.unwritable db.tempMetaFile = true) :
    db.saveToFile fs = SaveResult.mk false (fs.createDirectories db.name)
      ["Error: Failed to open metadata file for writing"] := by
  unfold Database.saveToFile
  simp [FileSystem.canOpenForWriting, createDirectories_unwritable, h]

theorem saveToFile_of_written (db : Database) (fs : FileSystem)
    (h : fs.unwritable db.tempMetaFile = false)
    (hw : (db.writeTempTables db.tables
      ((fs.createDirectories db.name).writeFile db.tempMetaFile db.metadataText)).2 = none) :
    db.saveToFile fs = SaveResult.mk true
      (db.tables.foldl db.renameTableFile
        ((db.writeTempTables db.tables ((fs.createDirectories db.name).writeFile
          db.tempMetaFile db.metadataText)).1.rename db.tempMetaFile db.metadataFile))
      [] := by
  unfold Database.saveToFile
  simp only [FileSystem.canOpenForWriting, createDirectories_unwritable, h, Bool.not_false,
    Bool.not_true, Bool.false_eq_true, if_false]
  revert hw
  generalize db.writeTempTables db.tables
    ((fs.createDirectories db.name).writeFile db.tempMetaFile db.metadataText) = r
  obtain ⟨f, o⟩ := r
  intro hw
  simp only at hw
  subst hw
  rfl

theorem saveToFile_of_table_unwritable (db : Database) (fs : FileSystem) (tableName : String)
    (h : fs.unwritable db.tempMetaFile = false)
    (hw : (db.writeTempTables db.tables
      ((fs.createDirectories db.name).writeFile db.tempMetaFile db.metadataText)).2
        = some tableName) :
    db.saveToFile fs = SaveResult.mk false
      (db.tables.foldl db.removeTempTableFile
        (if (db.writeTempTables db.tables ((fs.createDirectories db.name).writeFile
            db.tempMetaFile db.metadataText)).1.pathExists db.tempMetaFile
          then (db.writeTempTables db.tables ((fs.createDirectories db.name).writeFile
            db.tempMetaFile db.metadataText)).1.remove db.tempMetaFile
          else (db.writeTempTables db.tables ((fs.createDirectories db.name).writeFile
            db.tempMetaFile db.metadataText)).1))
      ["Error: Failed to open table file " ++ tableName ++ " for writing"] := by
  unfold Database.saveToFile
  simp only [FileSystem.canOpenForWriting, createDirectories_unwritable, h, Bool.not_false,
    Bool.not_true, Bool.false_eq_true, if_false]
  revert hw
  generalize db.writeTempTables db.tables
    ((fs.createDirectories db.name).writeFile db.tempMetaFile db.metadataText) = r
  obtain ⟨f, o⟩ := r
  intro hw
  simp only at hw
  subst hw
  rfl

theorem saveToFile_ok_iff (db : Database) (fs : FileSystem) :
    (db.saveToFile fs).ok = true
      ↔ fs.unwritable db.tempMetaFile = false ∧
        ∀ e ∈ db.tables, fs.unwritable (db.tempTableFile e.1) = false := by
  by_cases h : fs.unwritable db.tempMetaFile = true
  · rw [saveToFile_of_meta_unwritable db fs h]
    simp [h]
  · have h' : fs.unwritable db.tempMetaFile = false := by simpa using h
    have hiff := writeTempTables_none_iff db db.tables
      ((fs.createDirectories db.name).writeFile db.tempMetaFile db.metadataText)
    have hun : ((fs.createDirectories db.name).writeFile db.tempMetaFile
        db.metadataText).unwritable = fs.unwritable := createDirectories_unwritable fs db.name
    rw [hun] at hiff
    cases hw : (db.writeTempTables db.tables
      ((fs.createDirectories db.name).writeFile db.tempMetaFile db.metadataText)).2 with
    | none =>
      rw [saveToFile_of_written db fs h' hw]
      exact ⟨fun _ => ⟨h', hiff.mp hw⟩, fun _ => rfl⟩
    | some tableName =>
      rw [saveToFile_of_table_unwritable db fs tableName h' hw]
      constructor
      · intro hf; exact absurd hf (by simp)
      · intro hf
        rw [hiff.mpr hf.2] at hw
        exact absurd hw (by simp)

theorem saveToFile_not_ok_frame (db : Database) (fs : FileSystem) (q : String)
    (hfail : (db.saveToFile fs).ok = false) (hmeta : q ≠ db.tempMetaFile)
    (htables : ∀ e ∈ db.tables, q ≠ db.tempTableFile e.1) :
    (db.saveToFile fs).fs.files q = fs.files q := by
  by_cases h : fs.unwritable db.tempMetaFile = true
  · rw [saveToFile_of_meta_unwritable db fs h]
    exact congrFun (createDirectories_files fs db.name) q
  · have h' : fs.unwritable db.tempMetaFile = false := by simpa using h
    cases hw : (db.writeTempTables db.tables
      ((fs.createDirectories db.name).writeFile db.tempMetaFile db.metadataText)).2 with
    | none =>
      rw [saveToFile_of_written db fs h' hw] at hfail
      exact absurd hfail (by simp)
    | some tableName =>
      rw [saveToFile_of_table_unwritable db fs tableName h' hw]
      show (db.tables.foldl db.removeTempTableFile _).files q = _
      rw [removeTempTables_frame _ _ _ _ htables]
      have hframe := writeTempTables_frame db db.tables
        ((fs.createDirectories db.name).writeFile db.tempMetaFile db.metadataText) q htables
      rw [writeFile_files, if_neg hmeta, createDirectories_files] at hframe
      split
      · rw [remove_files, if_neg hmeta, hframe]
      · exact hframe

theorem saveToFile_not_ok_temps (db : Database) (fs : FileSystem)
    (hfail : (db.saveToFile fs).ok = false) (hmeta : fs.unwritable db.tempMetaFile = false) :
    (db.saveToFile fs).fs.files db.tempMetaFile = none ∧
      ∀ e ∈ db.tables, (db.saveToFile fs).fs.files (db.tempTableFile e.1) = none := by
  cases hw : (db.writeTempTables db.tables
    ((fs.createDirectories db.name).writeFile db.tempMetaFile db.metadataText)).2 with
  | none =>
    rw [saveToFile_of_written db fs hmeta hw] at hfail
    exact absurd hfail (by simp)
  | some tableName =>
    rw [saveToFile_of_table_unwritable db fs tableName hmeta hw]
    refine ⟨?_, fun e he => removeTempTables_removed db db.tables _ e he⟩
    show (db.tables.foldl db.removeTempTableFile _).files db.tempMetaFile = none
    apply removeTempTables_none
    split
    · rw [remove_files, if_pos rfl]
    · rename_i hex
      cases hf : (db.writeTempTables db.tables ((fs.createDirectories db.name).writeFile
          db.tempMetaFile db.metadataText)).1.files db.tempMetaFile with
      | none => rfl
      | some text => exact absurd (pathExists_of_files _ _ _ hf) hex

theorem renameTables_unwritable (db : Database) (tables : TableMap) (fs : FileSystem) :
    (tables.foldl db.renameTableFile fs).unwritable = fs.unwritable := by
  induction tables generalizing fs with
  | nil => rfl
  | cons e es ih =>
    rw [List.foldl_cons, ih]
    exact rename_unwritable _ _ _

theorem removeTempTables_unwritable (db : Database) (tables : TableMap) (fs : FileSystem) :
    (tables.foldl db.removeTempTableFile fs).unwritable = fs.unwritable := by
  induction tables generalizing fs with
  | nil => rfl
  | cons e es ih =>
    rw [List.foldl_cons, ih]
    unfold Database.removeTempTableFile
    split <;> rfl

theorem saveToFile_unwritable (db : Database) (fs : FileSystem) :
    (db.saveToFile fs).fs.unwritable = fs.unwritable := by
  have hw := writeTempTables_unwritable db db.tables
    ((fs.createDirectories db.name).writeFile db.tempMetaFile db.metadataText)
  have hc : ((fs.createDirectories db.name).writeFile db.tempMetaFile
      db.metadataText).unwritable = fs.unwritable := createDirectories_unwritable fs db.name
  rw [hc] at hw
  by_cases h : fs.unwritable db.tempMetaFile = true
  · rw [saveToFile_of_meta_unwritable db fs h]
    exact createDirectories_unwritable fs db.name
  · have h' : fs.unwritable db.tempMetaFile = false := by simpa using h
    cases hn : (db.writeTempTables db.tables
      ((fs.createDirectories db.name).writeFile db.tempMetaFile db.metadataText)).2 with
    | none =>
      rw [saveToFile_of_written db fs h' hn]
      show (db.tables.foldl db.renameTableFile _).unwritable = _
      rw [renameTables_unwritable, rename_unwritable, hw]
    | some tableName =>
      rw [saveToFile_of_table_unwritable db fs tableName h' hn]
      show (db.tables.foldl db.removeTempTableFile _).unwritable = _
      rw [removeTempTables_unwritable]
      split
      · exact hw
      · exact hw

theorem saveToFile_ok_congr (db db' : Database) (fs fs' : FileSystem)
    (hname : db'.name = db.name) (htables : db'.tables = db.tables)
    (hun : fs'.unwritable = fs.unwritable) :
    (db'.saveToFile fs').ok = (db.saveToFile fs).ok := by
  have h1 := saveToFile_ok_iff db fs
  have h2 := saveToFile_ok_iff db' fs'
  have hm : db'.tempMetaFile = db.tempMetaFile := by unfold Database.tempMetaFile; rw [hname]
  have ht : ∀ k, db'.tempTableFile k = db.tempTableFile k := by
    intro k; unfold Database.tempTableFile; rw [hname]
  rw [hm, htables, hun] at h2
  simp only [ht] at h2
  cases ha : (db.saveToFile fs).ok
  · cases hb : (db'.saveToFile fs').ok
    · rfl
    · rw [h1.mpr (h2.mp hb)] at ha
      exact absurd ha (by simp)
  · exact h2.mpr (h1.mp ha)

/-! ### `checkpoint` and `logOperation` -/

theorem checkpoint_ok (db : Database) (fs : FileSystem) :
    (db.checkpoint fs).ok = (db.saveToFile fs).ok := by
  unfold Database.checkpoint
  cases h : (db.saveToFile fs).ok <;> simp [h]

theorem checkpoint_fs (db : Database) (fs : FileSystem) :
    (db.checkpoint fs).fs = (db.saveToFile fs).fs := by
  unfold Database.checkpoint
  cases h : (db.saveToFile fs).ok <;> simp [h]

theorem checkpoint_db_of_ok (db : Database) (fs : FileSystem)
    (h : (db.saveToFile fs).ok = true) :
    (db.checkpoint fs).db = { db with operationsSinceCheckpoint := 0, wal := [] } := by
  unfold Database.checkpoint
  simp [h]

theorem logOperation_unwritable (db : Database) (fs : FileSystem) (operation : String) :
    (db.logOperation fs operation).fs.unwritable = fs.unwritable := by
  unfold Database.logOperation
  dsimp only
  split
  · show (Database.checkpoint _ _).fs.unwritable = _
    rw [checkpoint_fs, saveToFile_unwritable]
    split <;> rfl
  · show (ite _ _ _ : FileSystem × List String).1.unwritable = _
    split <;> rfl

theorem logOperation_db_below (db : Database) (fs : FileSystem) (operation : String)
    (h : db.operationsSinceCheckpoint + 1 < 5) :
    (db.logOperation fs operation).db
      = { db with wal := db.wal ++ [operation],
                  operationsSinceCheckpoint := db.operationsSinceCheckpoint + 1 } := by
  unfold Database.logOperation
  dsimp only
  rw [if_neg (by omega)]

theorem logOperation_db_commit (db : Database) (fs : FileSystem) (operation : String)
    (h : 5 ≤ db.operationsSinceCheckpoint + 1)
    (hcommit : ∀ f : FileSystem, f.unwritable = fs.unwritable → (db.saveToFile f).ok = true) :
    (db.logOperation fs operation).db
      = { db with wal := [], operationsSinceCheckpoint := 0 } := by
  unfold Database.logOperation
  dsimp only
  rw [if_pos (by omega)]
  dsimp only
  rw [checkpoint_db_of_ok]
  refine (saveToFile_ok_congr db _ fs _ ?_ ?_ ?_).trans (hcommit fs rfl)
  · rfl
  · rfl
  · split <;> rfl

theorem checkpoint_name_tables (db : Database) (fs : FileSystem) :
    (db.checkpoint fs).db.name = db.name ∧ (db.checkpoint fs).db.tables = db.tables := by
  unfold Database.checkpoint
  cases h : (db.saveToFile fs).ok <;> simp [h]

theorem logOperation_name_tables (db : Database) (fs : FileSystem) (operation : String) :
    (db.logOperation fs operation).db.name = db.name ∧
      (db.logOperation fs operation).db.tables = db.tables := by
  unfold Database.logOperation
  dsimp only
  split
  · exact checkpoint_name_tables _ _
  · exact ⟨rfl, rfl⟩

theorem logAll_append (db : Database) (fs : FileSystem) (operations : List String)
    (operation : String) :
    db.logAll fs (operations ++ [operation])
      = (((db.logAll fs operations).1.logOperation (db.logAll fs operations).2 operation).db,
        ((db.logAll fs operations).1.logOperation (db.logAll fs operations).2 operation).fs) := by
  unfold Database.logAll
  rw [List.foldl_append]
  rfl

theorem logAll_state (db : Database) (fs : FileSystem) (operations : List String)
    (hcounter : db.operationsSinceCheckpoint = 0) (hwal : db.wal = [])
    (hcommit : (db.saveToFile fs).ok = true) :
    (db.logAll fs operations).1.name = db.name ∧
      (db.logAll fs operations).1.tables = db.tables ∧
      (db.logAll fs operations).2.unwritable = fs.unwritable ∧
      (db.logAll fs operations).1.operationsSinceCheckpoint
        = ((operations.length % 5 : Nat) : Int) ∧
      (db.logAll fs operations).1.wal
        = operations.drop (operations.length - operations.length % 5) := by
  induction operations using List.reverseRecOn with
  | nil => exact ⟨rfl, rfl, rfl, hcounter, hwal⟩
  | append_singleton ops op ih =>
    obtain ⟨hname, htables, hun, hc, hw⟩ := ih
    rw [logAll_append]
    dsimp only
    refine ⟨(logOperation_name_tables _ _ _).1.trans hname,
      (logOperation_name_tables _ _ _).2.trans htables, ?_, ?_⟩
    · rw [logOperation_unwritable]; exact hun
    · by_cases hlt : ops.length % 5 + 1 < 5
      · have hlt' : (db.logAll fs ops).1.operationsSinceCheckpoint + 1 < 5 := by
          rw [hc]; omega
        rw [logOperation_db_below _ _ _ hlt']
        dsimp only
        rw [hc, hw, List.length_append, List.length_singleton]
        have hmod : (ops.length + 1) % 5 = ops.length % 5 + 1 := by omega
        rw [hmod]
        refine ⟨by push_cast; rfl, ?_⟩
        have hle : ops.length + 1 - (ops.length % 5 + 1) ≤ ops.length := by omega
        rw [List.drop_append_of_le_length hle]
        congr 2
        omega
      · have hge : 5 ≤ (db.logAll fs ops).1.operationsSinceCheckpoint + 1 := by
          rw [hc]; omega
        rw [logOperation_db_commit _ _ _ hge (fun f hf =>
          (saveToFile_ok_congr db _ fs f hname htables (hf.trans hun)).trans hcommit)]
        dsimp only
        rw [List.length_append, List.length_singleton]
        have hmod : (ops.length + 1) % 5 = 0 := by omega
        rw [hmod]
        refine ⟨rfl, ?_⟩
        rw [Nat.sub_zero]
        exact (List.drop_eq_nil_of_le (by simp)).symm

/-! ### `loadFromFile` -/

theorem getLast_append_string (a b : String) (c : Char) (h : b.data.getLast? = some c) :
    (a ++ b).data.getLast? = some c := by
  rw [String.data_append, List.getLast?_append, h]
  rfl

theorem tablePath_ne_log (name tableName : String) :
    name ++ "/" ++ tableName ++ ".tbl" ≠ name ++ "/transactions.log" := by
  apply ne_of_getLast
  rw [getLast_append_string _ ".tbl" 'l' rfl,
    getLast_append_string _ "/transactions.log" 'g' rfl]
  decide

theorem metadataPath_ne_log (name : String) :
    name ++ "/metadata.db" ≠ name ++ "/transactions.log" := by
  apply ne_of_getLast
  rw [getLast_append_string _ "/metadata.db" 'b' rfl,
    getLast_append_string _ "/transactions.log" 'g' rfl]
  decide

theorem agree_pathExists (name : String) (fs₁ fs₂ : FileSystem) (h : AgreeOffLog name fs₁ fs₂)
    (q : String) (hq : q ≠ name ++ "/transactions.log") :
    fs₁.pathExists q = fs₂.pathExists q := by
  unfold FileSystem.pathExists
  rw [(h q hq).1, (h q hq).2]

theorem loadTables_agree (name : String) (fs₁ fs₂ : FileSystem)
    (h : AgreeOffLog name fs₁ fs₂) (inits : Nat → Int × Int) (n i : Nat) (metaFile : IStream)
    (tables : TableMap) (out : List String) :
    Database.loadTables fs₁ name inits n i metaFile tables out
      = Database.loadTables fs₂ name inits n i metaFile tables out := by
  induction n generalizing i metaFile tables out with
  | zero => rfl
  | succ n ih =>
    rw [Database.loadTables, Database.loadTables]
    generalize metaFile.getline "" '\n' = r
    obtain ⟨m, tableName⟩ := r
    dsimp only
    rw [agree_pathExists name fs₁ fs₂ h _ (tablePath_ne_log name tableName),
      (h _ (tablePath_ne_log name tableName)).1]
    split
    · exact ih _ _ _ _
    · cases fs₂.files (name ++ "/" ++ tableName ++ ".tbl") with
      | none => exact ih _ _ _ _
      | some text => exact ih _ _ _ _

theorem loadFromFile_agree (name : String) (fs₁ fs₂ : FileSystem)
    (h : AgreeOffLog name fs₁ fs₂) (tableCountInit : Int) (inits : Nat → Int × Int) :
    Database.loadFromFile fs₁ name tableCountInit inits
      = Database.loadFromFile fs₂ name tableCountInit inits := by
  have hname : name ≠ name ++ "/transactions.log" :=
    fun e => append_ne_self name "/transactions.log" (by decide) e.symm
  unfold Database.loadFromFile
  rw [agree_pathExists name fs₁ fs₂ h _ hname]
  dsimp only
  rw [agree_pathExists name fs₁ fs₂ h _ (metadataPath_ne_log name),
    (h _ (metadataPath_ne_log name)).1]
  split
  · rfl
  · split
    · rfl
    · cases fs₂.files (name ++ "/metadata.db") with
      | none => rfl
      | some text =>
        dsimp only
        rw [loadTables_agree name fs₁ fs₂ h]

theorem loadFromFile_fresh_log (fs : FileSystem) (name : String) (tableCountInit : Int)
    (inits : Nat → Int × Int) (db : Database)
    (h : (Database.loadFromFile fs name tableCountInit inits).db = some db) :
    db.name = name ∧ db.wal = [] ∧ db.operationsSinceCheckpoint = 0 := by
  unfold Database.loadFromFile at h
  split at h
  · simp at h
  · dsimp only at h
    split at h
    · simp at h
    · cases hf : fs.files (name ++ "/metadata.db") with
      | none => rw [hf] at h; simp at h
      | some text =>
        rw [hf] at h
        dsimp only at h
        injection h with h
        subst h
        exact ⟨rfl, rfl, rfl⟩

theorem renameTableFile_frame (db : Database) (fs : FileSystem) (e : String × Table)
    (q : String) (h1 : q ≠ db.tempTableFile e.1) (h2 : q ≠ db.finalTableFile e.1) :
    (db.renameTableFile fs e).files q = fs.files q :=
  rename_files_frame fs _ _ q h1 h2

theorem renameTables_frame (db : Database) (tables : TableMap) (fs : FileSystem) (q : String)
    (h1 : ∀ e ∈ tables, q ≠ db.tempTableFile e.1)
    (h2 : ∀ e ∈ tables, q ≠ db.finalTableFile e.1) :
    (tables.foldl db.renameTableFile fs).files q = fs.files q := by
  induction tables generalizing fs with
  | nil => rfl
  | cons e es ih =>
    rw [List.foldl_cons, ih _ (fun e he => h1 e (List.mem_cons_of_mem _ he))
      (fun e he => h2 e (List.mem_cons_of_mem _ he)),
      renameTableFile_frame _ _ _ _ (h1 e (List.mem_cons_self _ _))
        (h2 e (List.mem_cons_self _ _))]

theorem renameTables_pathExists (db : Database) (tables : TableMap) (fs : FileSystem)
    (q : String) (h1 : ∀ e ∈ tables, q ≠ db.tempTableFile e.1)
    (hex : fs.pathExists q = true) :
    (tables.foldl db.renameTableFile fs).pathExists q = true := by
  induction tables generalizing fs with
  | nil => exact hex
  | cons e es ih =>
    rw [List.foldl_cons]
    apply ih _ (fun e he => h1 e (List.mem_cons_of_mem _ he))
    exact rename_pathExists _ _ _ _ (h1 e (List.mem_cons_self _ _)) hex

theorem renameTables_renamed (db : Database) (tables : TableMap) (fs : FileSystem)
    (hnodup : (tables.map (fun p => p.1)).Nodup)
    (hsrc : ∀ e ∈ tables, fs.files (db.tempTableFile e.1) = some e.2.serialize) :
    ∀ e ∈ tables, (tables.foldl db.renameTableFile fs).files (db.finalTableFile e.1)
      = some e.2.serialize := by
  induction tables generalizing fs with
  | nil => intro e he; simp at he
  | cons e es ih =>
    rw [List.map_cons, List.nodup_cons] at hnodup
    have hne : ∀ e' ∈ es, e'.1 ≠ e.1 := by
      intro e' he' heq
      apply hnodup.1
      rw [← heq]
      exact List.mem_map_of_mem _ he'
    have hhead := hsrc e (List.mem_cons_self _ _)
    intro e' he'
    rw [List.foldl_cons]
    rcases List.mem_cons.mp he' with rfl | he'
    · rw [renameTables_frame]
      · unfold Database.renameTableFile
        rw [rename_files _ _ _ _ _ hhead, if_pos rfl]
      · intro e2 _
        exact (tempTableFile_ne_finalTableFile db _ _).symm
      · intro e2 he2 heq
        exact hne e2 he2 (finalTableFile_injective db _ _ heq).symm
    · apply ih _ hnodup.2 _ e' he'
      intro e2 he2
      rw [renameTableFile_frame]
      · exact hsrc e2 (List.mem_cons_of_mem _ he2)
      · intro heq
        exact hne e2 he2 (tempTableFile_injective db _ _ heq)
      · exact tempTableFile_ne_finalTableFile db _ _

theorem saveToFile_committed (db : Database) (fs : FileSystem)
    (hnodup : db.getTableNames.Nodup) (hok : (db.saveToFile fs).ok = true) :
    (db.saveToFile fs).fs.pathExists db.name = true ∧
      (db.saveToFile fs).fs.files db.metadataFile = some db.metadataText ∧
      ∀ e ∈ db.tables, (db.saveToFile fs).fs.files (db.finalTableFile e.1)
        = some e.2.serialize := by
  obtain ⟨hm, ht⟩ := (saveToFile_ok_iff db fs).mp hok
  have hun : ((fs.createDirectories db.name).writeFile db.tempMetaFile
      db.metadataText).unwritable = fs.unwritable := createDirectories_unwritable fs db.name
  have hw : (db.writeTempTables db.tables
      ((fs.createDirectories db.name).writeFile db.tempMetaFile db.metadataText)).2 = none := by
    rw [writeTempTables_none_iff, hun]
    exact ht
  rw [saveToFile_of_written db fs hm hw]
  have hmetaTemp : (db.writeTempTables db.tables ((fs.createDirectories db.name).writeFile
      db.tempMetaFile db.metadataText)).1.files db.tempMetaFile = some db.metadataText := by
    rw [writeTempTables_frame _ _ _ _ (fun e _ => tempMetaFile_ne_tempTableFile db e.1),
      writeFile_files, if_pos rfl]
  refine ⟨?_, ?_, ?_⟩
  · apply renameTables_pathExists _ _ _ _ (fun e _ => name_ne_tempTableFile db e.1)
    apply rename_pathExists _ _ _ _ (name_ne_tempMetaFile db)
    apply writeTempTables_pathExists
    apply writeFile_pathExists
    exact createDirectories_pathExists fs db.name
  · show (db.tables.foldl db.renameTableFile _).files db.metadataFile = _
    rw [renameTables_frame _ _ _ _ (fun e _ => (tempTableFile_ne_metadataFile db e.1).symm)
      (fun e _ => metadataFile_ne_finalTableFile db e.1),
      rename_files _ _ _ _ _ hmetaTemp, if_pos rfl]
  · apply renameTables_renamed db db.tables _ hnodup
    intro e he
    rw [rename_files_frame _ _ _ _ (tempMetaFile_ne_tempTableFile db e.1).symm
      (tempTableFile_ne_metadataFile db e.1)]
    exact writeTempTables_written db db.tables _ hnodup hw e he

theorem metadataText_data (db : Database) :
    db.metadataText.data = (toString db.tables.length).data
      ++ '\n' :: db.tables.flatMap (fun e => e.1.data ++ ['\n']) := by
  have hfold : ∀ (tables : TableMap) (init : String),
      (tables.foldl (fun text p => text ++ p.1 ++ "\n") init).data
        = init.data ++ tables.flatMap (fun e => e.1.data ++ ['\n']) := by
    intro tables
    induction tables with
    | nil => simp
    | cons e es ih =>
      intro init
      rw [List.foldl_cons, ih, String.data_append, String.data_append, List.flatMap_cons]
      simp
  unfold Database.metadataText
  rw [hfold, String.data_append]
  simp

theorem loadTables_saved (fs : FileSystem) (name : String) (inits : Nat → Int × Int)
    (tables : TableMap) (rest : List Char) (i : Nat) (acc : TableMap) (out : List String)
    (hnames : ∀ e ∈ tables, '\n' ∉ e.1.data)
    (hfiles : ∀ e ∈ tables, fs.files (name ++ "/" ++ e.1 ++ ".tbl") = some e.2.serialize)
    (hround : ∀ e ∈ tables, ∀ c r, (Table.deserialize e.2.serialize c r).table = e.2) :
    (Database.loadTables fs name inits tables.length i
        { buf := tables.flatMap (fun e => e.1.data ++ ['\n']) ++ rest,
          eofbit := false, failbit := false } acc out).1
      = tables.foldl (fun (m : TableMap) e => m.assign e.1 e.2) acc := by
  induction tables generalizing i acc out with
  | nil => rfl
  | cons e es ih =>
    have hname := hnames e (List.mem_cons_self _ _)
    have hfile := hfiles e (List.mem_cons_self _ _)
    have hmk : String.mk e.1.data = e.1 := rfl
    rw [List.length_cons, Database.loadTables, List.flatMap_cons, List.append_assoc,
      List.append_assoc, List.singleton_append, getline_line _ _ _ _ hname]
    dsimp only
    rw [hmk, pathExists_of_files _ _ _ hfile, hfile]
    dsimp only
    rw [hround e (List.mem_cons_self _ _)]
    simp only [Bool.not_true, Bool.false_eq_true, if_false, List.foldl_cons]
    exact ih _ _ _ (fun e he => hnames e (List.mem_cons_of_mem _ he))
      (fun e he => hfiles e (List.mem_cons_of_mem _ he))
      (fun e he => hround e (List.mem_cons_of_mem _ he))

theorem tableMap_find_none_of_not_mem (m : TableMap) (k : String)
    (h : k ∉ m.map (fun p => p.1)) : m.find k = none := by
  unfold TableMap.find
  induction m with
  | nil => rfl
  | cons e es ih =>
    obtain ⟨k0, v0⟩ := e
    rw [List.map_cons, List.mem_cons, not_or] at h
    have h1 : (k == k0) = false := by simpa using h.1
    rw [List.lookup_cons, h1]
    exact ih h.2

theorem tableMap_mem_names_iff (m : TableMap) (k : String) :
    k ∈ m.map (fun p => p.1) ↔ (m.find k).isSome = true := by
  constructor
  · intro h
    rw [← tableMap_contains_iff]
    cases hc : m.contains k with
    | true => rfl
    | false => exact absurd h (tableMap_not_mem_names m k hc)
  · intro h
    by_contra hn
    rw [tableMap_find_none_of_not_mem m k hn] at h
    simp at h

theorem find_foldl_assign (tables acc : TableMap) (k : String)
    (hnodup : (tables.map (fun p => p.1)).Nodup) :
    (tables.foldl (fun (m : TableMap) e => m.assign e.1 e.2) acc).find k
      = (tables.find k).or (acc.find k) := by
  induction tables generalizing acc with
  | nil => rfl
  | cons e es ih =>
    obtain ⟨k0, v0⟩ := e
    rw [List.map_cons, List.nodup_cons] at hnodup
    rw [List.foldl_cons, ih _ hnodup.2]
    by_cases hk : k = k0
    · subst hk
      rw [tableMap_find_none_of_not_mem es k hnodup.1, tableMap_find_assign_self]
      simp [TableMap.find, List.lookup]
    · have h1 : (k == k0) = false := by simpa using hk
      rw [tableMap_find_assign_ne _ _ _ _ hk]
      simp [TableMap.find, List.lookup_cons, h1]

theorem loadFromFile_saveToFile (db : Database) (fs : FileSystem) (tableCountInit : Int)
    (inits : Nat → Int × Int)
    (hnodup : db.getTableNames.Nodup)
    (hnames : ∀ e ∈ db.tables, '\n' ∉ e.1.data)
    (hcount : (db.tables.length : Int) ≤ INT_MAX)
    (hround : ∀ e ∈ db.tables, ∀ c r, (Table.deserialize e.2.serialize c r).table = e.2)
    (hsaved : (db.saveToFile fs).ok = true) :
    ∃ loaded, (Database.loadFromFile (db.saveToFile fs).fs db.name tableCountInit inits).db
        = some loaded ∧ loaded.name = db.name ∧
      loaded.tables = db.tables.foldl (fun (m : TableMap) e => m.assign e.1 e.2) [] := by
  obtain ⟨hdir, hmeta, htables⟩ := saveToFile_committed db fs hnodup hsaved
  have hmeta' : (db.saveToFile fs).fs.files (db.name ++ "/metadata.db")
      = some db.metadataText := hmeta
  have hstream : IStream.ofString db.metadataText
      = { buf := (toString db.tables.length).data
            ++ '\n' :: (db.tables.flatMap (fun e => e.1.data ++ ['\n']) ++ []),
          eofbit := false, failbit := false } := by
    unfold IStream.ofString
    rw [metadataText_data, List.append_nil]
  unfold Database.loadFromFile
  rw [hdir]
  dsimp only
  rw [pathExists_of_files _ _ _ hmeta', hmeta']
  dsimp only
  rw [hstream, extractInt_decimal _ _ _ hcount, ignore_newline]
  dsimp only
  rw [Int.toNat_ofNat]
  refine ⟨_, rfl, rfl, ?_⟩
  exact loadTables_saved _ _ _ _ _ _ _ _ hnames htables hround

/-! ### The order of the constraint checks -/

theorem notNullViolation_message (t : Table) (vs : List String) (m : String)
    (h : t.notNullViolation vs = some m) :
    ∃ j, j < t.columns.length ∧ (t.col j).isNotNull = true ∧ vs.getD j "" = "" ∧
      m = "Error: Column '" ++ (t.col j).name ++ "' cannot be NULL" := by
  unfold Table.notNullViolation at h
  obtain ⟨j, hj, hm⟩ := List.exists_of_findSome?_eq_some h
  rw [List.mem_range] at hj
  by_cases hc : ((t.col j).isNotNull && vs.getD j "" == "") = true
  · rw [if_pos hc] at hm
    rw [Bool.and_eq_true] at hc
    refine ⟨j, hj, hc.1, ?_, ?_⟩
    · simpa using hc.2
    · injection hm with hm
      exact hm.symm
  · rw [if_neg hc] at hm
    simp at hm

theorem insertRow_of_checkConstraintsMsg (t : Table) (vs : List String) (m : String)
    (hlen : vs.length = t.columns.length) (h : t.checkConstraintsMsg vs = some m) :
    t.insertRow vs = { ok := false, table := t, out := [m] } := by
  unfold Table.insertRow
  rw [(validateRowMsg_eq_none_iff t vs).mpr hlen, h]

theorem selectRows_empty_condition (t : Table) (cols : List String) :
    t.selectRows cols "" =
      t.rows.map (fun row => (t.columnIndices cols).map (fun idx => row.getD idx "")) := by
  rw [selectRows_eq]
  simp

/-! ### Conditions of the form `column=literal` -/

theorem condition_ne_empty (k v : String) : (k ++ "=" ++ v == "") = false := by
  rw [beq_eq_false_iff_ne]
  intro e
  have := congrArg String.data e
  rw [data_append_eq] at this
  simp at this

theorem selectRows_of_resolved (t : Table) (cols : List String) (k v : String) (idx : Nat)
    (hk : '=' ∉ k.data) (hidx : t.getColumnIndex k = some idx) :
    t.selectRows cols (k ++ "=" ++ v) =
      (t.rows.filter
          (fun row => decide (row[idx]? = some (String.mk (stripQuotes v.data))))).map
        (projectRow t cols) := by
  rw [selectRows_eq]
  have hproj : (fun row : List String => (t.columnIndices cols).map (fun i => row.getD i ""))
      = projectRow t cols := funext fun row => columnIndices_map_eq_projectRow t cols row
  rw [hproj]
  congr 1
  apply List.filter_congr
  intro row _
  have hcol : t.getColumnIndex (String.mk k.data) = some idx := hidx
  rw [condition_ne_empty, Bool.false_or,
    evaluateCondition_split t row _ k.data v.data (data_append_eq k v) hk, hcol]

theorem selectRows_of_unresolved (t : Table) (cols : List String) (k v : String)
    (hk : '=' ∉ k.data) (hnone : t.getColumnIndex k = none) :
    t.selectRows cols (k ++ "=" ++ v) = [] := by
  rw [selectRows_eq]
  have hcol : t.getColumnIndex (String.mk k.data) = none := hnone
  have hfilter : t.rows.filter (fun row => k ++ "=" ++ v == ""
      || t.evaluateCondition row (k ++ "=" ++ v)) = [] := by
    rw [List.filter_eq_nil_iff]
    intro row _
    rw [condition_ne_empty, Bool.false_or,
      evaluateCondition_split t row _ k.data v.data (data_append_eq _ _) hk, hcol]
    simp
  rw [hfilter]
  rfl

theorem filter_length_le_one (rows : List (List String)) (f : List String → String)
    (p : List String → Bool) (w : String) (hnodup : (rows.map f).Nodup)
    (hp : ∀ row ∈ rows, p row = true → f row = w) : (rows.filter p).length ≤ 1 := by
  induction rows with
  | nil => simp
  | cons row rest ih =>
    rw [List.map_cons, List.nodup_cons] at hnodup
    have hrest := ih hnodup.2 (fun r hr => hp r (List.mem_cons_of_mem _ hr))
    by_cases hrow : p row = true
    · have hw := hp row (List.mem_cons_self _ _) hrow
      have hnil : rest.filter p = [] := by
        rw [List.filter_eq_nil_iff]
        intro r hr hpr
        apply hnodup.1
        rw [hw, ← hp r (List.mem_cons_of_mem _ hr) hpr]
        exact List.mem_map_of_mem _ hr
      rw [List.filter_cons_of_pos hrow, hnil]
      simp
    · rw [List.filter_cons_of_neg hrow]
      exact hrest

theorem reachable_key_nodup {t : Table} (h : Reachable t) (pk : Nat)
    (hpk : t.getPrimaryKeyColumnIndex = some pk) :
    (t.rows.map (fun row => row.getD pk "")).Nodup := by
  induction h with
  | new name columns => rw [new_rows]; exact List.nodup_nil
  | ofPairs name columns => exact List.nodup_nil
  | insertRow t vs hreach ih =>
    rw [getPrimaryKeyColumnIndex_insertRow] at hpk
    have hnodup := ih hpk
    cases hok : (t.insertRow vs).ok with
    | false => rw [insertRow_table_of_not_ok t vs hok]; exact hnodup
    | true =>
      rw [insertRow_table_of_ok t vs hok]
      show ((t.rows ++ [vs]).map (fun row => row.getD pk "")).Nodup
      rw [List.map_append, List.map_singleton]
      apply List.Nodup.append hnodup (List.nodup_singleton _)
      intro k hk hk2
      rw [List.mem_singleton] at hk2
      subst hk2
      obtain ⟨row, hrow, hcell⟩ := List.mem_map.mp hk
      have hcontains : t.primaryKeyIndex.contains (vs.getD pk "") = true :=
        ((reachable_wellFormed hreach).pkKeys _).mpr ⟨pk, hpk, row, hrow, hcell⟩
      have hnone := ((checkConstraintsMsg_eq_none_iff t vs).mp
        ((insertRow_ok_iff t vs).mp hok).2).2.1
      rw [(primaryKeyViolation_eq_none_iff t vs).mp hnone pk hpk] at hcontains
      exact Bool.false_ne_true hcontains

/-! ### The checked accesses of `evaluateCondition` -/

theorem stripQuotesChecked_eq (value : List Char) :
    stripQuotesChecked value = some (stripQuotes value) := by
  cases value with
  | nil => rfl
  | cons c cs =>
    unfold stripQuotesChecked stripQuotes substrChecked
    cases hl : (c :: cs).getLast? with
    | none => simp at hl
    | some back =>
      by_cases hc : c = '"'
      · by_cases hb : back = '"'
        · subst hc hb
          simp
        · subst hc
          simp [hb]
      · simp [hc]

theorem evaluateConditionChecked_eq (t : Table) (row : List String) (condition : String) :
    t.evaluateConditionChecked row condition = some (t.evaluateCondition row condition) := by
  unfold Table.evaluateConditionChecked Table.evaluateCondition
  cases hpos : condition.data.findIdx? (fun c => c == '=') with
  | none => rfl
  | some pos =>
    have hlt : pos < condition.data.length := (List.findIdx?_eq_some_iff_getElem.mp hpos).1
    have h1 : substrChecked condition.data 0 pos = some (condition.data.take pos) := by
      simp [substrChecked, substr]
    have h2 : substrFromChecked condition.data (pos + 1)
        = some (condition.data.drop (pos + 1)) := by
      unfold substrFromChecked
      rw [if_neg (by omega)]
    simp only [h1, h2, stripQuotesChecked_eq]
    cases t.getColumnIndex (String.mk (condition.data.take pos)) with
    | none => rfl
    | some colIndex =>
      simp only []
      by_cases hrow : colIndex ≥ row.length
      · rw [if_pos hrow, if_pos hrow]
      · rw [if_neg hrow, if_neg hrow]
        have hget : row[colIndex]? = some (row.getD colIndex "") := by
          rw [List.getD_eq_getElem?_getD, List.getElem?_eq_getElem (by omega)]
          rfl
        rw [hget]

theorem getColumnIndex_eq_none (t : Table) (k : String)
    (h : ∀ col ∈ t.columns, col.name ≠ k) : t.getColumnIndex k = none := by
  unfold Table.getColumnIndex
  rw [List.findIdx?_eq_none_iff]
  intro col hmem
  simpa using h col hmem

/-! ### `trim` -/

theorem findIdx?_stop (p : Char → Bool) (a b : List Char) (c : Char)
    (ha : ∀ x ∈ a, p x = false) (hc : p c = true) :
    (a ++ c :: b).findIdx? p = some a.length := by
  have hnone : a.findIdx? p = none := by
    rw [List.findIdx?_eq_none_iff]
    intro x hx
    rw [ha x hx]
  rw [List.findIdx?_append, hnone]
  simp [List.findIdx?_cons, hc]

theorem dropWhile_all (p : Char → Bool) (a : List Char) (ha : ∀ x ∈ a, p x = true) :
    a.dropWhile p = [] := (takeWhile_all p a ha).2

theorem trim_of_blank (l : List Char) (h : ∀ x ∈ l, isTrimChar x = true) :
    StringUtils.trim (String.mk l) = "" ∧ trimmed l = [] := by
  constructor
  · unfold StringUtils.trim
    cases l with
    | nil => rfl
    | cons c cs =>
      have hnone : findFirstNotOf (c :: cs) isTrimChar = none := by
        unfold findFirstNotOf
        rw [List.findIdx?_eq_none_iff]
        intro x hx
        simp [h x hx]
      simp only [List.isEmpty_cons, Bool.false_eq_true, if_false, hnone]
  · unfold trimmed
    rw [dropWhile_all isTrimChar l h]
    rfl

theorem trim_of_core (a m z : List Char) (first last : Char)
    (ha : ∀ x ∈ a, isTrimChar x = true) (hz : ∀ x ∈ z, isTrimChar x = true)
    (hfirst : m.head? = some first) (hlast : m.getLast? = some last)
    (hf : isTrimChar first = false) (hl : isTrimChar last = false) :
    StringUtils.trim (String.mk (a ++ m ++ z)) = String.mk m ∧ trimmed (a ++ m ++ z) = m := by
  obtain ⟨m1, hm1⟩ : ∃ m1, m = first :: m1 := by
    cases m with
    | nil => simp at hfirst
    | cons c cs => simp at hfirst; exact ⟨cs, by rw [hfirst]⟩
  obtain ⟨m2, hm2⟩ : ∃ m2, m = m2 ++ [last] := by
    have hne : m ≠ [] := by rw [hm1]; simp
    refine ⟨m.dropLast, ?_⟩
    have h1 := List.dropLast_append_getLast hne
    rw [List.getLast?_eq_getLast m hne] at hlast
    injection hlast with hlast
    rw [hlast] at h1
    exact h1.symm
  have hlen : 1 ≤ m.length := by rw [hm1]; simp
  have hff : findFirstNotOf (a ++ m ++ z) isTrimChar = some a.length := by
    unfold findFirstNotOf
    rw [hm1, List.append_assoc, List.cons_append]
    exact findIdx?_stop _ a _ first (fun x hx => by simp [ha x hx]) (by simp [hf])
  have hfl : findLastNotOf (a ++ m ++ z) isTrimChar = some (a.length + m.length - 1) := by
    unfold findLastNotOf
    have hrev : (a ++ m ++ z).reverse = z.reverse ++ last :: (m2.reverse ++ a.reverse) := by
      rw [hm2]
      simp
    rw [hrev, findIdx?_stop _ z.reverse _ last
      (fun x hx => by simp [hz x (List.mem_reverse.mp hx)]) (by simp [hl])]
    simp only [List.length_reverse, List.length_append]
    congr 1
    omega
  constructor
  · unfold StringUtils.trim
    have hne : (a ++ m ++ z).isEmpty = false := by
      rw [hm1]
      cases a <;> rfl
    simp only [hne, Bool.false_eq_true, if_false, hff, hfl]
    congr 1
    unfold substr
    rw [List.append_assoc, List.drop_left]
    have hcount : a.length + m.length - 1 - a.length + 1 = m.length := by omega
    rw [hcount, List.take_left]
  · unfold trimmed
    have h1 : (a ++ m ++ z).dropWhile isTrimChar = m ++ z := by
      rw [hm1, List.append_assoc, List.cons_append]
      exact (takeWhile_append_stop isTrimChar a _ first ha hf).2
    have h2 : (m ++ z).reverse.dropWhile isTrimChar = m.reverse := by
      have hrev : (m ++ z).reverse = z.reverse ++ last :: m2.reverse := by
        rw [hm2]
        simp
      rw [hrev, (takeWhile_append_stop isTrimChar z.reverse _ last
        (fun x hx => hz x (List.mem_reverse.mp hx)) hl).2, hm2]
      simp
    rw [h1, h2, List.reverse_reverse]

theorem trim_decompose (l : List Char) :
    (∀ x ∈ l, isTrimChar x = true) ∨
      ∃ a m z first last, l = a ++ m ++ z ∧ (∀ x ∈ a, isTrimChar x = true) ∧
        (∀ x ∈ z, isTrimChar x = true) ∧ m.head? = some first ∧ m.getLast? = some last ∧
        isTrimChar first = false ∧ isTrimChar last = false := by
  by_cases hall : ∀ x ∈ l, isTrimChar x = true
  · exact Or.inl hall
  · right
    have h1 : l = l.takeWhile isTrimChar ++ l.dropWhile isTrimChar :=
      (List.takeWhile_append_dropWhile _ _).symm
    have ha : ∀ x ∈ l.takeWhile isTrimChar, isTrimChar x = true :=
      fun x hx => List.mem_takeWhile_imp hx
    cases hr : l.dropWhile isTrimChar with
    | nil =>
      exfalso
      apply hall
      intro x hx
      rw [h1, hr, List.append_nil] at hx
      exact ha x hx
    | cons first r =>
      have hf : isTrimChar first = false := by
        have := List.head?_dropWhile_not isTrimChar l
        rw [hr] at this
        exact this
      have h2 : (first :: r).reverse
          = (first :: r).reverse.takeWhile isTrimChar
            ++ (first :: r).reverse.dropWhile isTrimChar :=
        (List.takeWhile_append_dropWhile _ _).symm
      have hz : ∀ x ∈ ((first :: r).reverse.takeWhile isTrimChar).reverse,
          isTrimChar x = true :=
        fun x hx => List.mem_takeWhile_imp (List.mem_reverse.mp hx)
      cases hq : (first :: r).reverse.dropWhile isTrimChar with
      | nil =>
        exfalso
        have hmem : first ∈ (first :: r).reverse.takeWhile isTrimChar := by
          have : first ∈ (first :: r).reverse := by simp
          rw [h2, hq, List.append_nil] at this
          exact this
        rw [List.mem_takeWhile_imp hmem] at hf
        exact Bool.noConfusion hf
      | cons last q =>
        have hl : isTrimChar last = false := by
          have := List.head?_dropWhile_not isTrimChar (first :: r).reverse
          rw [hq] at this
          exact this
        have hsplit : first :: r
            = (last :: q).reverse ++ ((first :: r).reverse.takeWhile isTrimChar).reverse := by
          have := congrArg List.reverse h2
          rw [List.reverse_reverse, List.reverse_append, hq] at this
          exact this
        have hmfirst : ((last :: q).reverse).head? = some first := by
          have := congrArg List.head? hsplit
          rw [List.head?_cons, List.head?_append_of_ne_nil _ (by simp)] at this
          exact this.symm
        refine ⟨l.takeWhile isTrimChar, (last :: q).reverse,
          ((first :: r).reverse.takeWhile isTrimChar).reverse, first, last, ?_, ha, hz,
          hmfirst, ?_, hf, hl⟩
        · rw [List.append_assoc, ← hsplit, ← hr]
          exact h1
        · simp

theorem trim_eq_trimmed (l : List Char) :
    StringUtils.trim (String.mk l) = String.mk (trimmed l) := by
  rcases trim_decompose l with h | ⟨a, m, z, first, last, rfl, ha, hz, hfirst, hlast, hf, hl⟩
  · rw [(trim_of_blank l h).1, (trim_of_blank l h).2]
  · rw [(trim_of_core a m z first last ha hz hfirst hlast hf hl).1,
      (trim_of_core a m z first last ha hz hfirst hlast hf hl).2]

theorem trimmed_ends (l : List Char) (h : trimmed l ≠ []) :
    ∃ first last, (trimmed l).head? = some first ∧ (trimmed l).getLast? = some last ∧
      isTrimChar first = false ∧ isTrimChar last = false := by
  rcases trim_decompose l with hall | ⟨a, m, z, first, last, rfl, ha, hz, hfirst, hlast, hf, hl⟩
  · exact absurd (trim_of_blank l hall).2 h
  · rw [(trim_of_core a m z first last ha hz hfirst hlast hf hl).2]
    exact ⟨first, last, hfirst, hlast, hf, hl⟩

/-! ### `tokenize` -/

theorem first_delimiter (d : Char) (l : List Char) :
    d ∉ l ∨ ∃ a b, l = a ++ d :: b ∧ d ∉ a := by
  induction l with
  | nil => exact Or.inl (by simp)
  | cons c cs ih =>
    by_cases hc : c = d
    · exact Or.inr ⟨[], cs, by simp [hc], by simp⟩
    · rcases ih with h | ⟨a, b, hab, ha⟩
      · left
        intro hm
        rw [List.mem_cons] at hm
        rcases hm with hm | hm
        · exact hc hm.symm
        · exact h hm
      · right
        refine ⟨c :: a, b, by rw [hab]; rfl, ?_⟩
        intro hm
        rw [List.mem_cons] at hm
        rcases hm with hm | hm
        · exact hc hm.symm
        · exact ha hm

theorem fieldsAt_no_delimiter (d : Char) (l : List Char) (h : d ∉ l) : fieldsAt d l = [l] := by
  induction l with
  | nil => rfl
  | cons c cs ih =>
    have hc : c ≠ d := fun e => h (e ▸ List.mem_cons_self _ _)
    rw [fieldsAt, if_neg hc, ih (fun hm => h (List.mem_cons_of_mem _ hm))]

theorem fieldsAt_split (d : Char) (a b : List Char) (h : d ∉ a) :
    fieldsAt d (a ++ d :: b) = a :: fieldsAt d b := by
  induction a with
  | nil => simp [fieldsAt]
  | cons c cs ih =>
    have hc : c ≠ d := fun e => h (e ▸ List.mem_cons_self _ _)
    rw [List.cons_append, fieldsAt, if_neg hc, ih (fun hm => h (List.mem_cons_of_mem _ hm))]

theorem tokenizeLoop_not_good (d : Char) (fuel : Nat) (s : IStream) (token : String)
    (tokens : List String) (h : s.good = false) :
    StringUtils.tokenizeLoop d fuel s token tokens = tokens := by
  cases fuel with
  | zero => rfl
  | succ fuel =>
    unfold StringUtils.tokenizeLoop
    rw [getline_not_good s token d h]
    simp

theorem word_ne_empty (l : List Char) : (String.mk l != "") = !l.isEmpty := by
  cases l with
  | nil => rfl
  | cons c cs =>
    have hne : String.mk (c :: cs) ≠ "" := fun e => by
      have := congrArg String.data e
      simp at this
    simp [bne, hne]

theorem tokenizeLoop_eq (d : Char) (fuel : Nat) :
    ∀ (l : List Char) (token : String) (tokens : List String), l.length + 1 ≤ fuel →
      StringUtils.tokenizeLoop d fuel { buf := l, eofbit := false, failbit := false } token
          tokens
        = tokens ++ ((fieldsAt d l).map (fun field => String.mk (trimmed field))).filter
            (fun word => word != "") := by
  induction fuel with
  | zero => intro l token tokens h; omega
  | succ fuel ih =>
    intro l token tokens hfuel
    rcases first_delimiter d l with hno | ⟨a, b, rfl, ha⟩
    · rw [fieldsAt_no_delimiter d l hno]
      unfold StringUtils.tokenizeLoop
      rw [getline_last l token d hno]
      cases l with
      | nil => simp [word_ne_empty, trimmed]
      | cons c cs =>
        simp only [List.isEmpty_cons, Bool.false_eq_true, if_false, trim_eq_trimmed,
          List.map_cons, List.map_nil, List.filter_cons, List.filter_nil, word_ne_empty]
        split
        · rw [tokenizeLoop_not_good d fuel ⟨[], true, false⟩ _ _ rfl]
        · rw [tokenizeLoop_not_good d fuel ⟨[], true, false⟩ _ _ rfl, List.append_nil]
    · rw [fieldsAt_split d a b ha]
      unfold StringUtils.tokenizeLoop
      rw [getline_line a b token d ha]
      have hb : b.length + 1 ≤ fuel := by
        simp only [List.length_append, List.length_cons] at hfuel
        omega
      simp only [Bool.false_eq_true, if_false, trim_eq_trimmed, List.map_cons,
        List.filter_cons, word_ne_empty]
      split
      · rw [ih b _ _ hb, List.append_assoc]
        rfl
      · rw [ih b _ _ hb]

theorem tokenize_eq_wordsAt (input : String) (d : Char) :
    StringUtils.tokenize input d = wordsAt d input := by
  unfold StringUtils.tokenize wordsAt
  have h := tokenizeLoop_eq d (input.length + 1) input.data "" [] (Nat.le_refl _)
  rw [List.nil_append] at h
  exact h

/-! ### The constraint keywords of a column definition -/

theorem lor_bitmaskOf_primaryKey (p u n : Bool) :
    Int.lor (bitmaskOf p u n) PRIMARY_KEY = bitmaskOf true u n := by
  cases p <;> cases u <;> cases n <;> decide

theorem lor_bitmaskOf_unique (p u n : Bool) :
    Int.lor (bitmaskOf p u n) UNIQUE = bitmaskOf p true n := by
  cases p <;> cases u <;> cases n <;> decide

theorem lor_bitmaskOf_notNull (p u n : Bool) :
    Int.lor (bitmaskOf p u n) NOT_NULL = bitmaskOf p u true := by
  cases p <;> cases u <;> cases n <;> decide

theorem map_drop_cons (toks : List String) (f : String → String) (i : Nat)
    (h : i < toks.length) :
    (toks.drop i).map f = f (toks.getD i "") :: (toks.drop (i + 1)).map f := by
  rw [List.drop_eq_getElem_cons h, List.map_cons]
  congr 2
  rw [List.getD_eq_getElem?_getD, List.getElem?_eq_getElem h]
  rfl

theorem map_drop_nil (toks : List String) (f : String → String) (i : Nat)
    (h : toks.length ≤ i) : (toks.drop i).map f = [] := by
  rw [List.drop_eq_nil_of_le h]
  rfl

theorem next_keyword (toks : List String) (i : Nat) (keyword : String) :
    (decide (i + 1 < toks.length) && StringUtils.toUpper (toks.getD (i + 1) "") == keyword)
      = (((toks.drop (i + 1)).map StringUtils.toUpper).head? == some keyword) := by
  by_cases h : i + 1 < toks.length
  · rw [map_drop_cons toks _ (i + 1) h]
    simp [h]
  · rw [map_drop_nil toks _ (i + 1) (by omega)]
    simp [h]

theorem hasKeywordPair_cons (first second word : String) (rest : List String) :
    hasKeywordPair first second (word :: rest)
      = ((word == first && rest.head? == some second) || hasKeywordPair first second rest) :=
  rfl

theorem parseConstraints_eq (toks : List String) (fuel : Nat) :
    ∀ (i : Nat) (p u n : Bool), toks.length ≤ i + fuel →
      parseConstraints toks fuel i (bitmaskOf p u n) =
        bitmaskOf (p || hasKeywordPair "PRIMARY" "KEY" ((toks.drop i).map StringUtils.toUpper))
          (u || ((toks.drop i).map StringUtils.toUpper).contains "UNIQUE")
          (n || hasKeywordPair "NOT" "NULL" ((toks.drop i).map StringUtils.toUpper)) := by
  induction fuel with
  | zero =>
    intro i p u n h
    rw [map_drop_nil toks _ i (by omega)]
    simp [parseConstraints, hasKeywordPair]
  | succ fuel ih =>
    intro i p u n h
    by_cases hi : i < toks.length
    · rw [parseConstraints, if_pos hi, map_drop_cons toks _ i hi]
      simp only [Bool.and_assoc, next_keyword, hasKeywordPair_cons, List.contains_cons]
      generalize hx : StringUtils.toUpper (toks.getD i "") = x
      by_cases h1 : (x == "PRIMARY"
          && ((toks.drop (i + 1)).map StringUtils.toUpper).head? == some "KEY") = true
      · rw [if_pos h1, lor_bitmaskOf_primaryKey, ih (i + 1 + 1) true u n (by omega)]
        rw [Bool.and_eq_true] at h1
        have hxp : x = "PRIMARY" := by simpa using h1.1
        have hlt : i + 1 < toks.length := by
          by_contra hge
          rw [map_drop_nil toks _ (i + 1) (by omega)] at h1
          simp at h1
        have hnext := h1.2
        rw [map_drop_cons toks _ (i + 1) hlt] at hnext ⊢
        have hkey : StringUtils.toUpper (toks.getD (i + 1) "") = "KEY" := by simpa using hnext
        rw [hkey, hxp]
        simp [hasKeywordPair_cons]
      · rw [if_neg h1]
        have h1' : (x == "PRIMARY"
            && ((toks.drop (i + 1)).map StringUtils.toUpper).head? == some "KEY") = false := by
          simpa using h1
        by_cases h2 : (x == "UNIQUE") = true
        · rw [if_pos h2, lor_bitmaskOf_unique, ih (i + 1) p true n (by omega)]
          have hxu : x = "UNIQUE" := by simpa using h2
          rw [hxu]
          simp
        · rw [if_neg h2]
          have h2' : ("UNIQUE" == x) = false := by
            have : x ≠ "UNIQUE" := by simpa using h2
            simpa using fun e => this e.symm
          by_cases h3 : (x == "NOT"
              && ((toks.drop (i + 1)).map StringUtils.toUpper).head? == some "NULL") = true
          · rw [if_pos h3, lor_bitmaskOf_notNull, ih (i + 1 + 1) p u true (by omega)]
            rw [Bool.and_eq_true] at h3
            have hxn : x = "NOT" := by simpa using h3.1
            have hlt : i + 1 < toks.length := by
              by_contra hge
              rw [map_drop_nil toks _ (i + 1) (by omega)] at h3
              simp at h3
            have hnext := h3.2
            rw [map_drop_cons toks _ (i + 1) hlt] at hnext ⊢
            have hnull : StringUtils.toUpper (toks.getD (i + 1) "") = "NULL" := by
              simpa using hnext
            rw [hnull, hxn]
            simp [hasKeywordPair_cons]
          · rw [if_neg h3]
            have h3' : (x == "NOT"
                && ((toks.drop (i + 1)).map StringUtils.toUpper).head? == some "NULL")
                  = false := by
              simpa using h3
            rw [ih (i + 1) p u n (by omega), h1', h3', h2']
            simp
    · rw [parseConstraints, if_neg hi, map_drop_nil toks _ i (by omega)]
      simp [hasKeywordPair]

theorem parseConstraints_keywords (name type : String) (keywords : List String) :
    parseConstraints (name :: type :: keywords) (name :: type :: keywords).length 2 0
      = keywordBitmask keywords := by
  have h := parseConstraints_eq (name :: type :: keywords) (name :: type :: keywords).length 2
    false false false (by omega)
  simp only [Bool.false_or] at h
  exact h

/-! ### `parseColumnDefsWithConstraints` -/

theorem not_blank_of_not_trim (c : Char) (h : isTrimChar c = false) : isBlankChar c = false := by
  unfold isTrimChar at h
  unfold isBlankChar
  simp only [Bool.or_eq_false_iff] at h ⊢
  exact ⟨h.1.1.1.1.1, h.1.1.1.1.2⟩

theorem eraseBlanks_of_ends (m : List Char) (first last : Char)
    (hfirst : m.head? = some first) (hlast : m.getLast? = some last)
    (hf : isTrimChar first = false) (hl : isTrimChar last = false) : eraseBlanks m = m := by
  obtain ⟨m1, hm1⟩ : ∃ m1, m = first :: m1 := by
    cases m with
    | nil => simp at hfirst
    | cons c cs => simp at hfirst; exact ⟨cs, by rw [hfirst]⟩
  have hne : m ≠ [] := by rw [hm1]; simp
  have hrev : ∃ m2, m.reverse = last :: m2 := by
    refine ⟨m.dropLast.reverse, ?_⟩
    have h1 := List.dropLast_append_getLast hne
    rw [List.getLast?_eq_getLast m hne] at hlast
    injection hlast with hlast
    rw [hlast] at h1
    rw [← h1]
    simp
  obtain ⟨m2, hm2⟩ := hrev
  have h1 : findFirstNotOf m isBlankChar = some 0 := by
    unfold findFirstNotOf
    rw [hm1]
    simp [List.findIdx?_cons, not_blank_of_not_trim first hf]
  have h2 : findLastNotOf m isBlankChar = some (m.length - 1) := by
    unfold findLastNotOf
    rw [hm2]
    simp [List.findIdx?_cons, not_blank_of_not_trim last hl]
  have hlen : 1 ≤ m.length := by rw [hm1]; simp
  unfold eraseBlanks
  simp only [h1, List.drop_zero, h2]
  rw [List.take_of_length_le (by omega)]

theorem parseColumnPart_eq (columns : List ColumnDef) (field : List Char)
    (h : trimmed field ≠ []) :
    parseColumnPart columns (String.mk (trimmed field))
      = columns ++ (columnOfWords (wordsAt ' ' (String.mk (trimmed field)))).toList := by
  obtain ⟨first, last, hfirst, hlast, hf, hl⟩ := trimmed_ends field h
  unfold parseColumnPart
  simp only [eraseBlanks_of_ends (trimmed field) first last hfirst hlast hf hl,
    tokenize_eq_wordsAt]
  cases hw : wordsAt ' ' (String.mk (trimmed field)) with
  | nil => simp [columnOfWords]
  | cons name rest =>
    cases rest with
    | nil => simp [columnOfWords]
    | cons type keywords =>
      rw [if_pos (by simp), parseConstraints_keywords]
      rfl

theorem parseColumnDefs_eq (columnDefs : String) :
    parseColumnDefsWithConstraints columnDefs
      = (wordsAt ',' columnDefs).filterMap (fun part => columnOfWords (wordsAt ' ' part)) := by
  unfold parseColumnDefsWithConstraints
  rw [tokenize_eq_wordsAt]
  have hfold : ∀ (parts : List String) (columns : List ColumnDef),
      (∀ part ∈ parts, ∃ field, part = String.mk (trimmed field) ∧ trimmed field ≠ []) →
      parts.foldl parseColumnPart columns
        = columns ++ parts.filterMap (fun part => columnOfWords (wordsAt ' ' part)) := by
    intro parts
    induction parts with
    | nil => intro columns _; simp
    | cons part parts ih =>
      intro columns hparts
      obtain ⟨field, hpart, hne⟩ := hparts part (List.mem_cons_self _ _)
      rw [List.foldl_cons, ih _ (fun q hq => hparts q (List.mem_cons_of_mem _ hq)), hpart,
        parseColumnPart_eq columns field hne, List.filterMap_cons]
      cases columnOfWords (wordsAt ' ' (String.mk (trimmed field))) with
      | none => simp
      | some col => simp
  have h := hfold (wordsAt ',' columnDefs) [] (by
    intro part hpart
    unfold wordsAt at hpart
    rw [List.mem_filter, List.mem_map] at hpart
    obtain ⟨⟨field, _, hfield⟩, hne⟩ := hpart
    refine ⟨field, hfield.symm, ?_⟩
    rw [← hfield, word_ne_empty] at hne
    intro hnil
    rw [hnil] at hne
    simp at hne)
  rw [List.nil_append] at h
  exact h

end Lemmas

/-! ## The claims -/

section Claims

open Table

/-- C1: if `insertRow` fails, the table afterwards is identical to the table before the
call: same rows in the same order, same primary-key index, same per-column unique-value
sets and same row count. -/
theorem C1_failed_insertRow_leaves_table (t : Table) (values : List String)
    (h : (t.insertRow values).ok = false) :
    (t.insertRow values).table = t ∧
      (t.insertRow values).table.rows = t.rows ∧
      (t.insertRow values).table.primaryKeyIndex = t.primaryKeyIndex ∧
      (t.insertRow values).table.uniqueIndexes = t.uniqueIndexes ∧
      (t.insertRow values).table.getRowCount = t.getRowCount := by
  have e := insertRow_table_of_not_ok t values h
  rw [e]
  exact ⟨rfl, rfl, rfl, rfl, rfl⟩

/-- Witness for C1: a duplicate key is refused by the scenario table holding `["1","a"]`. -/
theorem C1_failed_insertRow_leaves_table_witness :
    ((scenarioTable.insertRow ["1", "a"]).table.insertRow ["1", "b"]).ok = false ∧
      ((scenarioTable.insertRow ["1", "a"]).table.insertRow ["1", "b"]).table
        = (scenarioTable.insertRow ["1", "a"]).table :=
  ⟨by decide,
    (C1_failed_insertRow_leaves_table (scenarioTable.insertRow ["1", "a"]).table ["1", "b"]
      (by decide)).1⟩

/-- C2 as stated fails: in a table with two columns flagged PRIMARY_KEY the second flagged
column holds `"x"` after a successful insert, and a later row with `"x"` in that column
is accepted, the row count growing from 1 to 2. -/
theorem C2_counterexample :
    (twoKeyTable.col 1).isPrimaryKey = true ∧
      (twoKeyTable.insertRow ["1", "x"]).ok = true ∧
      ["1", "x"].getD 1 "" = "x" ∧ ["2", "x"].getD 1 "" = "x" ∧
      ((twoKeyTable.insertRow ["1", "x"]).table.insertRow ["2", "x"]).ok = true ∧
      (twoKeyTable.insertRow ["1", "x"]).table.getRowCount = 1 ∧
      ((twoKeyTable.insertRow ["1", "x"]).table.insertRow ["2", "x"]).table.getRowCount = 2 := by
  decide

/-- C2 (amended): for the primary-key column of a table, that is the first column flagged
PRIMARY_KEY as `getPrimaryKeyColumnIndex` returns it: once a row holding `v` in that column
has been inserted successfully, then after any further `insertRow` calls every `insertRow`
whose value in that column is `v` fails, and `getRowCount` is the same after the failed
call as before it. -/
theorem C2_primary_key_value_rejected_again (t : Table) (pk : Nat) (v : String)
    (values : List String) (later : List (List String)) (again : List String)
    (hpk : t.getPrimaryKeyColumnIndex = some pk)
    (hok : (t.insertRow values).ok = true)
    (hv : values[pk]? = some v) (hw : again[pk]? = some v) :
    (((t.insertRow values).table.insertAll later).insertRow again).ok = false ∧
      (((t.insertRow values).table.insertAll later).insertRow again).table.getRowCount
        = ((t.insertRow values).table.insertAll later).getRowCount := by
  have h1 : (t.insertRow values).table.primaryKeyIndex.contains v = true := by
    rw [insertRow_table_of_ok t values hok]
    simp only [hpk]
    rw [getD_of_getElem? hv]
    exact (pkMap_contains_assign _ _ _ _).mpr (Or.inl rfl)
  have h2 := primaryKeyIndex_contains_insertAll _ later v h1
  have hpk' : ((t.insertRow values).table.insertAll later).getPrimaryKeyColumnIndex = some pk := by
    unfold Table.getPrimaryKeyColumnIndex
    rw [insertAll_columns, insertRow_columns]
    exact hpk
  have h3 := insertRow_not_ok_of_contains _ again pk hpk' (by rw [getD_of_getElem? hw]; exact h2)
  exact ⟨h3, by rw [insertRow_table_of_not_ok _ _ h3]⟩

/-- Witness for C2: the specification's scenario, with one unrelated insert in between. -/
theorem C2_primary_key_value_rejected_again_witness :
    scenarioTable.getPrimaryKeyColumnIndex = some 0 ∧
      (scenarioTable.insertRow ["1", "a"]).ok = true ∧
      ((((scenarioTable.insertRow ["1", "a"]).table.insertAll [["2", "c"]]).insertRow
        ["1", "b"]).ok = false ∧
      (((scenarioTable.insertRow ["1", "a"]).table.insertAll [["2", "c"]]).insertRow
        ["1", "b"]).table.getRowCount
        = ((scenarioTable.insertRow ["1", "a"]).table.insertAll [["2", "c"]]).getRowCount) :=
  ⟨by decide, by decide,
    C2_primary_key_value_rejected_again scenarioTable 0 "1" ["1", "a"] [["2", "c"]] ["1", "b"]
      (by decide) (by decide) (by decide) (by decide)⟩

/-- C3: for a value list of the right length, an empty string in a column flagged NOT_NULL
makes `insertRow` fail, whatever the other flags of the column and the other values. -/
theorem C3_not_null_rejects_empty (t : Table) (values : List String) (i : Nat)
    (_hlen : values.length = t.columns.length) (hi : i < t.columns.length)
    (hnn : (t.col i).isNotNull = true) (hempty : values[i]? = some "") :
    (t.insertRow values).ok = false := by
  cases hok : (t.insertRow values).ok with
  | false => rfl
  | true =>
    have hc := ((checkConstraintsMsg_eq_none_iff t values).mp
      ((insertRow_ok_iff t values).mp hok).2).1
    exact absurd (getD_of_getElem? hempty) ((notNullViolation_eq_none_iff t values).mp hc i hi hnn)

/-- Witness for C3: an empty key for the scenario table. -/
theorem C3_not_null_rejects_empty_witness :
    (scenarioTable.col 0).isNotNull = true ∧ (scenarioTable.insertRow ["", "a"]).ok = false :=
  ⟨by decide,
    C3_not_null_rejects_empty scenarioTable ["", "a"] 0 (by decide) (by decide) (by decide)
      (by decide)⟩

/-- C4: for a column flagged UNIQUE but not PRIMARY_KEY, if a non-empty value `v` already
occurs in that column in some stored row, `insertRow` of a value list holding `v` in that
column fails. -/
theorem C4_unique_rejects_duplicate (t : Table) (hreach : Reachable t) (i : Nat)
    (row values : List String) (v : String)
    (hi : i < t.columns.length) (hu : (t.col i).isUnique = true)
    (hnp : (t.col i).isPrimaryKey = false)
    (hrow : row ∈ t.rows) (hv : row[i]? = some v) (hne : v ≠ "")
    (hw : values[i]? = some v) :
    (t.insertRow values).ok = false := by
  cases hok : (t.insertRow values).ok with
  | false => rfl
  | true =>
    have hc := ((checkConstraintsMsg_eq_none_iff t values).mp
      ((insertRow_ok_iff t values).mp hok).2).2.2
    have hwv := getD_of_getElem? hw
    have hnot := (uniqueViolation_eq_none_iff t values).mp hc i hi hu hnp (by rw [hwv]; exact hne)
    have hreq : (t.col i).requiresUniqueValue = true := by
      simp [ColumnDef.requiresUniqueValue, hu]
    have hin := ((reachable_wellFormed hreach).uniq i hi hreq v).mpr
      ⟨row, hrow, getD_of_getElem? hv⟩
    rw [hwv, hin] at hnot
    exact absurd hnot (by decide)

/-- Witness for C4: a second user with the e-mail address of the first. -/
theorem C4_unique_rejects_duplicate_witness :
    (usersTable.insertRow ["1", "a@x"]).table.rows = [["1", "a@x"]] ∧
      ((usersTable.insertRow ["1", "a@x"]).table.insertRow ["2", "a@x"]).ok = false :=
  ⟨by decide,
    C4_unique_rejects_duplicate (usersTable.insertRow ["1", "a@x"]).table
      (Reachable.insertRow _ _ (Reachable.new _ _)) 1 ["1", "a@x"] ["2", "a@x"] "a@x"
      (by decide) (by decide) (by decide) (by decide) (by decide) (by decide) (by decide)⟩

/-- C5: for a column flagged UNIQUE that is neither PRIMARY_KEY nor NOT_NULL the empty
string is exempt from the uniqueness check: two value lists that both hold the empty string
in that column and violate no other constraint are both accepted by `insertRow`, one after
the other. -/
theorem C5_empty_value_exempt_from_unique (t : Table) (i : Nat) (first second : List String)
    (_hi : i < t.columns.length) (_hu : (t.col i).isUnique = true)
    (_hnp : (t.col i).isPrimaryKey = false) (hnn : (t.col i).isNotNull = false)
    (hfirst : first[i]? = some "") (hsecond : second[i]? = some "")
    (h1 : OtherConstraintsHold t i first)
    (h2 : OtherConstraintsHold (t.insertRow first).table i second) :
    (t.insertRow first).ok = true ∧
      ((t.insertRow first).table.insertRow second).ok = true ∧
      ((t.insertRow first).table.insertRow second).table.rows = t.rows ++ [first, second] := by
  have ok1 := insertRow_ok_of_otherConstraintsHold t i first hnn (getD_of_getElem? hfirst) h1
  have ok2 := insertRow_ok_of_otherConstraintsHold (t.insertRow first).table i second
    (by rw [col_insertRow]; exact hnn) (getD_of_getElem? hsecond) h2
  refine ⟨ok1, ok2, ?_⟩
  rw [insertRow_table_of_ok _ _ ok2]
  simp only
  rw [insertRow_table_of_ok _ _ ok1]
  simp

/-- Witness for C5: two users without an e-mail address. -/
theorem C5_empty_value_exempt_from_unique_witness :
    (usersTable.col 1).isUnique = true ∧
      (usersTable.insertRow ["1", ""]).ok = true ∧
      ((usersTable.insertRow ["1", ""]).table.insertRow ["2", ""]).ok = true ∧
      ((usersTable.insertRow ["1", ""]).table.insertRow ["2", ""]).table.rows
        = usersTable.rows ++ [["1", ""], ["2", ""]] :=
  ⟨by decide,
    C5_empty_value_exempt_from_unique usersTable 1 ["1", ""] ["2", ""]
      (by decide) (by decide) (by decide) (by decide) (by decide) (by decide)
      ⟨by decide, by decide, by decide, by decide⟩ ⟨by decide, by decide, by decide, by decide⟩⟩

/-- C6: a value list whose length differs from the column count makes `insertRow` fail on
the arity check alone: the only diagnostic is the arity message, no constraint is reported,
and the table is left unchanged. -/
theorem C6_wrong_arity_rejected (t : Table) (values : List String)
    (h : values.length ≠ t.columns.length) :
    t.validateRow values = false ∧
      (t.insertRow values).ok = false ∧
      (t.insertRow values).table = t ∧
      (t.insertRow values).out =
        ["Error: Expected " ++ toString t.columns.length ++ " values, got "
          ++ toString values.length] := by
  have hv : t.validateRowMsg values =
      some ("Error: Expected " ++ toString t.columns.length ++ " values, got "
        ++ toString values.length) := by
    unfold Table.validateRowMsg
    rw [if_pos h]
  unfold Table.validateRow Table.insertRow
  rw [hv]
  exact ⟨rfl, rfl, rfl, rfl⟩

/-- Witness for C6: one value for the two-column scenario table; the value would also
violate NOT NULL, which is not reported. -/
theorem C6_wrong_arity_rejected_witness :
    (scenarioTable.insertRow [""]).ok = false ∧
      (scenarioTable.insertRow [""]).table = scenarioTable :=
  ⟨(C6_wrong_arity_rejected scenarioTable [""] (by decide)).2.1,
    (C6_wrong_arity_rejected scenarioTable [""] (by decide)).2.2.1⟩

/-- C7: if `insertRow` succeeds, the rows afterwards are the previous rows followed by the
new value list, `getRowCount` has grown by one, the primary-key index maps the new row's
key value to the previous row count, and the value set of every PRIMARY_KEY or UNIQUE
column contains the new row's value for that column. -/
theorem C7_successful_insertRow_effect (t : Table) (hreach : Reachable t) (values : List String)
    (hok : (t.insertRow values).ok = true) :
    values.length = t.columns.length ∧
      (t.insertRow values).table.rows = t.rows ++ [values] ∧
      (t.insertRow values).table.getRowCount = t.getRowCount + 1 ∧
      (∀ pk, t.getPrimaryKeyColumnIndex = some pk →
        (t.insertRow values).table.primaryKeyIndex.find (values.getD pk "")
          = some t.getRowCount) ∧
      (∀ i, i < t.columns.length → (t.col i).requiresUniqueValue = true →
        values.getD i "" ∈ (t.insertRow values).table.uniqueIndexes.getD i []) := by
  have hlen : values.length = t.columns.length :=
    (validateRowMsg_eq_none_iff t values).mp ((insertRow_ok_iff t values).mp hok).1
  have hwf := reachable_wellFormed hreach
  rw [insertRow_table_of_ok t values hok]
  refine ⟨hlen, rfl, by simp [Table.getRowCount], ?_, ?_⟩
  · intro pk hpk
    simp only [hpk]
    exact pkMap_find_assign_self _ _ _
  · intro i hi hreq
    simp only
    rw [updateUniqueIndexes_getD t values i hwf.idxLen hi, if_pos hreq, ← strSet_contains_iff,
      strSet_contains_insert]
    exact Or.inl rfl

/-- Witness for C7: the second user of `usersTable`. -/
theorem C7_successful_insertRow_effect_witness :
    ((usersTable.insertRow ["1", "a@x"]).table.insertRow ["2", "b@x"]).ok = true ∧
      ((usersTable.insertRow ["1", "a@x"]).table.insertRow ["2", "b@x"]).table.rows
        = (usersTable.insertRow ["1", "a@x"]).table.rows ++ [["2", "b@x"]] :=
  ⟨by decide,
    (C7_successful_insertRow_effect (usersTable.insertRow ["1", "a@x"]).table
      (Reachable.insertRow _ _ (Reachable.new _ _)) ["2", "b@x"] (by decide)).2.1⟩

/-- C8: for every table reachable from construction by `insertRow` calls, successful or
failed, and for every table returned by `deserialize`, the key set of the primary-key index
equals the set of values in the primary-key column across all stored rows, and the value
set of each UNIQUE or PRIMARY_KEY column equals the set of values in that column across
all stored rows. -/
theorem C8_indexes_exact :
    (∀ t, Reachable t → IndexesExact t) ∧
      (∀ data columnCountInit rowCountInit,
        IndexesExact (Table.deserialize data columnCountInit rowCountInit).table) :=
  ⟨fun _ h => indexesExact_of_wellFormed (reachable_wellFormed h),
    fun data c r => indexesExact_of_wellFormed (reachable_wellFormed (reachable_deserialize data c r))⟩

/-- Witness for C8: `usersTable` after a successful and a failed insert. -/
theorem C8_indexes_exact_witness :
    Reachable ((usersTable.insertRow ["1", "a@x"]).table.insertRow ["1", "b@x"]).table ∧
      IndexesExact ((usersTable.insertRow ["1", "a@x"]).table.insertRow ["1", "b@x"]).table :=
  ⟨Reachable.insertRow _ _ (Reachable.insertRow _ _ (Reachable.new _ _)),
    C8_indexes_exact.1 _ (Reachable.insertRow _ _ (Reachable.insertRow _ _ (Reachable.new _ _)))⟩

/-- C9: for every table reachable from construction by `insertRow` calls, and for every
table returned by `deserialize` on any input text, every stored row has exactly as many
cells as the table has columns. -/
theorem C9_rows_fit_columns :
    (∀ t, Reachable t → RowsFitColumns t) ∧
      (∀ data columnCountInit rowCountInit,
        RowsFitColumns (Table.deserialize data columnCountInit rowCountInit).table) :=
  ⟨fun _ h => (reachable_wellFormed h).rowLen,
    fun data c r => (reachable_wellFormed (reachable_deserialize data c r)).rowLen⟩

/-- Witness for C9: the scenario table after one insert. -/
theorem C9_rows_fit_columns_witness :
    Reachable (scenarioTable.insertRow ["1", "a"]).table ∧
      RowsFitColumns (scenarioTable.insertRow ["1", "a"]).table :=
  ⟨Reachable.insertRow _ _ (Reachable.new _ _),
    C9_rows_fit_columns.1 _ (Reachable.insertRow _ _ (Reachable.new _ _))⟩

/-- C10 as stated fails: after construction from two columns both declared PRIMARY_KEY
only, the second column still contains PRIMARY_KEY and does not contain NOT_NULL. -/
theorem C10_counterexample :
    (twoKeyTable.col 1).isPrimaryKey = true ∧ (twoKeyTable.col 1).isNotNull = false ∧
      twoKeyTable.columns = [{ name := "a", type := "INT", constraints := 5 },
                             { name := "b", type := "INT", constraints := 1 }] := by
  decide

/-- C10 (amended): for every table constructed from a list of column definitions, the
primary-key column, that is the first column whose constraint set contains PRIMARY_KEY as
`getPrimaryKeyColumnIndex` returns it, also contains NOT_NULL after construction, whether
or not NOT_NULL was declared. -/
theorem C10_primary_key_column_is_not_null (name : String) (columns : List ColumnDef)
    (pk : Nat) (hpk : (Table.new name columns).getPrimaryKeyColumnIndex = some pk) :
    ((Table.new name columns).col pk).isPrimaryKey = true ∧
      ((Table.new name columns).col pk).isNotNull = true := by
  refine ⟨?_, ?_⟩
  · unfold Table.getPrimaryKeyColumnIndex at hpk
    obtain ⟨hlt, hp, _⟩ := List.findIdx?_eq_some_iff_getElem.mp hpk
    unfold Table.col
    rw [List.getD_eq_getElem?_getD, List.getElem?_eq_getElem hlt]
    exact hp
  · rw [getPrimaryKeyColumnIndex_new] at hpk
    exact new_col_isNotNull name columns pk hpk

/-- Witness for C10: `usersTable` declares its key column PRIMARY_KEY only. -/
theorem C10_primary_key_column_is_not_null_witness :
    usersTable.getPrimaryKeyColumnIndex = some 0 ∧
      (usersTable.col 0).isPrimaryKey = true ∧ (usersTable.col 0).isNotNull = true :=
  ⟨by decide,
    C10_primary_key_column_is_not_null "users"
      [{ name := "id", type := "INT", constraints := 1 },
       { name := "email", type := "STRING", constraints := 2 }] 0 (by decide)⟩

/-- C11 as stated fails: a stored cell with an embedded comma is written unescaped, read
back as two cells and refused by `insertRow`, so the table read back has no rows. -/
theorem C11_counterexample :
    Reachable commaTable ∧
      commaTable.rows = [["x,y"]] ∧
      commaTable.serialize = "t\n1\nc,TEXT,0\n1\nx,y\n" ∧
      (Table.deserialize commaTable.serialize 0 0).table.columns = commaTable.columns ∧
      (Table.deserialize commaTable.serialize 0 0).table.rows = [] :=
  ⟨reachable_insertAll (Reachable.ofPairs _ _) _, by decide, by decide, by decide, by decide⟩

/-- C11 (amended): for every table T reachable from a constructor by `insertRow` calls
whose name contains no newline, whose column names, column types and cells contain no comma
or newline, none of whose rows ends in an empty cell, and whose bitmasks, column count and
row count are values of a 32-bit `int`, `deserialize(serialize(T))` has the same column
definitions as T (name, type and constraint bitmask, in order) and the same rows as T in
the original insertion order. -/
theorem C11_round_trip (t : Table) (hreach : Reachable t) (hser : Serializable t)
    (columnCountInit rowCountInit : Int) :
    (Table.deserialize t.serialize columnCountInit rowCountInit).table.columns = t.columns ∧
      (Table.deserialize t.serialize columnCountInit rowCountInit).table.rows = t.rows := by
  rw [deserialize_serialize t hreach hser]
  exact ⟨rfl, rfl⟩

/-- Witness for C11: the scenario table with two rows. -/
theorem C11_round_trip_witness :
    (Table.deserialize (scenarioTable.insertAll [["1", "a"], ["2", "b"]]).serialize 7 7).table.columns
        = (scenarioTable.insertAll [["1", "a"], ["2", "b"]]).columns ∧
      (Table.deserialize (scenarioTable.insertAll [["1", "a"], ["2", "b"]]).serialize 7 7).table.rows
        = [["1", "a"], ["2", "b"]] :=
  C11_round_trip (scenarioTable.insertAll [["1", "a"], ["2", "b"]])
    (reachable_insertAll (Reachable.new _ _) _)
    ⟨by decide, by decide, by decide, by decide, by decide, by decide, by decide, by decide⟩ 7 7

/-- C12: `serialize` returns exactly the table name and a newline; the decimal column count
and a newline; for each column in definition order the line `name,type,bitmask` and a
newline; the decimal row count and a newline; then for each row in insertion order its
cells joined by single commas, with no escaping, and a newline.  The bitmask printed is the
column's stored bitmask, which is the OR of PK=1, UNIQUE=2, NOT_NULL=4 over the column's
flags whenever it uses only these three bits. -/
theorem C12_serialize_format (t : Table) :
    t.serialize = serializeSpec t ∧
      ∀ col ∈ t.columns, 0 ≤ col.constraints → col.constraints ≤ 7 →
        col.constraints = flagsBitmask col := by
  refine ⟨String.ext ((serialize_data t).trans (serializeSpec_data t).symm), ?_⟩
  intro col _ h0 h7
  obtain ⟨name, type, c⟩ := col
  simp only at h0 h7
  have hcases : c = 0 ∨ c = 1 ∨ c = 2 ∨ c = 3 ∨ c = 4 ∨ c = 5 ∨ c = 6 ∨ c = 7 := by omega
  rcases hcases with h | h | h | h | h | h | h | h <;> subst h <;> rfl

/-- Witness for C12: the text of the scenario table with two rows. -/
theorem C12_serialize_format_witness :
    (scenarioTable.insertAll [["1", "a"], ["2", "b"]]).serialize
        = "t\n2\nid,INT,5\nname,STRING,0\n2\n1,a\n2,b\n" ∧
      (5 : Int) = flagsBitmask { name := "id", type := "INT", constraints := 5 } :=
  ⟨(C12_serialize_format (scenarioTable.insertAll [["1", "a"], ["2", "b"]])).1.trans (by decide),
    (C12_serialize_format (scenarioTable.insertAll [["1", "a"], ["2", "b"]])).2
      { name := "id", type := "INT", constraints := 5 } (by decide) (by decide) (by decide)⟩

/-- C13: for every table reachable by `insertRow`, `selectRows` with an empty column list
and an empty condition returns exactly the stored rows: every row, in insertion order, each
with all of its cells in column-definition order. -/
theorem C13_select_all_returns_rows (t : Table) (hreach : Reachable t) :
    t.selectRows [] "" = t.rows := by
  rw [selectRows_eq, columnIndices_eq]
  simp only [if_true, beq_self_eq_true, Bool.true_or, List.filter_true]
  have hrows := (reachable_wellFormed hreach).rowLen
  have h : ∀ rows : List (List String), (∀ row ∈ rows, row.length = t.columns.length) →
      rows.map (fun row => (List.range t.columns.length).map (fun idx => row.getD idx ""))
        = rows := by
    intro rows hlen
    induction rows with
    | nil => rfl
    | cons r rs ih =>
      rw [List.map_cons, ih (fun row hrow => hlen row (List.mem_cons_of_mem _ hrow)),
        ← hlen r (List.mem_cons_self _ _), range_map_getD]
  exact h t.rows hrows

/-- Witness for C13: the scenario table after two inserts. -/
theorem C13_select_all_returns_rows_witness :
    (scenarioTable.insertAll [["1", "a"], ["2", "b"]]).selectRows [] ""
      = [["1", "a"], ["2", "b"]] :=
  C13_select_all_returns_rows (scenarioTable.insertAll [["1", "a"], ["2", "b"]])
    (reachable_insertAll (Reachable.new _ _) _)

/-- C14 as stated fails: the one-character literal `"` is not wrapped in a pair of quotes,
so the claim selects the rows whose cell is `"`; the code compares with the empty string
and returns the row with the empty cell instead. -/
theorem C14_counterexample :
    quoteTable.rows = [["\""], [""]] ∧
      quoteTable.getColumnIndex "c" = some 0 ∧
      unquotePair "\"".data = "\"".data ∧
      (quoteTable.rows.filter
          (fun row => decide (row[0]? = some (String.mk (unquotePair "\"".data))))).map
        (projectRow quoteTable []) = [["\""]] ∧
      quoteTable.selectRows [] ("c" ++ "=" ++ "\"") = [[""]] := by
  decide

/-- C14 (amended): for every column name `c` that matches a column exactly and contains no
`=`, and every literal `v`, `selectRows(cols, c + "=" + v)` returns the projections of
exactly those stored rows whose cell in column `c` equals `v'`, in insertion order, where
`v'` is `v` with its first and last character removed when `v` is non-empty and both are a
double quote (the one-character literal `"` gives the empty string) and `v` itself
otherwise. -/
theorem C14_equality_condition_selects (t : Table) (cols : List String) (c v : String)
    (idx : Nat) (hc : '=' ∉ c.data) (hidx : definitionIndex t c = some idx)
    (hv : v.length < SIZE_MODULUS) :
    t.selectRows cols (c ++ "=" ++ v) =
      (t.rows.filter (fun row => decide (row[idx]? = some (String.mk (unquote v.data))))).map
        (projectRow t cols) := by
  rw [selectRows_eq]
  have hne : (c ++ "=" ++ v == "") = false := by
    rw [beq_eq_false_iff_ne]
    intro e
    have := congrArg String.data e
    rw [data_append_eq] at this
    simp at this
  have hproj : (fun row : List String => (t.columnIndices cols).map (fun i => row.getD i ""))
      = projectRow t cols := funext fun row => columnIndices_map_eq_projectRow t cols row
  rw [hproj]
  congr 1
  apply List.filter_congr
  intro row _
  rw [hne, Bool.false_or, evaluateCondition_split t row _ c.data v.data (data_append_eq c v) hc]
  have hcol : t.getColumnIndex (String.mk c.data) = some idx := by
    rw [getColumnIndex_eq_definitionIndex]
    exact hidx
  rw [hcol, stripQuotes_eq_unquote v.data hv]

/-- Witness for C14: a quoted literal against the scenario table. -/
theorem C14_equality_condition_selects_witness :
    (scenarioTable.insertAll [["1", "a"], ["2", "b"]]).selectRows ["id"] ("name" ++ "=" ++ "\"b\"")
      = ((scenarioTable.insertAll [["1", "a"], ["2", "b"]]).rows.filter
          (fun row => decide (row[1]? = some (String.mk (unquote "\"b\"".data))))).map
        (projectRow (scenarioTable.insertAll [["1", "a"], ["2", "b"]]) ["id"]) :=
  C14_equality_condition_selects (scenarioTable.insertAll [["1", "a"], ["2", "b"]]) ["id"]
    "name" "\"b\"" 1 (by decide) (by decide) (by decide)

/-- C15: for every table, column list and condition string that contains no `=`, every row
matches: `selectRows(cols, cond)` equals `selectRows(cols, "")`. -/
theorem C15_condition_without_eq_matches_all (t : Table) (cols : List String) (cond : String)
    (h : '=' ∉ cond.data) : t.selectRows cols cond = t.selectRows cols "" := by
  rw [selectRows_eq, selectRows_eq]
  congr 1
  apply List.filter_congr
  intro row _
  rw [evaluateCondition_of_no_eq t row cond h]
  simp

/-- Witness for C15: a condition without `=` on the scenario table. -/
theorem C15_condition_without_eq_matches_all_witness :
    (scenarioTable.insertAll [["1", "a"], ["2", "b"]]).selectRows ["name"] "id > 1"
      = (scenarioTable.insertAll [["1", "a"], ["2", "b"]]).selectRows ["name"] "" :=
  C15_condition_without_eq_matches_all _ ["name"] "id > 1" (by decide)

/-- C16: for every table, column list and condition containing `=` whose column-name part,
the text before the first `=`, matches no column name exactly, `selectRows` returns no
rows. -/
theorem C16_unresolved_condition_column_selects_nothing (t : Table) (cols : List String)
    (namePart rest : String) (hfirst : '=' ∉ namePart.data)
    (hnone : ∀ c ∈ t.columns, c.name ≠ namePart) :
    t.selectRows cols (namePart ++ "=" ++ rest) = [] := by
  rw [selectRows_eq]
  have hne : (namePart ++ "=" ++ rest == "") = false := by
    rw [beq_eq_false_iff_ne]
    intro e
    have := congrArg String.data e
    rw [data_append_eq] at this
    simp at this
  have hcol : t.getColumnIndex (String.mk namePart.data) = none := by
    unfold Table.getColumnIndex
    rw [List.findIdx?_eq_none_iff]
    intro c hmem
    simpa using hnone c hmem
  have hfilter : t.rows.filter (fun row => namePart ++ "=" ++ rest == ""
      || t.evaluateCondition row (namePart ++ "=" ++ rest)) = [] := by
    rw [List.filter_eq_nil_iff]
    intro row _
    rw [hne, Bool.false_or,
      evaluateCondition_split t row _ namePart.data rest.data (data_append_eq _ _) hfirst, hcol]
    simp
  rw [hfilter]
  rfl

/-- Witness for C16: the scenario table has no column `age`. -/
theorem C16_unresolved_condition_column_selects_nothing_witness :
    (scenarioTable.insertAll [["1", "a"], ["2", "b"]]).selectRows [] ("age" ++ "=" ++ "1") = [] :=
  C16_unresolved_condition_column_selects_nothing _ [] "age" "1" (by decide) (by decide)

/-- C17: for every non-empty list of requested column names and every condition, each
result row of `selectRows` consists of the matching source row's cells at the definition
indexes of those requested names that equal a column name exactly, in the order requested;
a requested name that equals no column name contributes no cell and raises no error. -/
theorem C17_projection_follows_requested_names (t : Table) (requested : List String)
    (cond : String) (hne : requested ≠ []) :
    t.selectRows requested cond =
      (t.rows.filter (fun row => cond == "" || t.evaluateCondition row cond)).map
        (projectRequested t requested) := by
  rw [selectRows_eq]
  have hproj : (fun row : List String =>
      (t.columnIndices requested).map (fun i => row.getD i "")) = projectRequested t requested :=
    funext fun row => by
      rw [columnIndices_map_eq_projectRow]
      unfold projectRow
      rw [if_neg hne]
  rw [hproj]

/-- Witness for C17: a request in reverse order with one unknown and one wrongly cased
name. -/
theorem C17_projection_follows_requested_names_witness :
    (scenarioTable.insertAll [["1", "a"], ["2", "b"]]).selectRows ["name", "zz", "ID", "id"] ""
      = [["a", "1"], ["b", "2"]] :=
  (C17_projection_follows_requested_names (scenarioTable.insertAll [["1", "a"], ["2", "b"]])
    ["name", "zz", "ID", "id"] "" (by decide)).trans (by decide)

/-- C18 as stated fails: a second row with the primary key `1` is left out of the table
read back; the load returns the very table it returns for the text without that row, and
the only trace is the duplicate-key line `insertRow` prints, no format error. -/
theorem C18_counterexample :
    (Table.deserialize "t\n2\nid,INT,1\nname,STRING\n3\n1,a\n1,b\n2,c\n" 0 0).table.rows
        = [["1", "a"], ["2", "c"]] ∧
      (Table.deserialize "t\n2\nid,INT,1\nname,STRING\n3\n1,a\n1,b\n2,c\n" 0 0).table
        = (Table.deserialize "t\n2\nid,INT,1\nname,STRING\n2\n1,a\n2,c\n" 0 0).table ∧
      (Table.deserialize "t\n2\nid,INT,1\nname,STRING\n3\n1,a\n1,b\n2,c\n" 0 0).out
        = ["Error: Duplicate primary key value '1'"] := by
  decide

/-- C18 (amended): when replaying serialized rows through `insertRow`, `deserialize`
discards the result of `insertRow`: a row that violates a constraint is left out of the
table, the only trace being the one diagnostic line `insertRow` prints for it; the load is
not aborted and continues with the remaining rows. -/
theorem C18_failed_row_dropped_load_continues (n : Nat) (ss : IStream) (t : Table)
    (out : List String)
    (hfail : (t.insertRow (parseRow (ss.getline "" '\n').2)).ok = false) :
    (∃ m, (t.insertRow (parseRow (ss.getline "" '\n').2)).out = [m] ∧
        replayRows (n + 1) ss t out = replayRows n (ss.getline "" '\n').1 t (out ++ [m])) ∧
      ∀ data columnCountInit rowCountInit,
        Reachable (Table.deserialize data columnCountInit rowCountInit).table := by
  refine ⟨?_, fun data c r => reachable_deserialize data c r⟩
  obtain ⟨m, hm, _⟩ := insertRow_out_of_not_ok t _ hfail
  refine ⟨m, hm, ?_⟩
  rw [replayRows]
  simp only []
  rw [insertRow_table_of_not_ok t _ hfail, hm]

/-- Witness for C18: the duplicate row `1,b` in front of the row `2,c`. -/
theorem C18_failed_row_dropped_load_continues_witness :
    ((scenarioTable.insertRow ["1", "a"]).table.insertRow
        (parseRow ((IStream.ofString "1,b\n2,c\n").getline "" '\n').2)).ok = false ∧
      ∃ m, ((scenarioTable.insertRow ["1", "a"]).table.insertRow
          (parseRow ((IStream.ofString "1,b\n2,c\n").getline "" '\n').2)).out = [m] ∧
        replayRows (1 + 1) (IStream.ofString "1,b\n2,c\n")
            (scenarioTable.insertRow ["1", "a"]).table []
          = replayRows 1 ((IStream.ofString "1,b\n2,c\n").getline "" '\n').1
              (scenarioTable.insertRow ["1", "a"]).table ([] ++ [m]) :=
  ⟨by decide,
    (C18_failed_row_dropped_load_continues 1 (IStream.ofString "1,b\n2,c\n")
      (scenarioTable.insertRow ["1", "a"]).table [] (by decide)).1⟩

/-- C19 as stated fails: the third field `5x` is not numeric, yet `std::stoi` reads its
leading digits and the column gets the bitmask 5. -/
theorem C19_counterexample :
    thirdField "a,INT,5x" = some "5x" ∧ isNumeric "5x" = false ∧
      (parseColumnDef "a,INT,5x").constraints = 5 ∧
      (Table.deserialize "t\n1\na,INT,5x\n0\n" 0 0).table.columns
        = [{ name := "a", type := "INT", constraints := 5 }] := by
  decide

/-- C19 (amended): for every serialized column line, `deserialize` gives the column the
constraint bitmask 0 when the line has no third comma-separated field and when `std::stoi`
rejects its third field, as it does for an empty field and for one whose first character is
neither whitespace, a sign nor a digit; a third field that `std::stoi` accepts, such as one
that merely begins with a number, gives that number.  A column with bitmask 0 keeps it when
the table is constructed. -/
theorem C19_missing_or_rejected_bitmask_is_zero (line : String) :
    (thirdField line = none → (parseColumnDef line).constraints = 0) ∧
      (∀ field, thirdField line = some field → stoi field = none →
        (parseColumnDef line).constraints = 0) ∧
      (∀ field v, thirdField line = some field → stoi field = some v →
        (parseColumnDef line).constraints = v) ∧
      stoi "" = none ∧
      (∀ c r, isSpace c = false → c ≠ '-' → c ≠ '+' → c.isDigit = false →
        stoi (String.mk (c :: r)) = none) ∧
      (∀ (name : String) (cols : List ColumnDef) (j : Nat) (col : ColumnDef),
        cols[j]? = some col → col.constraints = 0 →
        (Table.new name cols).columns[j]? = some col) := by
  have h := parseColumnDef_constraints line
  refine ⟨?_, ?_, ?_, by decide, stoi_eq_none_of_head, ?_⟩
  · intro hnone
    rw [h, hnone]
  · intro field hsome hrej
    rw [h, hsome]
    simp [hrej]
  · intro field v hsome hacc
    rw [h, hsome]
    simp [hacc]
  · intro name cols j col hj h0
    rw [new_eq]
    refine newColumns_getElem?_of_not_primaryKey cols j col hj ?_
    obtain ⟨n, ty, c⟩ := col
    simp only at h0
    subst h0
    rfl

/-- Witness for C19: a line without a third field and a line whose third field is a
word. -/
theorem C19_missing_or_rejected_bitmask_is_zero_witness :
    thirdField "a,INT" = none ∧ (parseColumnDef "a,INT").constraints = 0 ∧
      thirdField "a,INT,PK" = some "PK" ∧ (parseColumnDef "a,INT,PK").constraints = 0 :=
  ⟨by decide, (C19_missing_or_rejected_bitmask_is_zero "a,INT").1 (by decide), by decide,
    (C19_missing_or_rejected_bitmask_is_zero "a,INT,PK").2.1 "PK" (by decide) (by decide)⟩

/-- C20: for every database and every name that already names one of its tables,
`createTable` fails, in both overloads, and the database is unchanged: the existing table
keeps its column definitions and all its rows, and no table is added or replaced. -/
theorem C20_createTable_existing_name_fails (db : Database) (tableName : String)
    (columns : List ColumnDef) (pairs : List (String × String))
    (hexists : db.tableExists tableName = true) :
    (db.createTable tableName columns).ok = false ∧
      (db.createTable tableName columns).db = db ∧
      (db.createTable tableName columns).db.tables.find tableName = db.tables.find tableName ∧
      (db.createTablePairs tableName pairs).ok = false ∧
      (db.createTablePairs tableName pairs).db = db ∧
      (db.createTablePairs tableName pairs).db.tables.find tableName
        = db.tables.find tableName := by
  unfold Database.tableExists at hexists
  unfold Database.createTable Database.createTablePairs
  rw [if_pos hexists, if_pos hexists]
  exact ⟨rfl, rfl, rfl, rfl, rfl, rfl⟩

/-- Witness for C20: creating `t` again in the scenario database. -/
theorem C20_createTable_existing_name_fails_witness :
    scenarioDatabase.tableExists "t" = true ∧
      (scenarioDatabase.createTable "t" [{ name := "x", type := "INT", constraints := 0 }]).ok
        = false ∧
      (scenarioDatabase.createTable "t" [{ name := "x", type := "INT", constraints := 0 }]).db
        = scenarioDatabase :=
  ⟨by decide,
    (C20_createTable_existing_name_fails scenarioDatabase "t"
      [{ name := "x", type := "INT", constraints := 0 }] [] (by decide)).1,
    (C20_createTable_existing_name_fails scenarioDatabase "t"
      [{ name := "x", type := "INT", constraints := 0 }] [] (by decide)).2.1⟩

/-! ### C21: createTable with a fresh name -/

/-- C21 counterexample: `createTable("u", [{id, INT, PRIMARY_KEY}])` on a database without a
table `u` succeeds, but the stored column definition carries the bitmask 5
(PRIMARY_KEY | NOT_NULL) where the given one carries 1: the new table does not have exactly
the given columns. -/
theorem C21_counterexample :
    scenarioDatabase.tableExists "u" = false ∧
      (scenarioDatabase.createTable "u" [{ name := "id", type := "INT", constraints := 1 }]).ok
        = true ∧
      ((scenarioDatabase.createTable "u"
          [{ name := "id", type := "INT", constraints := 1 }]).db.tables.find "u").map
        Table.columns = some [{ name := "id", type := "INT", constraints := 5 }] ∧
      ((scenarioDatabase.createTable "u"
          [{ name := "id", type := "INT", constraints := 1 }]).db.tables.find "u").map
        Table.columns ≠ some [{ name := "id", type := "INT", constraints := 1 }] := by
  decide

/-- C21 (amended): for every database and every name that names none of its tables, both
`createTable` overloads succeed; afterwards `tableExists(name)` holds, `getTableNames`
contains the name exactly once and otherwise exactly the former names (as a set: the order
of enumeration is unspecified), the new table has zero rows and the
given column names and types in the given order, its constraint sets being the given ones
with NOT_NULL added to the first PRIMARY_KEY column as the Table constructor does (exactly
the given columns when every PRIMARY_KEY column is declared NOT_NULL, and for the
name/type-pairs overload), and every previously existing table is unchanged. -/
theorem C21_createTable_fresh_name (db : Database) (tableName : String)
    (columns : List ColumnDef) (pairs : List (String × String))
    (hfresh : db.tableExists tableName = false) :
    ((db.createTable tableName columns).ok = true ∧
      (db.createTable tableName columns).db.tableExists tableName = true ∧
      (db.createTable tableName columns).db.getTableNames.count tableName = 1 ∧
      (∀ k, k ∈ (db.createTable tableName columns).db.getTableNames
        ↔ k = tableName ∨ k ∈ db.getTableNames) ∧
      (∃ t, (db.createTable tableName columns).db.tables.find tableName = some t ∧
        t.name = tableName ∧ t.columns = newColumns columns ∧
        t.columns.map (fun c => (c.name, c.type)) = columns.map (fun c => (c.name, c.type)) ∧
        ((∀ c ∈ columns, c.isPrimaryKey = true → c.isNotNull = true) → t.columns = columns) ∧
        t.rows = [] ∧ t.getRowCount = 0) ∧
      (∀ other, db.tableExists other = true →
        (db.createTable tableName columns).db.tables.find other = db.tables.find other)) ∧
    ((db.createTablePairs tableName pairs).ok = true ∧
      (db.createTablePairs tableName pairs).db.tableExists tableName = true ∧
      (db.createTablePairs tableName pairs).db.getTableNames.count tableName = 1 ∧
      (∀ k, k ∈ (db.createTablePairs tableName pairs).db.getTableNames
        ↔ k = tableName ∨ k ∈ db.getTableNames) ∧
      (∃ t, (db.createTablePairs tableName pairs).db.tables.find tableName = some t ∧
        t.name = tableName ∧
        t.columns = pairs.map (fun p => ({ name := p.1, type := p.2 } : ColumnDef)) ∧
        t.rows = [] ∧ t.getRowCount = 0) ∧
      (∀ other, db.tableExists other = true →
        (db.createTablePairs tableName pairs).db.tables.find other = db.tables.find other)) := by
  have hne : ∀ other, db.tableExists other = true → other ≠ tableName := by
    intro other hother heq
    rw [heq, hfresh] at hother
    exact Bool.false_ne_true hother
  have hcount : (tableName :: db.getTableNames).count tableName = 1 := by
    have hnot : tableName ∉ db.getTableNames := tableMap_not_mem_names _ _ hfresh
    rw [List.count_cons_self, List.count_eq_zero.mpr hnot]
  unfold Database.tableExists at hfresh
  unfold Database.createTable Database.createTablePairs
  rw [if_neg (by rw [hfresh]; exact Bool.false_ne_true),
    if_neg (by rw [hfresh]; exact Bool.false_ne_true)]
  dsimp only
  have hnames : ∀ v : Table, Database.getTableNames
      { db with tables := db.tables.assign tableName v } = tableName :: db.getTableNames :=
    fun v => tableMap_names_assign db.tables tableName v hfresh
  have hmem : ∀ (v : Table) (k : String), k ∈ Database.getTableNames
      { db with tables := db.tables.assign tableName v } ↔ k = tableName ∨ k ∈ db.getTableNames :=
    fun v k => by rw [hnames v, List.mem_cons]
  refine ⟨⟨rfl, ?_, ?_, hmem _, ⟨_, tableMap_find_assign_self _ _ _, ?_, ?_, ?_, ?_, ?_, ?_⟩,
    ?_⟩, ⟨rfl, ?_, ?_, hmem _, ⟨_, tableMap_find_assign_self _ _ _, rfl, rfl, rfl, rfl⟩, ?_⟩⟩
  · unfold Database.tableExists
    rw [tableMap_contains_iff, tableMap_find_assign_self]; rfl
  · rw [hnames]; exact hcount
  · rw [new_eq]
  · rw [new_eq]
  · rw [new_eq]; exact newColumns_names_types columns
  · intro h; rw [new_eq]; exact newColumns_eq_self columns h
  · rw [new_eq]
  · rw [new_eq]; rfl
  · intro other hother
    exact tableMap_find_assign_ne _ _ _ _ (hne other hother)
  · unfold Database.tableExists
    rw [tableMap_contains_iff, tableMap_find_assign_self]; rfl
  · rw [hnames]; exact hcount
  · intro other hother
    exact tableMap_find_assign_ne _ _ _ _ (hne other hother)

/-- Witness for C21: creating `u` in the scenario database, which holds the table `t`. -/
theorem C21_createTable_fresh_name_witness :
    scenarioDatabase.tableExists "u" = false ∧
      (scenarioDatabase.createTable "u"
        [{ name := "id", type := "INT", constraints := 1 }]).ok = true ∧
      (scenarioDatabase.createTable "u"
        [{ name := "id", type := "INT", constraints := 1 }]).db.getTableNames.count "u" = 1 :=
  ⟨by decide,
    (C21_createTable_fresh_name scenarioDatabase "u"
      [{ name := "id", type := "INT", constraints := 1 }] [] (by decide)).1.1,
    (C21_createTable_fresh_name scenarioDatabase "u"
      [{ name := "id", type := "INT", constraints := 1 }] [] (by decide)).1.2.2.1⟩

/-! ### C22: insert and select delegate to the named table -/

/-- C22: for a name that names no table, `insert` fails and leaves the database unchanged
and `select` returns the empty result set; for a name that names the table `t`, `insert`
returns what `t.insertRow` returns (result and printed lines), the table stored under the
name afterwards is the one `insertRow` leaves, every other table and the set of names are
unchanged, and `select` returns what `t.selectRows` returns. -/
theorem C22_insert_select_delegate (db : Database) (tableName : String)
    (values columns : List String) (whereCondition : String) :
    (db.tableExists tableName = false →
      (db.insert tableName values).ok = false ∧
      (db.insert tableName values).db = db ∧
      db.select tableName columns whereCondition = []) ∧
    (∀ t, db.tables.find tableName = some t →
      (db.insert tableName values).ok = (t.insertRow values).ok ∧
      (db.insert tableName values).out = (t.insertRow values).out ∧
      (db.insert tableName values).db.tables.find tableName
        = some (t.insertRow values).table ∧
      (∀ other, other ≠ tableName →
        (db.insert tableName values).db.tables.find other = db.tables.find other) ∧
      (db.insert tableName values).db.getTableNames = db.getTableNames ∧
      db.select tableName columns whereCondition = t.selectRows columns whereCondition) := by
  constructor
  · intro hmissing
    unfold Database.tableExists at hmissing
    rw [tableMap_contains_iff] at hmissing
    have hnone : db.tables.find tableName = none := by
      cases h : db.tables.find tableName with
      | none => rfl
      | some t => rw [h] at hmissing; simp at hmissing
    unfold Database.insert Database.select
    rw [hnone]
    exact ⟨rfl, rfl, rfl⟩
  · intro t ht
    unfold Database.insert Database.select
    rw [ht]
    dsimp only
    refine ⟨rfl, rfl, tableMap_find_update_self _ _ t _ ht, ?_, ?_, rfl⟩
    · intro other hother
      exact tableMap_find_update_ne _ _ _ _ hother
    · exact tableMap_keys_update _ _ _

/-- Witness for C22: the scenario database, asked for the missing table `nope` and for its
table `t`. -/
theorem C22_insert_select_delegate_witness :
    scenarioDatabase.tableExists "nope" = false ∧
      (scenarioDatabase.insert "nope" ["2", "b"]).ok = false ∧
      scenarioDatabase.tables.find "t" = some (scenarioTable.insertRow ["1", "a"]).table ∧
      (scenarioDatabase.insert "t" ["2", "b"]).ok
        = ((scenarioTable.insertRow ["1", "a"]).table.insertRow ["2", "b"]).ok :=
  ⟨by decide,
    ((C22_insert_select_delegate scenarioDatabase "nope" ["2", "b"] [] "").1 (by decide)).1,
    by decide,
    ((C22_insert_select_delegate scenarioDatabase "t" ["2", "b"] [] "").2 _ (by decide)).1⟩

/-! ### C23: the pending-operations counter -/

/-- C23: starting from a database whose pending-operations counter is 0 and whose log
buffer is empty, on a store where the durable commit succeeds (whether it does depends only
on which temporary files can be opened for writing, which no call changes, so every commit
of the run succeeds): after the calls of `logOperation` for `operations`, `n` of them, the
counter equals `n mod 5`, the buffer holds exactly the last `n mod 5` logged texts in call
order, and the counter is below 5, the fifth pending operation having triggered a
checkpoint. -/
theorem C23_logOperation_counter (db : Database) (fs : FileSystem) (operations : List String)
    (hcounter : db.operationsSinceCheckpoint = 0) (hwal : db.wal = [])
    (hcommit : (db.saveToFile fs).ok = true) :
    (db.logAll fs operations).1.operationsSinceCheckpoint
        = ((operations.length % 5 : Nat) : Int) ∧
      (db.logAll fs operations).1.wal
        = operations.drop (operations.length - operations.length % 5) ∧
      (db.logAll fs operations).1.wal.length = operations.length % 5 ∧
      (db.logAll fs operations).1.operationsSinceCheckpoint < 5 := by
  obtain ⟨_, _, _, hc, hw⟩ := logAll_state db fs operations hcounter hwal hcommit
  refine ⟨hc, hw, ?_, ?_⟩
  · rw [hw, List.length_drop]
    omega
  · rw [hc]
    omega

/-- Witness for C23: seven operations logged on the scenario database leave two pending. -/
theorem C23_logOperation_counter_witness :
    scenarioDatabase.operationsSinceCheckpoint = 0 ∧ scenarioDatabase.wal = [] ∧
      (scenarioDatabase.saveToFile FileSystem.empty).ok = true ∧
      (scenarioDatabase.logAll FileSystem.empty
        ["a", "b", "c", "d", "e", "f", "g"]).1.wal = ["f", "g"] :=
  ⟨rfl, rfl, by decide,
    (C23_logOperation_counter scenarioDatabase FileSystem.empty
      ["a", "b", "c", "d", "e", "f", "g"] rfl rfl (by decide)).2.1⟩

/-! ### C24: checkpoint -/

/-- C24: `checkpoint` returns the result of `saveToFile` and leaves the store as
`saveToFile` leaves it; when the commit succeeds the pending-operations counter is 0 and the
log buffer is empty afterwards; when it fails the database, counter and buffer included, is
exactly as before the call; in both cases the tables and the name are unchanged. -/
theorem C24_checkpoint (db : Database) (fs : FileSystem) :
    (db.checkpoint fs).ok = (db.saveToFile fs).ok ∧
      ((db.saveToFile fs).ok = true →
        (db.checkpoint fs).db.operationsSinceCheckpoint = 0 ∧ (db.checkpoint fs).db.wal = []) ∧
      ((db.saveToFile fs).ok = false →
        (db.checkpoint fs).db.operationsSinceCheckpoint = db.operationsSinceCheckpoint ∧
        (db.checkpoint fs).db.wal = db.wal ∧ (db.checkpoint fs).db = db) ∧
      (db.checkpoint fs).db.tables = db.tables ∧
      (db.checkpoint fs).db.name = db.name := by
  unfold Database.checkpoint
  cases h : (db.saveToFile fs).ok <;> simp [h]

/-- Witness for C24: a checkpoint of the pending database that succeeds on the empty store
and one that fails on the read-only store. -/
theorem C24_checkpoint_witness :
    (pendingDatabase.saveToFile FileSystem.empty).ok = true ∧
      (pendingDatabase.checkpoint FileSystem.empty).db.wal = [] ∧
      (pendingDatabase.saveToFile readOnlyStore).ok = false ∧
      (pendingDatabase.checkpoint readOnlyStore).db = pendingDatabase :=
  ⟨by decide, ((C24_checkpoint pendingDatabase FileSystem.empty).2.1 (by decide)).2,
    by decide, ((C24_checkpoint pendingDatabase readOnlyStore).2.2.1 (by decide)).2.2⟩

/-! ### C25: saving and loading back -/

/-- C25: over a file store mapping paths to texts, for every database whose table names are
distinct keys without a newline, whose table count is a value of a 32-bit `int` and whose
tables each survive serialize/deserialize unchanged: `loadFromFile` after a successful
`saveToFile` returns a database with the same name and the same set of table names, in
which every name is bound to the table it was bound to before, column definitions and rows
in their order included; the statement does not depend on the order of the table list. -/
theorem C25_save_then_load (db : Database) (fs : FileSystem) (tableCountInit : Int)
    (inits : Nat → Int × Int)
    (hnodup : db.getTableNames.Nodup)
    (hnames : ∀ e ∈ db.tables, '\n' ∉ e.1.data)
    (hcount : (db.tables.length : Int) ≤ INT_MAX)
    (hround : ∀ e ∈ db.tables, ∀ c r, (Table.deserialize e.2.serialize c r).table = e.2)
    (hsaved : (db.saveToFile fs).ok = true) :
    ∃ loaded,
      (Database.loadFromFile (db.saveToFile fs).fs db.name tableCountInit inits).db
        = some loaded ∧
      loaded.name = db.name ∧
      (∀ k, k ∈ loaded.getTableNames ↔ k ∈ db.getTableNames) ∧
      (∀ k, loaded.tables.find k = db.tables.find k) ∧
      (∀ k t, db.tables.find k = some t →
        ∃ t', loaded.tables.find k = some t' ∧ t'.columns = t.columns ∧ t'.rows = t.rows) := by
  obtain ⟨loaded, hload, hname, htables⟩ :=
    loadFromFile_saveToFile db fs tableCountInit inits hnodup hnames hcount hround hsaved
  have hfind : ∀ k, loaded.tables.find k = db.tables.find k := by
    intro k
    rw [htables, find_foldl_assign _ _ _ hnodup]
    cases db.tables.find k <;> rfl
  refine ⟨loaded, hload, hname, ?_, hfind, ?_⟩
  · intro k
    unfold Database.getTableNames
    rw [tableMap_mem_names_iff, tableMap_mem_names_iff, hfind]
  · intro k t hk
    exact ⟨t, (hfind k).trans hk, rfl, rfl⟩

/-- Witness for C25: the database with two tables and three rows, saved on the empty store
and loaded back. -/
theorem C25_save_then_load_witness :
    ∃ loaded,
      (Database.loadFromFile (twoTableDatabase.saveToFile FileSystem.empty).fs
        twoTableDatabase.name 0 (fun _ => (0, 0))).db = some loaded ∧
      loaded.name = twoTableDatabase.name ∧
      (∀ k, k ∈ loaded.getTableNames ↔ k ∈ twoTableDatabase.getTableNames) ∧
      (∀ k, loaded.tables.find k = twoTableDatabase.tables.find k) ∧
      (∀ k t, twoTableDatabase.tables.find k = some t →
        ∃ t', loaded.tables.find k = some t' ∧ t'.columns = t.columns ∧ t'.rows = t.rows) :=
  C25_save_then_load twoTableDatabase FileSystem.empty 0 (fun _ => (0, 0))
    (by decide) (by decide) (by decide)
    (by
      intro e he c r
      have hcases : e = ("t", scenarioTable.insertAll [["1", "a"], ["2", "b"]]) ∨
          e = ("users", usersTable.insertAll [["1", "x@y"]]) := by
        simpa [twoTableDatabase] using he
      rcases hcases with rfl | rfl
      · exact deserialize_serialize _ (reachable_insertAll (Reachable.new _ _) _)
          ⟨by decide, by decide, by decide, by decide, by decide, by decide, by decide,
            by decide⟩ c r
      · exact deserialize_serialize _ (reachable_insertAll (Reachable.new _ _) _)
          ⟨by decide, by decide, by decide, by decide, by decide, by decide, by decide,
            by decide⟩ c r)
    (by decide)

/-! ### C26: a save that cannot open a temporary file -/

/-- C26: if opening the temporary metadata file or the temporary file of one of the tables
for writing fails, `saveToFile` fails; the committed `metadata.db` and every committed
`.tbl` file, like every path that is not one of its temporary files, keep exactly their
prior contents; when the temporary metadata file could not be opened no file is touched at
all, and otherwise the temporary metadata file and the temporary file of every table are
absent afterwards. -/
theorem C26_saveToFile_failure_keeps_committed (db : Database) (fs : FileSystem)
    (hfail : fs.canOpenForWriting db.tempMetaFile = false ∨
      ∃ e ∈ db.tables, fs.canOpenForWriting (db.tempTableFile e.1) = false) :
    (db.saveToFile fs).ok = false ∧
      (db.saveToFile fs).fs.files db.metadataFile = fs.files db.metadataFile ∧
      (∀ k, (db.saveToFile fs).fs.files (db.finalTableFile k)
        = fs.files (db.finalTableFile k)) ∧
      (∀ q, q ≠ db.tempMetaFile → (∀ e ∈ db.tables, q ≠ db.tempTableFile e.1) →
        (db.saveToFile fs).fs.files q = fs.files q) ∧
      (fs.canOpenForWriting db.tempMetaFile = false →
        (db.saveToFile fs).fs.files = fs.files) ∧
      (fs.canOpenForWriting db.tempMetaFile = true →
        (db.saveToFile fs).fs.files db.tempMetaFile = none ∧
        ∀ e ∈ db.tables, (db.saveToFile fs).fs.files (db.tempTableFile e.1) = none) := by
  have hok : (db.saveToFile fs).ok = false := by
    cases h : (db.saveToFile fs).ok with
    | false => rfl
    | true =>
      obtain ⟨hm, ht⟩ := (saveToFile_ok_iff db fs).mp h
      rcases hfail with hf | ⟨e, he, hf⟩
      · simp [FileSystem.canOpenForWriting, hm] at hf
      · simp [FileSystem.canOpenForWriting, ht e he] at hf
  have hframe := fun q => saveToFile_not_ok_frame db fs q hok
  refine ⟨hok, ?_, ?_, hframe, ?_, ?_⟩
  · exact hframe _ (tempMetaFile_ne_metadataFile db).symm
      (fun e _ => (tempTableFile_ne_metadataFile db e.1).symm)
  · intro k
    exact hframe _ (tempMetaFile_ne_finalTableFile db k).symm
      (fun e _ => (tempTableFile_ne_finalTableFile db e.1 k).symm)
  · intro hm
    have hm' : fs.unwritable db.tempMetaFile = true := by
      simpa [FileSystem.canOpenForWriting] using hm
    rw [saveToFile_of_meta_unwritable db fs hm']
    exact createDirectories_files fs db.name
  · intro hm
    have hm' : fs.unwritable db.tempMetaFile = false := by
      simpa [FileSystem.canOpenForWriting] using hm
    exact saveToFile_not_ok_temps db fs hok hm'

/-- Witness for C26: saving the grown scenario database on the store where the temporary
file of its table cannot be opened leaves the committed table file as it was. -/
theorem C26_saveToFile_failure_keeps_committed_witness :
    (lockedStore.canOpenForWriting grownDatabase.tempMetaFile = false ∨
        ∃ e ∈ grownDatabase.tables,
          lockedStore.canOpenForWriting (grownDatabase.tempTableFile e.1) = false) ∧
      (grownDatabase.saveToFile lockedStore).ok = false ∧
      (grownDatabase.saveToFile lockedStore).fs.files "db/t.tbl"
        = some "t\n2\nid,INT,5\nname,STRING,0\n1\n1,a\n" :=
  ⟨Or.inr (by decide),
    (C26_saveToFile_failure_keeps_committed grownDatabase lockedStore (Or.inr (by decide))).1,
    ((C26_saveToFile_failure_keeps_committed grownDatabase lockedStore
      (Or.inr (by decide))).2.2.1 "t").trans (by decide)⟩

/-! ### C27: a corrupt table file -/

/-- C27 (code bug): the metadata file of `corruptStore` lists `good`, `bad` and `gone`; the
file of `bad` has the word `xyz` where the row count belongs.  `loadFromFile` skips `gone`,
whose file is missing, but loads `bad` as a table without rows and reports it as loaded:
`Table::deserialize` never returns a null pointer, so the branch that would skip a corrupt
file is never taken. -/
theorem C27_corrupt_table_file_is_loaded (tableCountInit : Int) (inits : Nat → Int × Int) :
    (Database.loadFromFile corruptStore "db" tableCountInit inits).db.map
        Database.getTableNames = some ["bad", "good"] ∧
      (Database.loadFromFile corruptStore "db" tableCountInit inits).db.map
        (fun d => (d.tables.find "bad").map Table.rows) = some (some []) ∧
      (Database.loadFromFile corruptStore "db" tableCountInit inits).db.map
        (fun d => (d.tables.find "good").map Table.rows) = some (some [["7"]]) ∧
      (Database.loadFromFile corruptStore "db" tableCountInit inits).out
        = ["Loaded table: good", "Loaded table: bad",
           "Warning: Table file not found: db/gone.tbl"] :=
  ⟨rfl, rfl, rfl, rfl⟩

/-! ### C28: loading from a missing directory or without a metadata file -/

/-- C28: `loadFromFile` returns no database whenever the database directory does not exist
or no file `metadata.db` exists in it. -/
theorem C28_loadFromFile_missing (fs : FileSystem) (name : String) (tableCountInit : Int)
    (inits : Nat → Int × Int)
    (hmissing : fs.pathExists name = false ∨ fs.pathExists (name ++ "/metadata.db") = false) :
    (Database.loadFromFile fs name tableCountInit inits).db = none := by
  unfold Database.loadFromFile
  rcases hmissing with h | h
  · simp [h]
  · by_cases hdir : fs.pathExists name = true
    · simp [hdir, h]
    · simp [hdir]

/-- Witness for C28: the empty store has no directory `db`. -/
theorem C28_loadFromFile_missing_witness :
    (FileSystem.empty.pathExists "db" = false ∨
        FileSystem.empty.pathExists ("db" ++ "/metadata.db") = false) ∧
      (Database.loadFromFile FileSystem.empty "db" 0 (fun _ => (0, 0))).db = none :=
  ⟨Or.inl (by decide),
    C28_loadFromFile_missing FileSystem.empty "db" 0 (fun _ => (0, 0)) (Or.inl (by decide))⟩

/-! ### C29: the transaction log is never read -/

/-- C29: for any two stores that differ at most in the content or presence of
`<name>/transactions.log`, `loadFromFile` returns the same result, the same database with
the same tables, columns and rows or no database in both; a database it returns has an
empty log buffer and a pending-operations counter of 0. -/
theorem C29_log_never_replayed (name : String) (fs₁ fs₂ : FileSystem) (tableCountInit : Int)
    (inits : Nat → Int × Int) (hagree : AgreeOffLog name fs₁ fs₂) :
    Database.loadFromFile fs₁ name tableCountInit inits
        = Database.loadFromFile fs₂ name tableCountInit inits ∧
      (∀ db, (Database.loadFromFile fs₁ name tableCountInit inits).db = some db →
        (Database.loadFromFile fs₂ name tableCountInit inits).db = some db ∧
        db.wal = [] ∧ db.operationsSinceCheckpoint = 0) := by
  have heq := loadFromFile_agree name fs₁ fs₂ hagree tableCountInit inits
  refine ⟨heq, ?_⟩
  intro db hdb
  obtain ⟨_, hwal, hcounter⟩ := loadFromFile_fresh_log fs₁ name tableCountInit inits db hdb
  exact ⟨heq ▸ hdb, hwal, hcounter⟩

/-- Witness for C29: the saved scenario store without a log and with a log holding one
command. -/
theorem C29_log_never_replayed_witness :
    AgreeOffLog "db" savedStore
        (savedStore.writeFile ("db" ++ "/transactions.log") "INSERT INTO t VALUES (2, b)\n") ∧
      Database.loadFromFile savedStore "db" 0 (fun _ => (0, 0))
        = Database.loadFromFile
            (savedStore.writeFile ("db" ++ "/transactions.log") "INSERT INTO t VALUES (2, b)\n")
            "db" 0 (fun _ => (0, 0)) ∧
      (Database.loadFromFile savedStore "db" 0 (fun _ => (0, 0))).db = some scenarioDatabase :=
  ⟨fun p hp => ⟨by rw [writeFile_files, if_neg hp], rfl⟩,
    (C29_log_never_replayed "db" savedStore
      (savedStore.writeFile ("db" ++ "/transactions.log") "INSERT INTO t VALUES (2, b)\n")
      0 (fun _ => (0, 0)) (fun p hp => ⟨by rw [writeFile_files, if_neg hp], rfl⟩)).1,
    by decide⟩

/-! ### C30: checkpoint of a database without tables -/

/-- C30: for a database with zero tables, `checkpoint` succeeds when the temporary metadata
file can be opened for writing, and the committed `metadata.db` is then the single line `0`:
table count 0 and no table names. -/
theorem C30_checkpoint_without_tables (db : Database) (fs : FileSystem)
    (htables : db.tables = [])
    (hwritable : fs.canOpenForWriting db.tempMetaFile = true) :
    (db.checkpoint fs).ok = true ∧
      (db.checkpoint fs).fs.files db.metadataFile = some "0\n" ∧
      (db.checkpoint fs).db.tables = [] := by
  have hm : fs.unwritable db.tempMetaFile = false := by
    simpa [FileSystem.canOpenForWriting] using hwritable
  have hw : (db.writeTempTables db.tables
      ((fs.createDirectories db.name).writeFile db.tempMetaFile db.metadataText)).2 = none := by
    rw [htables]; rfl
  have hsave := saveToFile_of_written db fs hm hw
  have htext : db.metadataText = "0\n" := by
    unfold Database.metadataText
    rw [htables]
    rfl
  refine ⟨?_, ?_, ?_⟩
  · rw [checkpoint_ok, hsave]
  · rw [checkpoint_fs, hsave]
    show (db.tables.foldl db.renameTableFile _).files _ = _
    rw [htables, List.foldl_nil]
    rw [rename_files _ _ _ _ "0\n", if_pos rfl]
    show (Database.writeTempTables db [] _).1.files db.tempMetaFile = _
    rw [Database.writeTempTables, writeFile_files, if_pos rfl, htext]
  · rw [(checkpoint_name_tables db fs).2, htables]

/-- Witness for C30: the checkpoint of the empty database on the empty store. -/
theorem C30_checkpoint_without_tables_witness :
    emptyDatabase.tables = [] ∧
      FileSystem.empty.canOpenForWriting emptyDatabase.tempMetaFile = true ∧
      (emptyDatabase.checkpoint FileSystem.empty).ok = true ∧
      (emptyDatabase.checkpoint FileSystem.empty).fs.files "db/metadata.db" = some "0\n" :=
  ⟨rfl, by decide,
    (C30_checkpoint_without_tables emptyDatabase FileSystem.empty rfl (by decide)).1,
    (C30_checkpoint_without_tables emptyDatabase FileSystem.empty rfl (by decide)).2.1⟩

/-! ### C31: insertRow rejects nothing beyond the stated checks -/

/-- C31: `insertRow` succeeds, printing nothing and appending the row, for every value list
that has the right length, holds a non-empty value in every NOT_NULL column, whose value in
the primary-key column (when the table has one) is not yet a key of the primary-key index,
and whose non-empty values in UNIQUE columns that are not PRIMARY_KEY are not yet in those
columns' value sets. -/
theorem C31_insertRow_accepts_valid_row (t : Table) (values : List String)
    (hlen : values.length = t.columns.length)
    (hnotNull : ∀ i, i < t.columns.length → (t.col i).isNotNull = true →
      values.getD i "" ≠ "")
    (hkey : ∀ pk, t.getPrimaryKeyColumnIndex = some pk →
      t.primaryKeyIndex.contains (values.getD pk "") = false)
    (hunique : ∀ i, i < t.columns.length → (t.col i).isUnique = true →
      (t.col i).isPrimaryKey = false → values.getD i "" ≠ "" →
      (t.uniqueIndexes.getD i []).contains (values.getD i "") = false) :
    (t.insertRow values).ok = true ∧ (t.insertRow values).out = [] ∧
      (t.insertRow values).table.rows = t.rows ++ [values] ∧
      (t.insertRow values).table.getRowCount = t.getRowCount + 1 := by
  have hv := (validateRowMsg_eq_none_iff t values).mpr hlen
  have hc := (checkConstraintsMsg_eq_none_iff t values).mpr
    ⟨(notNullViolation_eq_none_iff t values).mpr hnotNull,
      (primaryKeyViolation_eq_none_iff t values).mpr hkey,
      (uniqueViolation_eq_none_iff t values).mpr hunique⟩
  unfold Table.insertRow
  rw [hv, hc]
  refine ⟨rfl, rfl, rfl, ?_⟩
  simp [Table.getRowCount]

/-- Witness for C31: a second account with a new key and a new address. -/
theorem C31_insertRow_accepts_valid_row_witness :
    (accountsTable.insertRow ["2", "c@d", "y"]).ok = true ∧
      (accountsTable.insertRow ["2", "c@d", "y"]).out = [] ∧
      (accountsTable.insertRow ["2", "c@d", "y"]).table.rows
        = accountsTable.rows ++ [["2", "c@d", "y"]] ∧
      (accountsTable.insertRow ["2", "c@d", "y"]).table.getRowCount
        = accountsTable.getRowCount + 1 :=
  C31_insertRow_accepts_valid_row accountsTable ["2", "c@d", "y"] (by decide) (by decide)
    (fun pk hpk => by
      have h0 : accountsTable.getPrimaryKeyColumnIndex = some 0 := by decide
      rw [h0] at hpk
      injection hpk with hpk
      subst hpk
      decide)
    (by decide)

/-! ### C32: the order of the constraint checks -/

/-- C32 counterexample: the value list `1, a@b, (empty)` repeats the primary-key value `1`
of the stored account and its address `a@b` in the UNIQUE column, and it is reported as a
NOT NULL violation of the column `name`, not as a duplicate primary key. -/
theorem C32_counterexample :
    ["1", "a@b", ""].length = accountsTable.columns.length ∧
      accountsTable.getPrimaryKeyColumnIndex = some 0 ∧
      accountsTable.primaryKeyIndex.contains "1" = true ∧
      (accountsTable.col 1).isUnique = true ∧ (accountsTable.col 1).isPrimaryKey = false ∧
      (accountsTable.uniqueIndexes.getD 1 []).contains "a@b" = true ∧
      (accountsTable.insertRow ["1", "a@b", ""]).out
        = ["Error: Column 'name' cannot be NULL"] ∧
      (accountsTable.insertRow ["1", "a@b", ""]).out
        ≠ ["Error: Duplicate primary key value '1'"] := by
  decide

/-- C32 (amended): constraints are checked in the order NOT_NULL, PRIMARY_KEY, UNIQUE.  A
value list of the right length that holds an empty value in a NOT_NULL column is rejected
with the NOT NULL message of such a column, whether or not it also repeats a primary-key
value; one that holds no empty value in a NOT_NULL column and repeats an existing
primary-key value is rejected with the duplicate-primary-key message, whether or not it
also repeats a value of a UNIQUE column. -/
theorem C32_check_order (t : Table) (values : List String)
    (hlen : values.length = t.columns.length) :
    ((∃ i, i < t.columns.length ∧ (t.col i).isNotNull = true ∧ values.getD i "" = "") →
      ∃ j, j < t.columns.length ∧ (t.col j).isNotNull = true ∧ values.getD j "" = "" ∧
        t.insertRow values = Table.InsertResult.mk false t
          ["Error: Column '" ++ (t.col j).name ++ "' cannot be NULL"]) ∧
    ((∀ i, i < t.columns.length → (t.col i).isNotNull = true → values.getD i "" ≠ "") →
      ∀ pk, t.getPrimaryKeyColumnIndex = some pk →
        t.primaryKeyIndex.contains (values.getD pk "") = true →
        t.insertRow values = Table.InsertResult.mk false t
          ["Error: Duplicate primary key value '" ++ values.getD pk "" ++ "'"]) := by
  constructor
  · rintro ⟨i, hi, hnn, hv⟩
    cases hm : t.notNullViolation values with
    | none =>
      exact absurd hv ((notNullViolation_eq_none_iff t values).mp hm i hi hnn)
    | some m =>
      obtain ⟨j, hj, hjnn, hjv, hmsg⟩ := notNullViolation_message t values m hm
      refine ⟨j, hj, hjnn, hjv, ?_⟩
      rw [← hmsg]
      apply insertRow_of_checkConstraintsMsg t values m hlen
      unfold Table.checkConstraintsMsg
      rw [hm]
  · intro hnn pk hpk hcontains
    apply insertRow_of_checkConstraintsMsg t values _ hlen
    unfold Table.checkConstraintsMsg
    rw [(notNullViolation_eq_none_iff t values).mpr hnn]
    unfold Table.primaryKeyViolation
    rw [hpk]
    simp only [hcontains, if_true]

/-- Witness for C32: an empty name with a repeated key, and a repeated key with a repeated
address. -/
theorem C32_check_order_witness :
    (∃ j, j < accountsTable.columns.length ∧ (accountsTable.col j).isNotNull = true ∧
        ["1", "c@d", ""].getD j "" = "" ∧
        accountsTable.insertRow ["1", "c@d", ""] = Table.InsertResult.mk false accountsTable
          ["Error: Column '" ++ (accountsTable.col j).name ++ "' cannot be NULL"]) ∧
      accountsTable.insertRow ["1", "a@b", "y"] = Table.InsertResult.mk false accountsTable
        ["Error: Duplicate primary key value '" ++ ["1", "a@b", "y"].getD 0 "" ++ "'"] :=
  ⟨(C32_check_order accountsTable ["1", "c@d", ""] (by decide)).1
      ⟨2, by decide, by decide, by decide⟩,
    (C32_check_order accountsTable ["1", "a@b", "y"] (by decide)).2 (by decide) 0
      (by decide) (by decide)⟩

/-! ### C33: filtering is an order-preserving scan -/

/-- C33: for every table, column list and condition, `selectRows(cols, cond)` is an
order-preserving subsequence of `selectRows(cols, "")`: it is the projection of the stored
rows that satisfy the condition, taken in insertion order, where the unfiltered result is
the projection of all stored rows; and the result does not depend on the primary-key index
or the unique sets, which are never consulted. -/
theorem C33_filter_is_subsequence (t : Table) (cols : List String) (cond : String) :
    (t.selectRows cols cond).Sublist (t.selectRows cols "") ∧
      (∃ kept : List (List String), kept.Sublist t.rows ∧
        t.selectRows cols cond
          = kept.map (fun row => (t.columnIndices cols).map (fun idx => row.getD idx "")) ∧
        t.selectRows cols ""
          = t.rows.map (fun row => (t.columnIndices cols).map (fun idx => row.getD idx ""))) ∧
      ∀ (primaryKeyIndex : PkMap) (uniqueIndexes : List StrSet),
        Table.selectRows { t with primaryKeyIndex := primaryKeyIndex,
                                  uniqueIndexes := uniqueIndexes } cols cond
          = t.selectRows cols cond := by
  refine ⟨?_, ⟨_, List.filter_sublist _, selectRows_eq t cols cond,
    selectRows_empty_condition t cols⟩, fun _ _ => rfl⟩
  rw [selectRows_eq t cols cond, selectRows_empty_condition]
  exact (List.filter_sublist _).map _

/-! ### C34: column definitions with constraints -/

/-- C34: `parseColumnDefsWithConstraints` turns each comma-separated definition
`name type [constraints]` into a column: the text is split at the commas, each piece
trimmed and the empty ones dropped; each piece is split at the spaces into its words; a
piece of at least two words gives the column whose name and type are the first two words
and whose bitmask is the OR of PRIMARY_KEY = 1 when the later words hold PRIMARY directly
followed by KEY, UNIQUE = 2 when they hold UNIQUE, and NOT_NULL = 4 when they hold NOT
directly followed by NULL, the words compared in upper case.  For the example of the help
text it yields (id, INT, 1), (name, STRING, 4), (email, STRING, 2) in that order, and the
same bitmasks for keywords in lower or mixed case. -/
theorem C34_parseColumnDefsWithConstraints (columnDefs : String) :
    parseColumnDefsWithConstraints columnDefs
        = (wordsAt ',' columnDefs).filterMap
            (fun part => columnOfWords (wordsAt ' ' part)) ∧
      (∀ name type keywords, columnOfWords (name :: type :: keywords)
        = some { name := name, type := type, constraints := keywordBitmask keywords }) ∧
      parseColumnDefsWithConstraints
          "id INT PRIMARY KEY, name STRING NOT NULL, email STRING UNIQUE"
        = [{ name := "id", type := "INT", constraints := 1 },
           { name := "name", type := "STRING", constraints := 4 },
           { name := "email", type := "STRING", constraints := 2 }] ∧
      parseColumnDefsWithConstraints "id int primary key, name string Not Null unique"
        = [{ name := "id", type := "int", constraints := 1 },
           { name := "name", type := "string", constraints := 6 }] :=
  ⟨parseColumnDefs_eq columnDefs, fun _ _ _ => rfl, by decide, by decide⟩

/-! ### C35: the round trip of a reachable table -/

/-- C35: for every table reachable by `insertRow` whose name contains no newline, whose
column names and types contain no comma or newline, whose cells contain no comma or
newline and none of whose rows ends in an empty cell, the bitmasks and the two counts being
values of the type `int` that `serialize` and `deserialize` pass them through:
`deserialize(serialize(T))` has the same name, the same column definitions (name, type,
bitmask) and the same rows in the same order as `T`, and is `T` altogether, indexes
included. -/
theorem C35_round_trip_of_reachable (t : Table) (hreach : Reachable t)
    (hname : '\n' ∉ t.name.data)
    (hcolumnNames : ∀ col ∈ t.columns, ',' ∉ col.name.data ∧ '\n' ∉ col.name.data)
    (hcolumnTypes : ∀ col ∈ t.columns, ',' ∉ col.type.data ∧ '\n' ∉ col.type.data)
    (hcells : ∀ row ∈ t.rows, ∀ cell ∈ row, ',' ∉ cell.data ∧ '\n' ∉ cell.data)
    (hlast : ∀ row ∈ t.rows, row.getLast? ≠ some "")
    (hbitmasks : ∀ col ∈ t.columns, INT_MIN ≤ col.constraints ∧ col.constraints ≤ INT_MAX)
    (hcolumnCount : (t.columns.length : Int) ≤ INT_MAX)
    (hrowCount : (t.rows.length : Int) ≤ INT_MAX)
    (columnCountInit rowCountInit : Int) :
    (Table.deserialize t.serialize columnCountInit rowCountInit).table.name = t.name ∧
      (Table.deserialize t.serialize columnCountInit rowCountInit).table.columns = t.columns ∧
      (Table.deserialize t.serialize columnCountInit rowCountInit).table.rows = t.rows ∧
      (Table.deserialize t.serialize columnCountInit rowCountInit).table = t := by
  have h := deserialize_serialize t hreach
    ⟨hname, hcolumnNames, hcolumnTypes, hbitmasks, hcells, hlast, hcolumnCount, hrowCount⟩
    columnCountInit rowCountInit
  rw [h]
  exact ⟨rfl, rfl, rfl, rfl⟩

/-- Witness for C35: the accounts table with its row. -/
theorem C35_round_trip_of_reachable_witness :
    (Table.deserialize accountsTable.serialize 3 9).table.name = accountsTable.name ∧
      (Table.deserialize accountsTable.serialize 3 9).table.columns = accountsTable.columns ∧
      (Table.deserialize accountsTable.serialize 3 9).table.rows = accountsTable.rows ∧
      (Table.deserialize accountsTable.serialize 3 9).table = accountsTable :=
  C35_round_trip_of_reachable accountsTable (reachable_insertAll (Reachable.new _ _) _)
    (by decide) (by decide) (by decide) (by decide) (by decide) (by decide) (by decide)
    (by decide) 3 9

/-! ### C36: a condition on the primary key -/

/-- C36: for every table reachable from construction by `insertRow` calls that has a
primary-key column, every name `k` without `=` that `getColumnIndex` resolves to that
column, and every literal `v`: `selectRows(cols, k + "=" + v)` returns at most one row. -/
theorem C36_key_condition_at_most_one_row (t : Table) (hreach : Reachable t)
    (cols : List String) (k v : String) (pk : Nat)
    (hpk : t.getPrimaryKeyColumnIndex = some pk) (hk : t.getColumnIndex k = some pk)
    (heq : '=' ∉ k.data) :
    (t.selectRows cols (k ++ "=" ++ v)).length ≤ 1 := by
  rw [selectRows_of_resolved t cols k v pk heq hk, List.length_map]
  apply filter_length_le_one t.rows (fun row => row.getD pk "") _
    (String.mk (stripQuotes v.data)) (reachable_key_nodup hreach pk hpk)
  intro row _ hrow
  have hcell : row[pk]? = some (String.mk (stripQuotes v.data)) := of_decide_eq_true hrow
  rw [List.getD_eq_getElem?_getD, hcell]
  rfl

/-- Witness for C36: the key `1` of the accounts table. -/
theorem C36_key_condition_at_most_one_row_witness :
    (accountsTable.selectRows [] ("id" ++ "=" ++ "1")).length ≤ 1 :=
  C36_key_condition_at_most_one_row accountsTable
    (reachable_insertAll (Reachable.new _ _) _) [] "id" "1" 0 (by decide) (by decide)
    (by decide)

/-! ### C37: a condition is split at its first `=` -/

/-- C37: a condition is split at its first `=`: for every text `k` without `=` and every
text `v`, the condition `k=v` names the column `k`, untrimmed, and the literal `v`,
untrimmed and with every later `=` kept, so that it selects the rows whose cell in the
column named `k` equals `v` (quote stripping applied) and no row when no column is named
`k`.  Hence in a table with a column named `a` the condition `a=b=c` selects exactly the
rows whose `a` cell is `b=c`, and the condition `a = b` selects no row unless a column is
named `a` followed by a space, in which case it selects the rows whose cell there is
a space followed by `b`. -/
theorem C37_condition_split_at_first_equals (t : Table) (cols : List String) :
    (∀ (k v : String) (idx : Nat), '=' ∉ k.data → t.getColumnIndex k = some idx →
      t.selectRows cols (k ++ "=" ++ v) =
        (t.rows.filter
            (fun row => decide (row[idx]? = some (String.mk (stripQuotes v.data))))).map
          (projectRow t cols)) ∧
    (∀ (k v : String), '=' ∉ k.data → (∀ col ∈ t.columns, col.name ≠ k) →
      t.selectRows cols (k ++ "=" ++ v) = []) ∧
    (∀ idx, t.getColumnIndex "a" = some idx →
      t.selectRows cols "a=b=c" =
        (t.rows.filter (fun row => decide (row[idx]? = some "b=c"))).map
          (projectRow t cols)) ∧
    ((∀ col ∈ t.columns, col.name ≠ "a ") → t.selectRows cols "a = b" = []) ∧
    (∀ idx, t.getColumnIndex "a " = some idx →
      t.selectRows cols "a = b" =
        (t.rows.filter (fun row => decide (row[idx]? = some " b"))).map
          (projectRow t cols)) := by
  have h1 : ("a=b=c" : String) = "a" ++ "=" ++ "b=c" := by decide
  have h2 : ("a = b" : String) = "a " ++ "=" ++ " b" := by decide
  refine ⟨fun k v idx hk hidx => selectRows_of_resolved t cols k v idx hk hidx,
    fun k v hk hnone => selectRows_of_unresolved t cols k v hk
      (getColumnIndex_eq_none t k hnone), ?_, ?_, ?_⟩
  · intro idx hidx
    rw [h1, selectRows_of_resolved t cols "a" "b=c" idx (by decide) hidx]
    rfl
  · intro hnone
    rw [h2]
    exact selectRows_of_unresolved t cols "a " " b" (by decide)
      (getColumnIndex_eq_none t "a " hnone)
  · intro idx hidx
    rw [h2, selectRows_of_resolved t cols "a " " b" idx (by decide) hidx]
    rfl

/-- Witness for C37: the table whose column `a` holds the cells `b=c`, `b` and ` b`. -/
theorem C37_condition_split_at_first_equals_witness :
    equalsTable.selectRows [] "a=b=c" = [["b=c"]] ∧ equalsTable.selectRows [] "a = b" = [] :=
  ⟨((C37_condition_split_at_first_equals equalsTable []).2.2.1 0 (by decide)).trans
      (by decide),
    (C37_condition_split_at_first_equals equalsTable []).2.2.2.1 (by decide)⟩

/-! ### C38: the literal that is one double quote -/

/-- C38: quote stripping is total and also fires for the literal that is exactly one
double-quote character, which it turns into the empty string: for a column `c` that
resolves, the condition `c="` selects exactly the rows whose `c` cell is empty.  With every
string and vector access of `evaluateCondition` checked, the checked evaluation never
fails and returns what the unchecked one returns, for every row and every condition, so no
out-of-range access occurs for any literal. -/
theorem C38_single_quote_literal (t : Table) (cols : List String) (c : String) (idx : Nat)
    (hc : '=' ∉ c.data) (hidx : t.getColumnIndex c = some idx) :
    stripQuotes "\"".data = [] ∧
      t.selectRows cols (c ++ "=" ++ "\"") =
        (t.rows.filter (fun row => decide (row[idx]? = some ""))).map (projectRow t cols) ∧
      (∀ value, stripQuotesChecked value = some (stripQuotes value)) ∧
      (∀ row condition,
        t.evaluateConditionChecked row condition = some (t.evaluateCondition row condition)) := by
  refine ⟨by decide, ?_, stripQuotesChecked_eq, evaluateConditionChecked_eq t⟩
  rw [selectRows_of_resolved t cols c "\"" idx hc hidx]
  rfl

/-- Witness for C38: the table holding the cells `"` and the empty string. -/
theorem C38_single_quote_literal_witness :
    quoteTable.selectRows [] ("c" ++ "=" ++ "\"") = [[""]] :=
  ((C38_single_quote_literal quoteTable [] "c" 0 (by decide) (by decide)).2.1).trans
    (by decide)

end Claims

end SolidDB
